import Mathlib

/-!
# High-availability façade of `src/sdk/ha_tera.cc`

A shallow embedding of the replica-set table (`HATableImpl`), of its asynchronous
call-checkers and of the replica-set client (`HAClientImpl`), followed by theorems
about the fan-out policies.

Conventions of the embedding:

* a `RowMutation*` / `RowReader*` is a natural number (its address); the objects
  live in a world (`MuWorld`, `RdWorld`) that maps addresses to their fields;
* a replica (`TableImpl*`) is modelled by what its synchronous calls leave behind
  in the request object; an asynchronous call only records a dispatch, and the
  completion is delivered later by the replica layer;
* every call made to a replica and every `Reset()` is appended to the world's `log`;
* loop counters (`failed_count`, `_failed_count`, `_cluster_index`, `i`, `j`) are natural
  numbers: each of them grows by at most one per replica, resp. per row, of a vector that
  exists in memory, so none of them wraps; the one subtraction on a `size_t`, the start value
  `size() - 1` of `ShuffleArray`, is computed modulo `2^64`;
* timestamps are `int64_t`: the difference of two timestamps and its `abs`, in `MergeResult`,
  are computed modulo `2^64` in two's complement, as the compiled code computes them;
* an operation that divides by zero or indexes a vector out of range yields `none`.
-/

namespace tera

/-! ## Errors, cells, events -/

/-- Modelled from the spec: the error kinds of `ErrorCode::ErrorCodeType`, declared in a
header that is not part of `src/`; the façade itself only names `kOK` and `kNotImpl`. -/
inductive ErrorCodeType where
  | kOK
  | kNotFound
  | kBadParam
  | kSystem
  | kTimeout
  | kBusy
  | kNoQuota
  | kNoAuth
  | kUnknown
  | kNotImpl
  deriving DecidableEq, Repr

/-- Modelled from the spec: an `ErrorCode` is a `{kind, reason}` pair, read with `GetType()` and
`GetReason()` and overwritten with `SetFailed(kind, reason)`. -/
structure ErrorCode where
  GetType : ErrorCodeType
  GetReason : String
  deriving DecidableEq, Repr

/-- The value left by `err->SetFailed(type, reason)`. -/
def ErrorCode.SetFailed (_err : ErrorCode) (type : ErrorCodeType) (reason : String) : ErrorCode :=
  ⟨type, reason⟩

/-- The error slot of a freshly reset request. -/
def ErrorCode.ok : ErrorCode := ⟨ErrorCodeType.kOK, ""⟩

/-- Modelled from the spec: a cell `(family, qualifier, timestamp, value)` of a row result
(`KeyValuePair`); timestamps are signed. -/
structure KeyValuePair where
  column_family : String
  qualifier : String
  timestamp : Int
  value : String
  deriving DecidableEq, Repr

/-- Modelled from the spec: the result buffer of a reader, the list `key_values` of a `RowResult`. -/
abbrev RowResult := List KeyValuePair

/-- What the façade does to the outside, in program order. -/
inductive Event where
  /-- A synchronous call `table_set[i]->Op(rows)`; scalar operations have no rows. -/
  | invoke (i : Nat) (rows : List Nat)
  /-- An asynchronous dispatch of request `row` to replica `i`. -/
  | dispatch (i : Nat) (row : Nat)
  /-- A `Reset()` of request `row`. -/
  | reset (row : Nat)
  deriving DecidableEq, Repr

/-- The replica indices of the synchronous calls of a log, in order. -/
def invoked : List Event → List Nat
  | [] => []
  | Event.invoke i _ :: l => i :: invoked l
  | _ :: l => invoked l

/-- The replica indices of the asynchronous dispatches of a log, in order. -/
def dispatched : List Event → List Nat
  | [] => []
  | Event.dispatch i _ :: l => i :: dispatched l
  | _ :: l => dispatched l

/-- The synchronous calls of a log with the rows they submitted, in order. -/
def submitted : List Event → List (Nat × List Nat)
  | [] => []
  | Event.invoke i rows :: l => (i, rows) :: submitted l
  | _ :: l => submitted l

/-! ## Replicas -/

/-- Modelled from the spec: one replica table (`TableImpl`, defined outside `src/`), seen through
what its synchronous operations leave in the caller's objects. `ApplyMutation row` is the error
left in the slot of mutation `row`; `Get row` is the error and the result left in reader `row`;
a scalar write returns its `bool` together with the value left in `*err`; so do the two scalar
reads, `Get_string` (value in a `std::string*`) and `Get_int64` (value in an `int64_t*`);
`Scan` is the returned stream (`none` for `NULL`) with the value left in `*err`. -/
structure TableImpl where
  ApplyMutation : Nat → ErrorCode := fun _ => ErrorCode.ok
  Get : Nat → ErrorCode × RowResult := fun _ => (ErrorCode.ok, [])
  Put : Bool × ErrorCode := (true, ErrorCode.ok)
  Add : Bool × ErrorCode := (true, ErrorCode.ok)
  AddInt64 : Bool × ErrorCode := (true, ErrorCode.ok)
  PutIfAbsent : Bool × ErrorCode := (true, ErrorCode.ok)
  Append : Bool × ErrorCode := (true, ErrorCode.ok)
  Get_string : Bool × ErrorCode := (true, ErrorCode.ok)
  Get_int64 : Bool × ErrorCode := (true, ErrorCode.ok)
  Scan : Option Nat × ErrorCode := (some 0, ErrorCode.ok)

/-- The replica-set table: its ordered replica list `_tables`. -/
structure HATableImpl where
  _tables : List TableImpl

/-! ## Scalar writes (`Put`, `Add`, `AddInt64`, `PutIfAbsent`, `Append`) -/

/-- Locals of a scalar write together with the caller's `*err` and the call log. -/
structure WriteState where
  failed_count : Nat
  err : ErrorCode
  log : List Event

/-- The loop `for (i = 0; i < _tables.size(); i++)` of a scalar write, from replica `i` on;
`op` selects the replica operation that is called. -/
def HATableImpl.write_loop (op : TableImpl → Bool × ErrorCode) :
    List TableImpl → Nat → WriteState → WriteState
  | [], _, s => s
  | t :: ts, i, s =>
    let ok := (op t).1
    let s1 : WriteState := { s with err := (op t).2, log := s.log ++ [Event.invoke i []] }
    let s2 : WriteState := if !ok then { s1 with failed_count := s1.failed_count + 1 } else s1
    HATableImpl.write_loop op ts (i + 1) s2

/-- Result of a scalar write: the returned `bool`, the caller's `*err`, the calls made. -/
structure WriteResult where
  ok : Bool
  err : ErrorCode
  log : List Event

/-- The common body of the scalar writes: all of them run the same loop and the same
final test, and differ only in the replica operation `op`. -/
def HATableImpl.write (self : HATableImpl) (op : TableImpl → Bool × ErrorCode)
    (err : ErrorCode) : WriteResult :=
  let s := HATableImpl.write_loop op self._tables 0 ⟨0, err, []⟩
  if s.failed_count >= self._tables.length then
    ⟨false, s.err, s.log⟩
  else
    ⟨true, s.err.SetFailed ErrorCodeType.kOK "success", s.log⟩

/-- Scalar `Put` (all four overloads have this body). -/
def HATableImpl.Put (self : HATableImpl) (err : ErrorCode) : WriteResult :=
  self.write TableImpl.Put err

/-- Scalar `Add`. -/
def HATableImpl.Add (self : HATableImpl) (err : ErrorCode) : WriteResult :=
  self.write TableImpl.Add err

/-- Scalar `AddInt64`. -/
def HATableImpl.AddInt64 (self : HATableImpl) (err : ErrorCode) : WriteResult :=
  self.write TableImpl.AddInt64 err

/-- Scalar `PutIfAbsent`. -/
def HATableImpl.PutIfAbsent (self : HATableImpl) (err : ErrorCode) : WriteResult :=
  self.write TableImpl.PutIfAbsent err

/-- Scalar `Append`. -/
def HATableImpl.Append (self : HATableImpl) (err : ErrorCode) : WriteResult :=
  self.write TableImpl.Append err

/-! ## Row mutations and the asynchronous put checker -/

/-- Fields of `PutCallbackChecker`; `_row_mutate` is the address of the mutation. -/
structure PutCallbackChecker where
  _has_call : Bool
  _cluster_index : Nat
  _clusters : List TableImpl
  _row_mutate : Nat
  _failed_count : Nat

/-- The constructor of `PutCallbackChecker`. -/
def PutCallbackChecker.new (clusters : List TableImpl) (row_mutate : Nat) : PutCallbackChecker :=
  { _has_call := false, _cluster_index := 0, _clusters := clusters, _row_mutate := row_mutate,
    _failed_count := 0 }

/-- The row mutations that exist, by address, with the log of what was done to the replicas. -/
structure MuWorld where
  IsAsync : Nat → Bool
  GetError : Nat → ErrorCode
  call_checker : Nat → Option PutCallbackChecker
  log : List Event

/-- Modelled from the spec: `RowMutationImpl::Reset()` (defined outside `src/`) clears the error
slot to OK and keeps the user payload and the callback attachment. -/
def MuWorld.Reset (w : MuWorld) (row_mu : Nat) : MuWorld :=
  { w with GetError := Function.update w.GetError row_mu ErrorCode.ok,
           log := w.log ++ [Event.reset row_mu] }

/-- Modelled from the spec: `SetCallChecker(checker)` attaches a completion gate to a mutation. -/
def MuWorld.SetCallChecker (w : MuWorld) (row_mu : Nat) (c : PutCallbackChecker) : MuWorld :=
  { w with call_checker := Function.update w.call_checker row_mu (some c) }

/-- A synchronous `tables[i]->ApplyMutation(rows)`: replica `t` leaves its error in every row. -/
def MuWorld.call (w : MuWorld) (t : TableImpl) (i : Nat) (rows : List Nat) : MuWorld :=
  { w with GetError := fun r => if r ∈ rows then t.ApplyMutation r else w.GetError r,
           log := w.log ++ [Event.invoke i rows] }

/-- An asynchronous `tables[i]->ApplyMutation(row_mu)`: returns at once, nothing is written yet. -/
def MuWorld.dispatch (w : MuWorld) (i : Nat) (row_mu : Nat) : MuWorld :=
  { w with log := w.log ++ [Event.dispatch i row_mu] }

/-- `PutCallbackChecker::NeedCall`: the returned flag, the checker afterwards, the world
afterwards. The argument `code` is not read by the source. -/
def PutCallbackChecker.NeedCall (self : PutCallbackChecker) (w : MuWorld)
    (_code : ErrorCodeType) : Bool × PutCallbackChecker × MuWorld :=
  if self._has_call then
    (false, self, w)
  else
    let self1 := { self with _cluster_index := self._cluster_index + 1 }
    if self1._cluster_index >= self1._clusters.length then
      if (w.GetError self1._row_mutate).GetType ≠ ErrorCodeType.kOK then
        let self2 := { self1 with _failed_count := self1._failed_count + 1 }
        let w1 := if self2._failed_count < self2._clusters.length then
          w.Reset self2._row_mutate else w
        (true, { self2 with _has_call := true }, w1)
      else
        (true, { self1 with _has_call := true }, w)
    else
      let self2 := if (w.GetError self1._row_mutate).GetType ≠ ErrorCodeType.kOK then
        { self1 with _failed_count := self1._failed_count + 1 } else self1
      let w1 := w.Reset self2._row_mutate
      let w2 := w1.dispatch self2._cluster_index self2._row_mutate
      (false, self2, w2)

/-- A completion reported by the replica layer: the code handed to `NeedCall` and what the
replica left in the request object. -/
structure Completion where
  code : ErrorCodeType
  error : ErrorCode
  result : RowResult

/-- The completion of a replica that finished with error `e` and result `r`. -/
def Completion.of (e : ErrorCode) (r : RowResult) : Completion :=
  { code := e.GetType, error := e, result := r }

/-- Modelled from the spec: the completion path of the replica layer for an asynchronous
mutation (outside `src/`): the replica writes its error into the mutation, then asks the
attached checker whether the user callback may run. -/
def MuWorld.completed (w : MuWorld) (row_mu : Nat) (c : Completion) : MuWorld :=
  { w with GetError := Function.update w.GetError row_mu c.error }

/-- One completion of an asynchronous mutation seen by its `PutCallbackChecker`. -/
def PutCallbackChecker.complete (s : PutCallbackChecker × MuWorld) (c : Completion) :
    Bool × (PutCallbackChecker × MuWorld) :=
  let r := s.1.NeedCall (s.2.completed s.1._row_mutate c) c.code
  (r.1, (r.2.1, r.2.2))

/-- Runs a completion gate over a sequence of completions and collects the returned flags. -/
def feed {σ ε : Type} (step : σ → ε → Bool × σ) : σ → List ε → List Bool × σ
  | s, [] => ([], s)
  | s, e :: es =>
    let r := step s e
    let rr := feed step r.2 es
    (r.1 :: rr.1, rr.2)

/-- The synchronous loop of `ApplyMutation(RowMutation*)`, from replica `i` on;
`size` is `_tables.size()`. -/
def HATableImpl.ApplyMutation_loop (size : Nat) (row_mu : Nat) :
    List TableImpl → Nat → Nat → MuWorld → MuWorld
  | [], _, _, w => w
  | t :: ts, i, failed_count, w =>
    let w1 := w.call t i [row_mu]
    let failed_count1 :=
      if (w1.GetError row_mu).GetType ≠ ErrorCodeType.kOK then failed_count + 1 else failed_count
    let w2 := if failed_count1 < size then w1.Reset row_mu else w1
    HATableImpl.ApplyMutation_loop size row_mu ts (i + 1) failed_count1 w2

/-- `HATableImpl::ApplyMutation(RowMutation*)`. -/
def HATableImpl.ApplyMutation (self : HATableImpl) (w : MuWorld) (row_mu : Nat) : MuWorld :=
  if w.IsAsync row_mu then
    if self._tables.length > 0 then
      (w.SetCallChecker row_mu (PutCallbackChecker.new self._tables row_mu)).dispatch 0 row_mu
    else
      w
  else
    HATableImpl.ApplyMutation_loop self._tables.length row_mu self._tables 0 0 w

/-- The statement `failed_count_list[i]++`; `none` when `i` is outside the vector. -/
def incr_at (failed_count_list : List Nat) (i : Nat) : Option (List Nat) :=
  (failed_count_list[i]?).map (fun c => failed_count_list.set i (c + 1))

/-- The inner loop `for (j = 0; j < sync_mu.size(); j++)` of the batched `ApplyMutation`,
run after replica `i` has answered; `none` when `failed_count_list` is indexed out of range. -/
def HATableImpl.ApplyMutation_list_inspect (size i : Nat) :
    List Nat → List Nat → MuWorld → Option (List Nat × MuWorld)
  | [], failed_count_list, w => some (failed_count_list, w)
  | row_mu :: rest, failed_count_list, w => do
    let failed_count_list1 ←
      if (w.GetError row_mu).GetType ≠ ErrorCodeType.kOK then incr_at failed_count_list i
      else some failed_count_list
    let c ← failed_count_list1[i]?
    let w1 := if c < size then w.Reset row_mu else w
    HATableImpl.ApplyMutation_list_inspect size i rest failed_count_list1 w1

/-- The loop over the replicas of the batched `ApplyMutation`, from replica `i` on. -/
def HATableImpl.ApplyMutation_list_loop (size : Nat) (sync_mu : List Nat) :
    List TableImpl → Nat → List Nat → MuWorld → Option (List Nat × MuWorld)
  | [], _, failed_count_list, w => some (failed_count_list, w)
  | t :: ts, i, failed_count_list, w => do
    let w1 := w.call t i sync_mu
    let s ← HATableImpl.ApplyMutation_list_inspect size i sync_mu failed_count_list w1
    HATableImpl.ApplyMutation_list_loop size sync_mu ts (i + 1) s.1 s.2

/-- `HATableImpl::ApplyMutation(const std::vector<RowMutation*>&)`; `none` when the
failure-counter vector is indexed out of range. -/
def HATableImpl.ApplyMutation_list (self : HATableImpl) (w : MuWorld) (row_mu_list : List Nat) :
    Option MuWorld := do
  let failed_count_list := List.replicate row_mu_list.length 0
  let async_mu := row_mu_list.filter (fun r => w.IsAsync r)
  let sync_mu := row_mu_list.filter (fun r => !w.IsAsync r)
  let w1 := async_mu.foldl (fun w r => self.ApplyMutation w r) w
  if sync_mu.length ≤ 0 then
    some w1
  else
    let s ← HATableImpl.ApplyMutation_list_loop self._tables.length sync_mu self._tables 0
      failed_count_list w1
    some s.2

/-! ## Configuration -/

/-- The three process-wide flags read by the façade. -/
structure Flags where
  tera_sdk_ha_ddl_enable : Bool
  tera_sdk_ha_timestamp_diff : Int
  tera_sdk_ha_get_random_mode : Bool

/-! ## `MergeResult` -/

/-- The first inner loop of `MergeResult`, from replica `j` on: the scan for the cursor cell with
the largest timestamp. `best` is `none` while `found` is false and `(candidate_index, timestamp)`
afterwards. -/
def HATableImpl.MergeResult_scan (results_pos : List Nat) :
    List RowResult → Nat → Option (Nat × Int) → Option (Nat × Int)
  | [], _, best => best
  | r :: rs, j, best =>
    match r[results_pos.getD j 0]? with
    | some kv =>
      let tmp_ts := kv.timestamp
      let better : Bool := match best with
        | none => true
        | some b => decide (tmp_ts > b.2)
      if better then HATableImpl.MergeResult_scan results_pos rs (j + 1) (some (j, tmp_ts))
      else HATableImpl.MergeResult_scan results_pos rs (j + 1) best
    | none => HATableImpl.MergeResult_scan results_pos rs (j + 1) best

/-- The value an `int64_t` holds when the exact result of an operation is `x`: `x` modulo
`2^64`, read in two's complement. -/
def wrap_int64 (x : Int) : Int :=
  (x + 2 ^ 63) % 2 ^ 64 - 2 ^ 63

/-- The `abs` of an `int64_t` (the `long` overload of the C library): the absolute value,
stored in an `int64_t` again, so that `abs` of `-2^63` is `-2^63`. -/
def abs_int64 (x : Int) : Int :=
  wrap_int64 (x.natAbs : Int)

/-- The second inner loop of `MergeResult`, whose condition is
`j < results.size() && j != candidate_index`, with `n` replicas left to look at: a cursor whose
cell is within `timestamp_diff` of the chosen timestamp moves on by one. The difference
`timestamp - tmp_ts` and its `abs` are `int64_t` values. -/
def HATableImpl.MergeResult_advance (results : List RowResult) (timestamp_diff : Int)
    (candidate_index : Nat) (timestamp : Int) : Nat → Nat → List Nat → List Nat
  | 0, _, results_pos => results_pos
  | n + 1, j, results_pos =>
    if j ≠ candidate_index then
      let results_pos1 :=
        match (results.getD j [])[results_pos.getD j 0]? with
        | some kv =>
          if abs_int64 (wrap_int64 (timestamp - kv.timestamp)) < timestamp_diff then
            results_pos.set j (results_pos.getD j 0 + 1)
          else results_pos
        | none => results_pos
      HATableImpl.MergeResult_advance results timestamp_diff candidate_index timestamp n (j + 1)
        results_pos1
    else
      results_pos

/-- The outer loop of `MergeResult` with `n` output slots left; returns the output and the
cursors. -/
def HATableImpl.MergeResult_loop (results : List RowResult) (timestamp_diff : Int) :
    Nat → List Nat → RowResult → RowResult × List Nat
  | 0, results_pos, res => (res, results_pos)
  | n + 1, results_pos, res =>
    match HATableImpl.MergeResult_scan results_pos results 0 none with
    | none => (res, results_pos)
    | some (candidate_index, timestamp) =>
      let results_pos1 := HATableImpl.MergeResult_advance results timestamp_diff candidate_index
        timestamp results.length 0 results_pos
      match (results.getD candidate_index [])[results_pos1.getD candidate_index 0]? with
      | some kv =>
        HATableImpl.MergeResult_loop results timestamp_diff n
          (results_pos1.set candidate_index (results_pos1.getD candidate_index 0 + 1))
          (res ++ [kv])
      | none => (res, results_pos1)

/-- `HATableImpl::MergeResult(results, res, max_size)`: the value of `res` after the call. -/
def HATableImpl.MergeResult (FLAGS : Flags) (results : List RowResult) (res : RowResult)
    (max_size : Nat) : RowResult :=
  (HATableImpl.MergeResult_loop results FLAGS.tera_sdk_ha_timestamp_diff max_size
    (List.replicate results.length 0) res).1

/-! ## Row readers and the asynchronous get checkers -/

/-- Fields of `GetCallbackChecker`; `_row_reader` is the address of the reader. -/
structure GetCallbackChecker where
  _has_call : Bool
  _cluster_index : Nat
  _clusters : List TableImpl
  _row_reader : Nat

/-- The constructor of `GetCallbackChecker`. -/
def GetCallbackChecker.new (clusters : List TableImpl) (row_reader : Nat) : GetCallbackChecker :=
  { _has_call := false, _cluster_index := 0, _clusters := clusters, _row_reader := row_reader }

/-- Fields of `LGetCallbackChecker`. -/
structure LGetCallbackChecker where
  _has_call : Bool
  _cluster_index : Nat
  _clusters : List TableImpl
  _row_reader : Nat
  _results : List RowResult

/-- The constructor of `LGetCallbackChecker`. -/
def LGetCallbackChecker.new (clusters : List TableImpl) (row_reader : Nat) :
    LGetCallbackChecker :=
  { _has_call := false, _cluster_index := 0, _clusters := clusters, _row_reader := row_reader,
    _results := [] }

/-- The checker a reader can carry. -/
inductive CallChecker where
  | get (c : GetCallbackChecker)
  | lget (c : LGetCallbackChecker)

/-- The row readers that exist, by address, with the log of what was done to the replicas. -/
structure RdWorld where
  IsAsync : Nat → Bool
  GetError : Nat → ErrorCode
  GetResult : Nat → RowResult
  GetMaxVersions : Nat → Nat
  call_checker : Nat → Option CallChecker
  log : List Event

/-- Modelled from the spec: `RowReaderImpl::Reset()` (defined outside `src/`) clears the dispatch
state of a reader, that is its error slot and its result buffer, and keeps the user payload and
the callback attachment. -/
def RdWorld.Reset (w : RdWorld) (row_reader : Nat) : RdWorld :=
  { w with GetError := Function.update w.GetError row_reader ErrorCode.ok,
           GetResult := Function.update w.GetResult row_reader [],
           log := w.log ++ [Event.reset row_reader] }

/-- Modelled from the spec: `SetResult(result)` overwrites the result buffer of a reader. -/
def RdWorld.SetResult (w : RdWorld) (row_reader : Nat) (result : RowResult) : RdWorld :=
  { w with GetResult := Function.update w.GetResult row_reader result }

/-- Modelled from the spec: `SetCallChecker(checker)` attaches a completion gate to a reader. -/
def RdWorld.SetCallChecker (w : RdWorld) (row_reader : Nat) (c : CallChecker) : RdWorld :=
  { w with call_checker := Function.update w.call_checker row_reader (some c) }

/-- A synchronous `table_set[i]->Get(rows)`: replica `t` leaves its error and its result in
every reader of `rows`. -/
def RdWorld.call (w : RdWorld) (t : TableImpl) (i : Nat) (rows : List Nat) : RdWorld :=
  { w with GetError := fun r => if r ∈ rows then (t.Get r).1 else w.GetError r,
           GetResult := fun r => if r ∈ rows then (t.Get r).2 else w.GetResult r,
           log := w.log ++ [Event.invoke i rows] }

/-- An asynchronous `table_set[i]->Get(row_reader)`: returns at once, nothing is written yet. -/
def RdWorld.dispatch (w : RdWorld) (i : Nat) (row_reader : Nat) : RdWorld :=
  { w with log := w.log ++ [Event.dispatch i row_reader] }

/-- `GetCallbackChecker::NeedCall`. -/
def GetCallbackChecker.NeedCall (self : GetCallbackChecker) (w : RdWorld)
    (code : ErrorCodeType) : Bool × GetCallbackChecker × RdWorld :=
  if self._has_call then
    (false, self, w)
  else if code = ErrorCodeType.kOK then
    (true, { self with _has_call := true }, w)
  else
    let self1 := { self with _cluster_index := self._cluster_index + 1 }
    if self1._cluster_index >= self1._clusters.length then
      (true, { self1 with _has_call := true }, w)
    else
      let w1 := w.Reset self1._row_reader
      let w2 := w1.dispatch self1._cluster_index self1._row_reader
      (false, self1, w2)

/-- `LGetCallbackChecker::NeedCall`. -/
def LGetCallbackChecker.NeedCall (self : LGetCallbackChecker) (FLAGS : Flags) (w : RdWorld)
    (code : ErrorCodeType) : Bool × LGetCallbackChecker × RdWorld :=
  if self._has_call then
    (false, self, w)
  else
    let self1 := if code = ErrorCodeType.kOK then
      { self with _results := self._results ++ [w.GetResult self._row_reader] } else self
    let self2 := { self1 with _cluster_index := self1._cluster_index + 1 }
    if self2._cluster_index >= self2._clusters.length then
      let w1 := if self2._results.length > 0 then
        w.SetResult self2._row_reader
          (HATableImpl.MergeResult FLAGS self2._results [] (w.GetMaxVersions self2._row_reader))
        else w
      (true, { self2 with _has_call := true }, w1)
    else
      let w1 := w.Reset self2._row_reader
      let w2 := w1.dispatch self2._cluster_index self2._row_reader
      (false, self2, w2)

/-- Modelled from the spec: the completion path of the replica layer for an asynchronous read
(outside `src/`): the replica writes its error and its result into the reader, then asks the
attached checker whether the user callback may run. -/
def RdWorld.completed (w : RdWorld) (row_reader : Nat) (c : Completion) : RdWorld :=
  { w with GetError := Function.update w.GetError row_reader c.error,
           GetResult := Function.update w.GetResult row_reader c.result }

/-- One completion of an asynchronous `Get` seen by its `GetCallbackChecker`. -/
def GetCallbackChecker.complete (s : GetCallbackChecker × RdWorld) (c : Completion) :
    Bool × (GetCallbackChecker × RdWorld) :=
  let r := s.1.NeedCall (s.2.completed s.1._row_reader c) c.code
  (r.1, (r.2.1, r.2.2))

/-- One completion of an asynchronous `LGet` seen by its `LGetCallbackChecker`. -/
def LGetCallbackChecker.complete (FLAGS : Flags) (s : LGetCallbackChecker × RdWorld)
    (c : Completion) : Bool × (LGetCallbackChecker × RdWorld) :=
  let r := s.1.NeedCall FLAGS (s.2.completed s.1._row_reader c) c.code
  (r.1, (r.2.1, r.2.2))

/-! ## `ShuffleArray` and the first-success reads -/

/-- The loop `for (i = size - 1; i > 0; i--)` of `ShuffleArray`, at counter value `i`, before the
`k`-th call of `random()`. `random k` is the value of that call; `random()` returns a value
below `2^31`, and `i + 1` is computed in `size_t`. The result is `none` when the remainder is
taken modulo zero or an element outside the vector is touched. -/
def HATableImpl.ShuffleArray_loop {α : Type} (random : Nat → Nat) :
    Nat → Nat → List α → Option (List α)
  | 0, _, table_set => some table_set
  | i + 1, k, table_set =>
    if (i + 1 + 1) % 2 ^ 64 = 0 then none
    else
      let rnd := (random k % 2 ^ 31) % ((i + 1 + 1) % 2 ^ 64)
      match table_set[rnd]?, table_set[i + 1]? with
      | some t, some u =>
        HATableImpl.ShuffleArray_loop random i (k + 1) ((table_set.set rnd u).set (i + 1) t)
      | _, _ => none

/-- `HATableImpl::ShuffleArray`; the start value `size() - 1` is computed in `size_t`. -/
def HATableImpl.ShuffleArray {α : Type} (random : Nat → Nat) (table_set : List α) :
    Option (List α) :=
  HATableImpl.ShuffleArray_loop random ((table_set.length + 2 ^ 64 - 1) % 2 ^ 64) 0 table_set

/-- The pairs `(rnd, i)` of positions the loop of `ShuffleArray` swaps, at counter value `i`,
before the `k`-th call of `random()`: the indices with which the vector is read and written. -/
def HATableImpl.ShuffleArray_indices (random : Nat → Nat) : Nat → Nat → List (Nat × Nat)
  | 0, _ => []
  | i + 1, k =>
    ((random k % 2 ^ 31) % ((i + 1 + 1) % 2 ^ 64), i + 1)
      :: HATableImpl.ShuffleArray_indices random i (k + 1)

/-- The copy `table_set` of `_tables` made by every `Get`, shuffled in random mode. -/
def HATableImpl.table_set (self : HATableImpl) (FLAGS : Flags) (random : Nat → Nat) :
    Option (List TableImpl) :=
  if FLAGS.tera_sdk_ha_get_random_mode then HATableImpl.ShuffleArray random self._tables
  else some self._tables

/-- The synchronous loop of `Get(RowReader*)`, from replica `i` on; `size` is
`table_set.size()`. A successful replica ends the loop (`break`). -/
def HATableImpl.Get_loop (size : Nat) (row_reader : Nat) :
    List TableImpl → Nat → Nat → RdWorld → RdWorld
  | [], _, _, w => w
  | t :: ts, i, failed_count, w =>
    let w1 := w.call t i [row_reader]
    if (w1.GetError row_reader).GetType ≠ ErrorCodeType.kOK then
      let failed_count1 := failed_count + 1
      let w2 := if failed_count1 < size then w1.Reset row_reader else w1
      HATableImpl.Get_loop size row_reader ts (i + 1) failed_count1 w2
    else
      w1

/-- `HATableImpl::Get(RowReader*)`; `random` is the sequence `random()` yields after the
reseeding of this call; `none` when the shuffle fails. -/
def HATableImpl.Get (self : HATableImpl) (FLAGS : Flags) (random : Nat → Nat) (w : RdWorld)
    (row_reader : Nat) : Option RdWorld := do
  let table_set ← self.table_set FLAGS random
  if w.IsAsync row_reader then
    if table_set.length > 0 then
      some ((w.SetCallChecker row_reader
        (CallChecker.get (GetCallbackChecker.new table_set row_reader))).dispatch 0 row_reader)
    else
      some w
  else
    some (HATableImpl.Get_loop table_set.length row_reader table_set 0 0 w)

/-- Locals of the synchronous part of the batched `Get`, with the world. -/
structure GetListState where
  failed_count_list : List Nat
  sync_readers : List Nat
  w : RdWorld

/-- The inner loop `for (j = 0; j < need_read.size(); j++)` of the batched `Get`, from position
`j` on; `none` when `failed_count_list` is indexed out of range. -/
def HATableImpl.Get_list_inspect (size : Nat) :
    List Nat → Nat → GetListState → Option GetListState
  | [], _, s => some s
  | row_reader :: rest, j, s =>
    if (s.w.GetError row_reader).GetType ≠ ErrorCodeType.kOK then do
      let failed_count_list1 ← incr_at s.failed_count_list j
      let c ← failed_count_list1[j]?
      if c < size then
        HATableImpl.Get_list_inspect size rest (j + 1)
          { failed_count_list := failed_count_list1,
            sync_readers := s.sync_readers ++ [row_reader],
            w := s.w.Reset row_reader }
      else
        HATableImpl.Get_list_inspect size rest (j + 1)
          { s with failed_count_list := failed_count_list1 }
    else
      HATableImpl.Get_list_inspect size rest (j + 1) s

/-- The loop over the replicas of the batched `Get`, from replica `i` on. -/
def HATableImpl.Get_list_loop (size : Nat) :
    List TableImpl → Nat → GetListState → Option GetListState
  | [], _, s => some s
  | t :: ts, i, s =>
    if s.sync_readers.length ≤ 0 then
      HATableImpl.Get_list_loop size ts (i + 1) s
    else do
      let need_read := s.sync_readers
      let w1 := s.w.call t i need_read
      let s1 ← HATableImpl.Get_list_inspect size need_read 0
        { s with sync_readers := [], w := w1 }
      HATableImpl.Get_list_loop size ts (i + 1) s1

/-- The loop `for (i = 0; i < async_readers.size(); i++) Get(async_readers[i])` of the batched
`Get`; the `k`-th call reseeds and draws from `random k`. -/
def HATableImpl.Get_list_async (self : HATableImpl) (FLAGS : Flags) (random : Nat → Nat → Nat) :
    List Nat → Nat → RdWorld → Option RdWorld
  | [], _, w => some w
  | row_reader :: rest, k, w => do
    let w1 ← self.Get FLAGS (random k) w row_reader
    HATableImpl.Get_list_async self FLAGS random rest (k + 1) w1

/-- `HATableImpl::Get(const std::vector<RowReader*>&)`; `random 0` feeds the shuffle of this
call and `random (k + 1)` the one of the `k`-th asynchronous reader; `none` when the shuffle
fails or the failure-counter vector is indexed out of range. -/
def HATableImpl.Get_list (self : HATableImpl) (FLAGS : Flags) (random : Nat → Nat → Nat)
    (w : RdWorld) (row_readers : List Nat) : Option RdWorld := do
  let table_set ← self.table_set FLAGS (random 0)
  let async_readers := row_readers.filter (fun r => w.IsAsync r)
  let sync_readers := row_readers.filter (fun r => !w.IsAsync r)
  let w1 ← HATableImpl.Get_list_async self FLAGS random async_readers 1 w
  if sync_readers.length ≤ 0 then
    some w1
  else
    let failed_count_list := List.replicate sync_readers.length 0
    let s ← HATableImpl.Get_list_loop table_set.length table_set 0
      { failed_count_list := failed_count_list, sync_readers := sync_readers, w := w1 }
    some s.w

/-! ## Latest-get (`LGet`) -/

/-- The synchronous loop of `LGet(RowReader*)`, from replica `i` on; `size` is
`_tables.size()` and `results` collects the results of the replicas that answered OK. -/
def HATableImpl.LGet_loop (size : Nat) (row_reader : Nat) :
    List TableImpl → Nat → Nat → List RowResult → RdWorld → List RowResult × RdWorld
  | [], _, _, results, w => (results, w)
  | t :: ts, i, failed_count, results, w =>
    let w1 := w.call t i [row_reader]
    if (w1.GetError row_reader).GetType ≠ ErrorCodeType.kOK then
      let failed_count1 := failed_count + 1
      let w2 := if failed_count1 < size then w1.Reset row_reader else w1
      HATableImpl.LGet_loop size row_reader ts (i + 1) failed_count1 results w2
    else
      let results1 := results ++ [w1.GetResult row_reader]
      let w2 := w1.Reset row_reader
      HATableImpl.LGet_loop size row_reader ts (i + 1) failed_count results1 w2

/-- `HATableImpl::LGet(RowReader*)`. -/
def HATableImpl.LGet (self : HATableImpl) (FLAGS : Flags) (w : RdWorld) (row_reader : Nat) :
    RdWorld :=
  if w.IsAsync row_reader then
    let w1 := w.SetCallChecker row_reader
      (CallChecker.lget (LGetCallbackChecker.new self._tables row_reader))
    if self._tables.length > 0 then w1.dispatch 0 row_reader else w1
  else
    let s := HATableImpl.LGet_loop self._tables.length row_reader self._tables 0 0 [] w
    if s.1.length > 0 then
      s.2.SetResult row_reader
        (HATableImpl.MergeResult FLAGS s.1 [] (s.2.GetMaxVersions row_reader))
    else
      s.2

/-! ## Scalar `Get` -/

/-- The loop of the scalar `Get`, from replica `i` on; `op` selects the overload of the replica
that is called. A successful replica ends the loop (`break`). -/
def HATableImpl.Get_scalar_loop (op : TableImpl → Bool × ErrorCode) :
    List TableImpl → Nat → WriteState → WriteState
  | [], _, s => s
  | t :: ts, i, s =>
    let ok := (op t).1
    let s1 : WriteState := { s with err := (op t).2, log := s.log ++ [Event.invoke i []] }
    if !ok then
      HATableImpl.Get_scalar_loop op ts (i + 1) { s1 with failed_count := s1.failed_count + 1 }
    else
      s1

/-- The common body of the two scalar `Get` overloads; `none` when the shuffle fails. -/
def HATableImpl.Get_scalar (self : HATableImpl) (FLAGS : Flags) (random : Nat → Nat)
    (op : TableImpl → Bool × ErrorCode) (err : ErrorCode) : Option WriteResult := do
  let table_set ← self.table_set FLAGS random
  let s := HATableImpl.Get_scalar_loop op table_set 0 ⟨0, err, []⟩
  some ⟨if s.failed_count >= table_set.length then false else true, s.err, s.log⟩

/-- Scalar `Get(row_key, family, qualifier, std::string* value, err, snapshot_id)`. -/
def HATableImpl.Get_string (self : HATableImpl) (FLAGS : Flags) (random : Nat → Nat)
    (err : ErrorCode) : Option WriteResult :=
  self.Get_scalar FLAGS random TableImpl.Get_string err

/-- Scalar `Get(row_key, family, qualifier, int64_t* value, err, snapshot_id)`. -/
def HATableImpl.Get_int64 (self : HATableImpl) (FLAGS : Flags) (random : Nat → Nat)
    (err : ErrorCode) : Option WriteResult :=
  self.Get_scalar FLAGS random TableImpl.Get_int64 err

/-! ## `Scan` -/

/-- The loop of `Scan`, from replica `i` on: the returned stream, the caller's `*err` and the
calls made. A non-null stream is returned at once. -/
def HATableImpl.Scan_loop :
    List TableImpl → Nat → ErrorCode → List Event → Option Nat × ErrorCode × List Event
  | [], _, err, log => (none, err, log)
  | t :: ts, i, _, log =>
    let rs := t.Scan.1
    if rs = none then
      HATableImpl.Scan_loop ts (i + 1) t.Scan.2 (log ++ [Event.invoke i []])
    else
      (rs, t.Scan.2, log ++ [Event.invoke i []])

/-- `HATableImpl::Scan`. -/
def HATableImpl.Scan (self : HATableImpl) (err : ErrorCode) :
    Option Nat × ErrorCode × List Event :=
  HATableImpl.Scan_loop self._tables 0 err []

/-! ## Operations the replica set does not support -/

/-- What a caller sees of an operation that is not supported: the returned value, the error
left in `*err` (`none` for an operation that has no `err` parameter), the replica calls made. -/
structure Unsupported (α : Type) where
  ret : α
  err : Option ErrorCode
  log : List Event

/-- Modelled from the spec: `SetFailed(kind)` with one argument, the reason defaults to the
empty string (the default is declared outside `src/`). -/
def ErrorCode.SetFailed_kind (err : ErrorCode) (type : ErrorCodeType) : ErrorCode :=
  err.SetFailed type ""

/-- `HATableImpl::Flush()`: it takes no `err`. -/
def HATableImpl.Flush (_self : HATableImpl) : Unsupported Bool :=
  ⟨false, none, []⟩

/-- `HATableImpl::CheckAndApply`. -/
def HATableImpl.CheckAndApply (_self : HATableImpl) (err : ErrorCode) : Unsupported Bool :=
  ⟨false, some (err.SetFailed_kind ErrorCodeType.kNotImpl), []⟩

/-- `HATableImpl::IncrementColumnValue`: it returns an `int64_t`, here `0L`. -/
def HATableImpl.IncrementColumnValue (_self : HATableImpl) (err : ErrorCode) : Unsupported Int :=
  ⟨0, some (err.SetFailed_kind ErrorCodeType.kNotImpl), []⟩

/-- `HATableImpl::LockRow`. -/
def HATableImpl.LockRow (_self : HATableImpl) (err : ErrorCode) : Unsupported Bool :=
  ⟨false, some (err.SetFailed_kind ErrorCodeType.kNotImpl), []⟩

/-- `HATableImpl::GetStartEndKeys`. -/
def HATableImpl.GetStartEndKeys (_self : HATableImpl) (err : ErrorCode) : Unsupported Bool :=
  ⟨false, some (err.SetFailed_kind ErrorCodeType.kNotImpl), []⟩

/-- `HATableImpl::GetTabletLocation`. -/
def HATableImpl.GetTabletLocation (_self : HATableImpl) (err : ErrorCode) : Unsupported Bool :=
  ⟨false, some (err.SetFailed_kind ErrorCodeType.kNotImpl), []⟩

/-- `HATableImpl::GetDescriptor`. -/
def HATableImpl.GetDescriptor (_self : HATableImpl) (err : ErrorCode) : Unsupported Bool :=
  ⟨false, some (err.SetFailed_kind ErrorCodeType.kNotImpl), []⟩

/-! ## What the merge is meant to compute -/

/-- The order "at least as new as" on cells. -/
def newer_or_equal (a b : KeyValuePair) : Prop := a.timestamp ≥ b.timestamp

/-- The order on cells is decidable. -/
instance newer_or_equal_decidable : DecidableRel newer_or_equal :=
  fun a b => inferInstanceAs (Decidable (a.timestamp ≥ b.timestamp))

/-- The cells a cursor vector has not passed yet, per replica, for the replicas `j, j+1, ...`
of `results`. -/
def cells_ahead (results_pos : List Nat) : List RowResult → Nat → List RowResult
  | [], _ => []
  | r :: rs, j => r.drop (results_pos.getD j 0) :: cells_ahead results_pos rs (j + 1)

/-! ## The replica-set client -/

/-- Modelled from the spec: one replica client (`ClientImpl`, defined outside `src/`), seen
through what each of its calls returns and leaves in `*err`. A DDL or admin call is the returned
`bool` with the error; `GetTableDescriptor` is the returned descriptor (`none` for `NULL`);
`OpenTable` is the opened replica table (`none` when the cast to `TableImpl*` gives `NULL`);
`CmdCtrl` is the returned `bool`, the two scalar results and the error. The two overloads of
`CreateTable` and of `List` carry a suffix; other out-parameters are left out. -/
structure ClientImpl where
  CreateTable : Bool × ErrorCode := (true, ErrorCode.ok)
  CreateTable_delim : Bool × ErrorCode := (true, ErrorCode.ok)
  UpdateTable : Bool × ErrorCode := (true, ErrorCode.ok)
  DeleteTable : Bool × ErrorCode := (true, ErrorCode.ok)
  DisableTable : Bool × ErrorCode := (true, ErrorCode.ok)
  EnableTable : Bool × ErrorCode := (true, ErrorCode.ok)
  CreateUser : Bool × ErrorCode := (true, ErrorCode.ok)
  DeleteUser : Bool × ErrorCode := (true, ErrorCode.ok)
  ChangePwd : Bool × ErrorCode := (true, ErrorCode.ok)
  AddUserToGroup : Bool × ErrorCode := (true, ErrorCode.ok)
  DeleteUserFromGroup : Bool × ErrorCode := (true, ErrorCode.ok)
  DelSnapshot : Bool × ErrorCode := (true, ErrorCode.ok)
  Rollback : Bool × ErrorCode := (true, ErrorCode.ok)
  Rename : Bool × ErrorCode := (true, ErrorCode.ok)
  ShowUser : Bool × ErrorCode := (true, ErrorCode.ok)
  GetTabletLocation : Bool × ErrorCode := (true, ErrorCode.ok)
  List_tables : Bool × ErrorCode := (true, ErrorCode.ok)
  List_table : Bool × ErrorCode := (true, ErrorCode.ok)
  IsTableExist : Bool × ErrorCode := (true, ErrorCode.ok)
  IsTableEnabled : Bool × ErrorCode := (true, ErrorCode.ok)
  IsTableEmpty : Bool × ErrorCode := (true, ErrorCode.ok)
  GetSnapshot : Bool × ErrorCode := (true, ErrorCode.ok)
  GetTableDescriptor : Option Nat × ErrorCode := (some 0, ErrorCode.ok)
  OpenTable : Option TableImpl × ErrorCode := (some {}, ErrorCode.ok)
  CmdCtrl : Bool × Bool × String × ErrorCode := (true, true, "", ErrorCode.ok)

/-- The replica-set client: its ordered list `_clients`. -/
structure HAClientImpl where
  _clients : List ClientImpl

/-- Locals of a DDL operation together with the caller's `*err` and the call log. -/
structure DdlState where
  failed_count : Nat
  fail_fast : Bool
  err : ErrorCode
  log : List Event

/-- The loop of a mutating DDL operation, from replica `i` on; `op` selects the replica
operation. A failure with `tera_sdk_ha_ddl_enable` set ends the loop (`break`). -/
def HAClientImpl.ddl_loop (FLAGS : Flags) (op : ClientImpl → Bool × ErrorCode) :
    List ClientImpl → Nat → DdlState → DdlState
  | [], _, s => s
  | c :: cs, i, s =>
    let ok := (op c).1
    let s1 : DdlState := { s with err := (op c).2, log := s.log ++ [Event.invoke i []] }
    if !ok then
      if FLAGS.tera_sdk_ha_ddl_enable then
        { s1 with fail_fast := true }
      else
        HAClientImpl.ddl_loop FLAGS op cs (i + 1) { s1 with failed_count := s1.failed_count + 1 }
    else
      HAClientImpl.ddl_loop FLAGS op cs (i + 1) s1

/-- The common body of the mutating DDL operations (`CreateTable` ... `Rename`): all of them
run the same loop and the same final test, and differ only in the replica operation `op`. -/
def HAClientImpl.ddl (self : HAClientImpl) (FLAGS : Flags) (op : ClientImpl → Bool × ErrorCode)
    (err : ErrorCode) : WriteResult :=
  let s := HAClientImpl.ddl_loop FLAGS op self._clients 0 ⟨0, false, err, []⟩
  if s.fail_fast then
    ⟨false, s.err, s.log⟩
  else if s.failed_count >= self._clients.length then
    ⟨false, s.err, s.log⟩
  else
    ⟨true, s.err.SetFailed ErrorCodeType.kOK "success", s.log⟩

/-- `HAClientImpl::CreateTable(desc, err)`. -/
def HAClientImpl.CreateTable (self : HAClientImpl) (FLAGS : Flags) (err : ErrorCode) :
    WriteResult :=
  self.ddl FLAGS ClientImpl.CreateTable err

/-- `HAClientImpl::CreateTable(desc, tablet_delim, err)`. -/
def HAClientImpl.CreateTable_delim (self : HAClientImpl) (FLAGS : Flags) (err : ErrorCode) :
    WriteResult :=
  self.ddl FLAGS ClientImpl.CreateTable_delim err

/-- `HAClientImpl::UpdateTable`. -/
def HAClientImpl.UpdateTable (self : HAClientImpl) (FLAGS : Flags) (err : ErrorCode) :
    WriteResult :=
  self.ddl FLAGS ClientImpl.UpdateTable err

/-- `HAClientImpl::DeleteTable`. -/
def HAClientImpl.DeleteTable (self : HAClientImpl) (FLAGS : Flags) (err : ErrorCode) :
    WriteResult :=
  self.ddl FLAGS ClientImpl.DeleteTable err

/-- `HAClientImpl::DisableTable`. -/
def HAClientImpl.DisableTable (self : HAClientImpl) (FLAGS : Flags) (err : ErrorCode) :
    WriteResult :=
  self.ddl FLAGS ClientImpl.DisableTable err

/-- `HAClientImpl::EnableTable`. -/
def HAClientImpl.EnableTable (self : HAClientImpl) (FLAGS : Flags) (err : ErrorCode) :
    WriteResult :=
  self.ddl FLAGS ClientImpl.EnableTable err

/-- `HAClientImpl::CreateUser`. -/
def HAClientImpl.CreateUser (self : HAClientImpl) (FLAGS : Flags) (err : ErrorCode) :
    WriteResult :=
  self.ddl FLAGS ClientImpl.CreateUser err

/-- `HAClientImpl::DeleteUser`. -/
def HAClientImpl.DeleteUser (self : HAClientImpl) (FLAGS : Flags) (err : ErrorCode) :
    WriteResult :=
  self.ddl FLAGS ClientImpl.DeleteUser err

/-- `HAClientImpl::ChangePwd`. -/
def HAClientImpl.ChangePwd (self : HAClientImpl) (FLAGS : Flags) (err : ErrorCode) :
    WriteResult :=
  self.ddl FLAGS ClientImpl.ChangePwd err

/-- `HAClientImpl::AddUserToGroup`. -/
def HAClientImpl.AddUserToGroup (self : HAClientImpl) (FLAGS : Flags) (err : ErrorCode) :
    WriteResult :=
  self.ddl FLAGS ClientImpl.AddUserToGroup err

/-- `HAClientImpl::DeleteUserFromGroup`. -/
def HAClientImpl.DeleteUserFromGroup (self : HAClientImpl) (FLAGS : Flags) (err : ErrorCode) :
    WriteResult :=
  self.ddl FLAGS ClientImpl.DeleteUserFromGroup err

/-- `HAClientImpl::DelSnapshot`. -/
def HAClientImpl.DelSnapshot (self : HAClientImpl) (FLAGS : Flags) (err : ErrorCode) :
    WriteResult :=
  self.ddl FLAGS ClientImpl.DelSnapshot err

/-- `HAClientImpl::Rollback`. -/
def HAClientImpl.Rollback (self : HAClientImpl) (FLAGS : Flags) (err : ErrorCode) :
    WriteResult :=
  self.ddl FLAGS ClientImpl.Rollback err

/-- `HAClientImpl::Rename`. -/
def HAClientImpl.Rename (self : HAClientImpl) (FLAGS : Flags) (err : ErrorCode) :
    WriteResult :=
  self.ddl FLAGS ClientImpl.Rename err

/-- The loop of a read or admin operation that returns `bool`, from replica `i` on; a
successful replica ends the loop (`break`). -/
def HAClientImpl.read_loop (op : ClientImpl → Bool × ErrorCode) :
    List ClientImpl → Nat → WriteState → WriteState
  | [], _, s => s
  | c :: cs, i, s =>
    let ok := (op c).1
    let s1 : WriteState := { s with err := (op c).2, log := s.log ++ [Event.invoke i []] }
    if !ok then
      HAClientImpl.read_loop op cs (i + 1) { s1 with failed_count := s1.failed_count + 1 }
    else
      s1

/-- The common body of the read and admin operations that return `bool` (`ShowUser`,
`GetTabletLocation`, both `List`, `IsTableExist`, `IsTableEnabled`, `IsTableEmpty`,
`GetSnapshot`). The flags are in scope, as for every function of the file, and are not read. -/
def HAClientImpl.read (self : HAClientImpl) (_FLAGS : Flags) (op : ClientImpl → Bool × ErrorCode)
    (err : ErrorCode) : WriteResult :=
  let s := HAClientImpl.read_loop op self._clients 0 ⟨0, err, []⟩
  ⟨if s.failed_count >= self._clients.length then false else true, s.err, s.log⟩

/-- `HAClientImpl::ShowUser`. -/
def HAClientImpl.ShowUser (self : HAClientImpl) (FLAGS : Flags) (err : ErrorCode) :
    WriteResult :=
  self.read FLAGS ClientImpl.ShowUser err

/-- `HAClientImpl::GetTabletLocation`. -/
def HAClientImpl.GetTabletLocation (self : HAClientImpl) (FLAGS : Flags) (err : ErrorCode) :
    WriteResult :=
  self.read FLAGS ClientImpl.GetTabletLocation err

/-- `HAClientImpl::List(table_list, err)`. -/
def HAClientImpl.List_tables (self : HAClientImpl) (FLAGS : Flags) (err : ErrorCode) :
    WriteResult :=
  self.read FLAGS ClientImpl.List_tables err

/-- `HAClientImpl::List(table_name, table_info, tablet_list, err)`. -/
def HAClientImpl.List_table (self : HAClientImpl) (FLAGS : Flags) (err : ErrorCode) :
    WriteResult :=
  self.read FLAGS ClientImpl.List_table err

/-- `HAClientImpl::IsTableExist`. -/
def HAClientImpl.IsTableExist (self : HAClientImpl) (FLAGS : Flags) (err : ErrorCode) :
    WriteResult :=
  self.read FLAGS ClientImpl.IsTableExist err

/-- `HAClientImpl::IsTableEnabled`. -/
def HAClientImpl.IsTableEnabled (self : HAClientImpl) (FLAGS : Flags) (err : ErrorCode) :
    WriteResult :=
  self.read FLAGS ClientImpl.IsTableEnabled err

/-- `HAClientImpl::IsTableEmpty`. -/
def HAClientImpl.IsTableEmpty (self : HAClientImpl) (FLAGS : Flags) (err : ErrorCode) :
    WriteResult :=
  self.read FLAGS ClientImpl.IsTableEmpty err

/-- `HAClientImpl::GetSnapshot`. -/
def HAClientImpl.GetSnapshot (self : HAClientImpl) (FLAGS : Flags) (err : ErrorCode) :
    WriteResult :=
  self.read FLAGS ClientImpl.GetSnapshot err

/-- Locals of `GetTableDescriptor` together with the caller's `*err` and the call log. -/
structure DescriptorState where
  td : Option Nat
  failed_count : Nat
  err : ErrorCode
  log : List Event

/-- The loop of `GetTableDescriptor`, from replica `i` on; a non-null descriptor ends the
loop (`break`). -/
def HAClientImpl.GetTableDescriptor_loop :
    List ClientImpl → Nat → DescriptorState → DescriptorState
  | [], _, s => s
  | c :: cs, i, s =>
    let s1 : DescriptorState :=
      { s with td := c.GetTableDescriptor.1, err := c.GetTableDescriptor.2,
               log := s.log ++ [Event.invoke i []] }
    if s1.td = none then
      HAClientImpl.GetTableDescriptor_loop cs (i + 1)
        { s1 with failed_count := s1.failed_count + 1 }
    else
      s1

/-- `HAClientImpl::GetTableDescriptor`: the returned descriptor with the error and the calls
made. The flags are in scope and are not read. -/
def HAClientImpl.GetTableDescriptor (self : HAClientImpl) (_FLAGS : Flags) (err : ErrorCode) :
    Option Nat × ErrorCode × List Event :=
  let s := HAClientImpl.GetTableDescriptor_loop self._clients 0 ⟨none, 0, err, []⟩
  (if s.failed_count >= self._clients.length then none else s.td, s.err, s.log)

/-- `HATableImpl::Add(TableImpl* t)`: `_tables.push_back(t)`. The name carries a suffix to keep
it apart from the scalar write `Add`. -/
def HATableImpl.Add_table (self : HATableImpl) (t : TableImpl) : HATableImpl :=
  { _tables := self._tables ++ [t] }

/-- Locals of `OpenTable` together with the caller's `*err` and the call log; `ha_table` is
`none` while the pointer is `NULL`. -/
structure OpenTableState where
  failed_count : Nat
  ha_table : Option HATableImpl
  err : ErrorCode
  log : List Event

/-- The loop of `OpenTable`, from replica `i` on; a `NULL` `ha_table` is replaced by a new,
empty `HATableImpl` before the first table is added. -/
def HAClientImpl.OpenTable_loop : List ClientImpl → Nat → OpenTableState → OpenTableState
  | [], _, s => s
  | c :: cs, i, s =>
    let s1 : OpenTableState :=
      { s with err := c.OpenTable.2, log := s.log ++ [Event.invoke i []] }
    match c.OpenTable.1 with
    | none =>
      HAClientImpl.OpenTable_loop cs (i + 1) { s1 with failed_count := s1.failed_count + 1 }
    | some ti =>
      let ha_table : HATableImpl := s1.ha_table.getD { _tables := [] }
      HAClientImpl.OpenTable_loop cs (i + 1) { s1 with ha_table := some (ha_table.Add_table ti) }

/-- `HAClientImpl::OpenTable`: the returned table (`none` for `NULL`) with the error and the
calls made. The flags are in scope and are not read. -/
def HAClientImpl.OpenTable (self : HAClientImpl) (_FLAGS : Flags) (err : ErrorCode) :
    Option HATableImpl × ErrorCode × List Event :=
  let s := HAClientImpl.OpenTable_loop self._clients 0 ⟨0, none, err, []⟩
  if s.failed_count >= self._clients.length then
    (none, s.err, s.log)
  else
    (s.ha_table, s.err.SetFailed ErrorCodeType.kOK "success", s.log)

/-- Locals of `CmdCtrl` together with the caller's `*bool_result`, `*str_result`, `*err` and
the call log. -/
structure CmdCtrlState where
  failed_count : Nat
  has_set : Bool
  bool_result : Bool
  str_result : String
  err : ErrorCode
  log : List Event

/-- The loop of `CmdCtrl`, from replica `i` on. -/
def HAClientImpl.CmdCtrl_loop : List ClientImpl → Nat → CmdCtrlState → CmdCtrlState
  | [], _, s => s
  | c :: cs, i, s =>
    let ok := c.CmdCtrl.1
    let t_bool_result := c.CmdCtrl.2.1
    let t_str_result := c.CmdCtrl.2.2.1
    let s1 : CmdCtrlState :=
      { s with err := c.CmdCtrl.2.2.2, log := s.log ++ [Event.invoke i []] }
    if !ok then
      HAClientImpl.CmdCtrl_loop cs (i + 1) { s1 with failed_count := s1.failed_count + 1 }
    else if !s1.has_set then
      HAClientImpl.CmdCtrl_loop cs (i + 1)
        { s1 with has_set := true, bool_result := t_bool_result, str_result := t_str_result }
    else
      HAClientImpl.CmdCtrl_loop cs (i + 1) s1

/-- Result of `CmdCtrl`: the returned `bool`, the caller's `*bool_result`, `*str_result` and
`*err`, the calls made. -/
structure CmdCtrlResult where
  ok : Bool
  bool_result : Bool
  str_result : String
  err : ErrorCode
  log : List Event

/-- `HAClientImpl::CmdCtrl`; `bool_result`, `str_result` and `err` are what the caller's
objects hold before the call. The flags are in scope and are not read. -/
def HAClientImpl.CmdCtrl (self : HAClientImpl) (_FLAGS : Flags) (bool_result : Bool)
    (str_result : String) (err : ErrorCode) : CmdCtrlResult :=
  let s := HAClientImpl.CmdCtrl_loop self._clients 0 ⟨0, false, bool_result, str_result, err, []⟩
  if s.failed_count >= self._clients.length then
    ⟨false, s.bool_result, s.str_result, s.err, s.log⟩
  else
    ⟨true, s.bool_result, s.str_result, s.err.SetFailed ErrorCodeType.kOK "success", s.log⟩

/-! ## Scenarios -/

/-- The failure reason "timeout". -/
def timeout : ErrorCode := ⟨ErrorCodeType.kTimeout, "timeout"⟩

/-- The failure reason "down". -/
def down : ErrorCode := ⟨ErrorCodeType.kSystem, "down"⟩

/-- A cell of column `cf:q`. -/
def cell (timestamp : Int) (value : String) : KeyValuePair := ⟨"cf", "q", timestamp, value⟩

/-- A replica that accepts every write and answers every read with an empty row. -/
def healthy : TableImpl := {}

/-- A replica that fails every operation with "timeout". -/
def dead : TableImpl :=
  { ApplyMutation := fun _ => timeout, Get := fun _ => (timeout, []), Put := (false, timeout),
    Add := (false, timeout), AddInt64 := (false, timeout), PutIfAbsent := (false, timeout),
    Append := (false, timeout), Get_string := (false, timeout), Get_int64 := (false, timeout),
    Scan := (none, timeout) }

/-- A replica that fails every operation with "down". -/
def dead_too : TableImpl :=
  { ApplyMutation := fun _ => down, Get := fun _ => (down, []), Put := (false, down),
    Add := (false, down), AddInt64 := (false, down), PutIfAbsent := (false, down),
    Append := (false, down), Get_string := (false, down), Get_int64 := (false, down),
    Scan := (none, down) }

/-- A replica that answers reader 10 (row A) and fails reader 11 (row B) with "timeout". -/
def knows_A : TableImpl :=
  { Get := fun r => if r = 10 then (ErrorCode.ok, [cell 1 "a"]) else (timeout, []) }

/-- A replica that answers reader 11 (row B) and fails the others with "down". -/
def knows_B : TableImpl :=
  { Get := fun r => if r = 11 then (ErrorCode.ok, [cell 2 "v"]) else (down, []) }

/-- Mutations that are all synchronous, nothing logged yet. -/
def sync_mutations : MuWorld :=
  { IsAsync := fun _ => false, GetError := fun _ => ErrorCode.ok, call_checker := fun _ => none,
    log := [] }

/-- Mutations that are all asynchronous, nothing logged yet. -/
def async_mutations : MuWorld :=
  { IsAsync := fun _ => true, GetError := fun _ => ErrorCode.ok, call_checker := fun _ => none,
    log := [] }

/-- Readers that are all synchronous, with `max_versions = 3`, nothing logged yet. -/
def sync_readers : RdWorld :=
  { IsAsync := fun _ => false, GetError := fun _ => ErrorCode.ok, GetResult := fun _ => [],
    GetMaxVersions := fun _ => 3, call_checker := fun _ => none, log := [] }

/-- Readers that are all asynchronous, with `max_versions = 3`, nothing logged yet. -/
def async_readers : RdWorld :=
  { IsAsync := fun _ => true, GetError := fun _ => ErrorCode.ok, GetResult := fun _ => [],
    GetMaxVersions := fun _ => 3, call_checker := fun _ => none, log := [] }

/-- Flags with random mode off, fail-fast on and a merge window of 5. -/
def flags_default : Flags :=
  { tera_sdk_ha_ddl_enable := true, tera_sdk_ha_timestamp_diff := 5,
    tera_sdk_ha_get_random_mode := false }

/-- Flags with fail-fast off, a merge window of 0 and random mode off. -/
def flags_best_effort : Flags :=
  { tera_sdk_ha_ddl_enable := false, tera_sdk_ha_timestamp_diff := 0,
    tera_sdk_ha_get_random_mode := false }

/-- The result of replica A in the merge scenarios S4 and S5. -/
def result_A : RowResult := [cell 100 "new"]

/-- The result of replica B in the merge scenarios S4 and S5. -/
def result_B : RowResult := [cell 99 "old", cell 50 "older"]

/-- A replica client on which `CreateTable`, `ShowUser` and `GetTableDescriptor` fail with
"timeout". -/
def refusing : ClientImpl :=
  { CreateTable := (false, timeout), ShowUser := (false, timeout),
    GetTableDescriptor := (none, timeout) }

/-- A replica client on which every call succeeds. -/
def willing : ClientImpl := {}

/-- Flags with random mode on, fail-fast on and a merge window of 5. -/
def flags_random : Flags :=
  { tera_sdk_ha_ddl_enable := true, tera_sdk_ha_timestamp_diff := 5,
    tera_sdk_ha_get_random_mode := true }

/-- A replica client that cannot be reached: `OpenTable` and `CmdCtrl` fail with "down". -/
def unreachable : ClientImpl :=
  { OpenTable := (none, down), CmdCtrl := (false, true, "stale", down) }

/-- A replica client whose `CmdCtrl` succeeds with the results `false` and "leave". -/
def answering : ClientImpl :=
  { CmdCtrl := (true, false, "leave", ErrorCode.ok) }

/-- A replica that streams: its `Scan` returns stream 7. -/
def streaming : TableImpl := { Scan := (some 7, ErrorCode.ok) }

/-! # Theorems -/

/-! ## Lists and logs -/

theorem invoked_append (l₁ l₂ : List Event) : invoked (l₁ ++ l₂) = invoked l₁ ++ invoked l₂ := by
  induction l₁ with
  | nil => rfl
  | cons e l ih => cases e <;> simp [invoked, ih]

theorem dispatched_append (l₁ l₂ : List Event) :
    dispatched (l₁ ++ l₂) = dispatched l₁ ++ dispatched l₂ := by
  induction l₁ with
  | nil => rfl
  | cons e l ih => cases e <;> simp [dispatched, ih]

theorem submitted_append (l₁ l₂ : List Event) :
    submitted (l₁ ++ l₂) = submitted l₁ ++ submitted l₂ := by
  induction l₁ with
  | nil => rfl
  | cons e l ih => cases e <;> simp [submitted, ih]

theorem countP_lt_length_iff {α : Type} (p : α → Bool) (l : List α) :
    l.countP p < l.length ↔ ∃ a ∈ l, p a = false := by
  have hle : l.countP p ≤ l.length := List.countP_le_length p
  have heq : l.countP p = l.length ↔ ∀ a ∈ l, p a = true := List.countP_eq_length
  constructor
  · intro h
    by_contra hne
    push_neg at hne
    have : l.countP p = l.length := heq.2 (fun a ha => by simpa using hne a ha)
    omega
  · rintro ⟨a, ha, hpa⟩
    by_contra hge
    have : l.countP p = l.length := by omega
    have := heq.1 this a ha
    simp [hpa] at this

theorem eq_nil_or_snoc {α : Type} (l : List α) : l = [] ∨ ∃ init last, l = init ++ [last] := by
  rcases List.eq_nil_or_concat l with h | ⟨init, last, h⟩
  · exact Or.inl h
  · exact Or.inr ⟨init, last, by rw [h, List.concat_eq_append]⟩

theorem exists_first {α : Type} (p : α → Prop) (l : List α) (h : ∃ a ∈ l, p a) :
    ∃ pre t post, l = pre ++ t :: post ∧ (∀ u ∈ pre, ¬ p u) ∧ p t := by
  induction l with
  | nil => simp at h
  | cons a l ih =>
    by_cases ha : p a
    · exact ⟨[], a, l, rfl, by simp, ha⟩
    · obtain ⟨b, hb, hpb⟩ := h
      have hb' : b ∈ l := by
        rcases List.mem_cons.1 hb with rfl | hb'
        · exact absurd hpb ha
        · exact hb'
      obtain ⟨pre, t, post, rfl, hpre, ht⟩ := ih ⟨b, hb', hpb⟩
      refine ⟨a :: pre, t, post, rfl, ?_, ht⟩
      intro u hu
      rcases List.mem_cons.1 hu with rfl | hu'
      · exact ha
      · exact hpre u hu'

/-! ## Synchronous `ApplyMutation` (C1) -/

theorem mu_call_GetError_self (w : MuWorld) (t : TableImpl) (i row : Nat) :
    (w.call t i [row]).GetError row = t.ApplyMutation row := by
  simp [MuWorld.call]

theorem ApplyMutation_loop_log (size row : Nat) (ts : List TableImpl) (i fc : Nat) (w : MuWorld) :
    invoked (HATableImpl.ApplyMutation_loop size row ts i fc w).log
      = invoked w.log ++ List.range' i ts.length := by
  induction ts generalizing i fc w with
  | nil => simp [HATableImpl.ApplyMutation_loop]
  | cons t ts ih =>
    simp only [HATableImpl.ApplyMutation_loop, ih, List.length_cons, List.range'_succ]
    split <;> split <;> simp [invoked_append, invoked, MuWorld.call, MuWorld.Reset]

theorem ApplyMutation_loop_error (size row : Nat) (ts : List TableImpl) (i fc : Nat) (w : MuWorld)
    (h : ts ≠ []) :
    (HATableImpl.ApplyMutation_loop size row ts i fc w).GetError row
      = if fc + ts.countP (fun t => (t.ApplyMutation row).GetType != ErrorCodeType.kOK) < size
        then ErrorCode.ok else (ts.getLast h).ApplyMutation row := by
  induction ts generalizing i fc w with
  | nil => exact absurd rfl h
  | cons t ts ih =>
    cases ts with
    | nil =>
      simp only [HATableImpl.ApplyMutation_loop, mu_call_GetError_self,
        List.getLast_singleton, List.countP_cons, List.countP_nil]
      by_cases hf : (t.ApplyMutation row).GetType = ErrorCodeType.kOK
      · simp only [hf, ne_eq, not_true_eq_false, if_false, bne_self_eq_false, Nat.zero_add,
          Bool.false_eq_true, Nat.add_zero]
        split
        · simp [MuWorld.Reset]
        · simp [MuWorld.call]
      · have hb : ((t.ApplyMutation row).GetType != ErrorCodeType.kOK) = true := by
          simpa using hf
        simp only [hf, ne_eq, not_false_eq_true, if_true, hb, Nat.zero_add]
        split
        · simp [MuWorld.Reset]
        · simp [MuWorld.call]
    | cons u us =>
      rw [HATableImpl.ApplyMutation_loop, List.getLast_cons (by simp)]
      simp only [mu_call_GetError_self]
      rw [ih _ _ _ (by simp), List.countP_cons _ t (u :: us)]
      by_cases hf : (t.ApplyMutation row).GetType = ErrorCodeType.kOK
      · simp [hf]
      · have hb : ((t.ApplyMutation row).GetType != ErrorCodeType.kOK) = true := by
          simpa using hf
        simp only [hf, ne_eq, not_false_eq_true, if_true, hb]
        congr 2
        omega

/-- C1. Synchronous single-row `ApplyMutation` on a non-empty replica list: every replica is
called exactly once, in list order; on return the error slot of the mutation is OK exactly
when some replica reported OK; when every replica failed the slot holds the error the last
replica left. -/
theorem ApplyMutation_sync_at_least_one (self : HATableImpl) (w : MuWorld) (row_mu : Nat)
    (hsync : w.IsAsync row_mu = false) (h : self._tables ≠ []) :
    invoked (self.ApplyMutation w row_mu).log
      = invoked w.log ++ List.range self._tables.length ∧
    (((self.ApplyMutation w row_mu).GetError row_mu).GetType = ErrorCodeType.kOK ↔
      ∃ t ∈ self._tables, (t.ApplyMutation row_mu).GetType = ErrorCodeType.kOK) ∧
    ((∀ t ∈ self._tables, (t.ApplyMutation row_mu).GetType ≠ ErrorCodeType.kOK) →
      (self.ApplyMutation w row_mu).GetError row_mu
        = (self._tables.getLast h).ApplyMutation row_mu) := by
  have herr := ApplyMutation_loop_error self._tables.length row_mu self._tables 0 0 w h
  have hlog := ApplyMutation_loop_log self._tables.length row_mu self._tables 0 0 w
  have hiff := countP_lt_length_iff
    (fun t => (t.ApplyMutation row_mu).GetType != ErrorCodeType.kOK) self._tables
  simp only [Nat.zero_add] at herr
  simp only [HATableImpl.ApplyMutation, hsync, Bool.false_eq_true, if_false]
  refine ⟨by simpa [List.range_eq_range'] using hlog, ?_, ?_⟩
  · rw [herr]
    split
    · rename_i hlt
      obtain ⟨a, ha, hpa⟩ := hiff.1 hlt
      exact ⟨fun _ => ⟨a, ha, by simpa using hpa⟩, fun _ => rfl⟩
    · rename_i hge
      constructor
      · intro hok
        exact ⟨_, List.getLast_mem h, hok⟩
      · rintro ⟨a, ha, hpa⟩
        exact absurd (hiff.2 ⟨a, ha, by simpa using hpa⟩) hge
  · intro hall
    rw [herr, if_neg]
    intro hlt
    obtain ⟨a, ha, hpa⟩ := hiff.1 hlt
    exact hall a ha (by simpa using hpa)

/-- Witness of C1 (three replicas, replica 1 dead): the slot ends OK. -/
theorem ApplyMutation_sync_at_least_one_witness :
    sync_mutations.IsAsync 10 = false ∧
    (HATableImpl.mk [healthy, dead, healthy])._tables ≠ [] ∧
    (((HATableImpl.mk [healthy, dead, healthy]).ApplyMutation sync_mutations 10).GetError
      10).GetType = ErrorCodeType.kOK :=
  ⟨rfl, List.cons_ne_nil _ _,
    (ApplyMutation_sync_at_least_one (HATableImpl.mk [healthy, dead, healthy]) sync_mutations 10
      rfl (List.cons_ne_nil _ _)).2.1.2 ⟨healthy, List.mem_cons_self _ _, rfl⟩⟩

/-! ## Scalar writes (C2) -/

theorem write_loop_log (op : TableImpl → Bool × ErrorCode) (ts : List TableImpl) (i : Nat)
    (s : WriteState) :
    invoked (HATableImpl.write_loop op ts i s).log = invoked s.log ++ List.range' i ts.length := by
  induction ts generalizing i s with
  | nil => simp [HATableImpl.write_loop]
  | cons t ts ih =>
    simp only [HATableImpl.write_loop, ih, List.length_cons, List.range'_succ]
    split <;> simp [invoked_append, invoked]

theorem write_loop_failed_count (op : TableImpl → Bool × ErrorCode) (ts : List TableImpl)
    (i : Nat) (s : WriteState) :
    (HATableImpl.write_loop op ts i s).failed_count
      = s.failed_count + ts.countP (fun t => !(op t).1) := by
  induction ts generalizing i s with
  | nil => simp [HATableImpl.write_loop]
  | cons t ts ih =>
    simp only [HATableImpl.write_loop, ih, List.countP_cons]
    cases h : (op t).1 <;> simp
    omega

theorem write_loop_err (op : TableImpl → Bool × ErrorCode) (ts : List TableImpl) (i : Nat)
    (s : WriteState) (h : ts ≠ []) :
    (HATableImpl.write_loop op ts i s).err = (op (ts.getLast h)).2 := by
  induction ts generalizing i s with
  | nil => exact absurd rfl h
  | cons t ts ih =>
    cases ts with
    | nil => simp only [HATableImpl.write_loop, List.getLast_singleton]; split <;> rfl
    | cons u us =>
      rw [HATableImpl.write_loop, List.getLast_cons (by simp)]
      exact ih _ _ (by simp)

theorem write_spec (self : HATableImpl) (op : TableImpl → Bool × ErrorCode) (err : ErrorCode)
    (h : self._tables ≠ []) :
    invoked (self.write op err).log = List.range self._tables.length ∧
    ((self.write op err).ok = true ↔ ∃ t ∈ self._tables, (op t).1 = true) ∧
    ((self.write op err).ok = true →
      (self.write op err).err = ⟨ErrorCodeType.kOK, "success"⟩) ∧
    ((self.write op err).ok = false →
      (self.write op err).err = (op (self._tables.getLast h)).2) := by
  have hfc := write_loop_failed_count op self._tables 0 ⟨0, err, []⟩
  have hlog := write_loop_log op self._tables 0 ⟨0, err, []⟩
  have herr := write_loop_err op self._tables 0 ⟨0, err, []⟩ h
  have hiff := countP_lt_length_iff (fun t => !(op t).1) self._tables
  simp only [Nat.zero_add] at hfc
  unfold HATableImpl.write
  simp only [hfc, ge_iff_le]
  by_cases hc : self._tables.length ≤ List.countP (fun t => !(op t).1) self._tables
  · simp only [hc, if_true]
    refine ⟨by simpa [invoked, List.range_eq_range'] using hlog, ?_, by simp, fun _ => herr⟩
    simp only [Bool.false_eq_true, false_iff]
    intro hex
    have := hiff.2 (by simpa using hex)
    omega
  · simp only [hc, if_false]
    refine ⟨by simpa [invoked, List.range_eq_range'] using hlog, ?_, fun _ => rfl, by simp⟩
    simp only [true_iff]
    simpa using hiff.1 (by omega)

/-- C2. Scalar `Put`, `Add`, `AddInt64`, `PutIfAbsent` and `Append` on a non-empty replica list:
every replica is called exactly once, in order, whatever the earlier outcomes; the call returns
true exactly when some replica returned ok; on true the error is `kOK` / "success"; on false
the error is the one the last replica wrote. -/
theorem scalar_write_at_least_one (self : HATableImpl) (err : ErrorCode)
    (op : TableImpl → Bool × ErrorCode) (run : HATableImpl → ErrorCode → WriteResult)
    (hrun : (op, run) ∈ [(TableImpl.Put, HATableImpl.Put), (TableImpl.Add, HATableImpl.Add),
      (TableImpl.AddInt64, HATableImpl.AddInt64),
      (TableImpl.PutIfAbsent, HATableImpl.PutIfAbsent),
      (TableImpl.Append, HATableImpl.Append)])
    (h : self._tables ≠ []) :
    invoked (run self err).log = List.range self._tables.length ∧
    ((run self err).ok = true ↔ ∃ t ∈ self._tables, (op t).1 = true) ∧
    ((run self err).ok = true → (run self err).err = ⟨ErrorCodeType.kOK, "success"⟩) ∧
    ((run self err).ok = false → (run self err).err = (op (self._tables.getLast h)).2) := by
  simp only [List.mem_cons, Prod.mk.injEq, List.mem_singleton, List.not_mem_nil, or_false] at hrun
  rcases hrun with ⟨rfl, rfl⟩ | ⟨rfl, rfl⟩ | ⟨rfl, rfl⟩ | ⟨rfl, rfl⟩ | ⟨rfl, rfl⟩ <;>
    exact write_spec self _ err h

/-- Witness of C2, scenarios S1 and S2: three replicas with replica 1 dead give true and
`kOK` / "success"; two dead replicas give false and the last failure. -/
theorem scalar_write_at_least_one_witness :
    ((HATableImpl.mk [healthy, dead, healthy]).Put down).ok = true ∧
    ((HATableImpl.mk [healthy, dead, healthy]).Put down).err
      = ⟨ErrorCodeType.kOK, "success"⟩ ∧
    invoked ((HATableImpl.mk [healthy, dead, healthy]).Put down).log = [0, 1, 2] ∧
    ((HATableImpl.mk [dead, dead_too]).Put ErrorCode.ok).ok = false ∧
    ((HATableImpl.mk [dead, dead_too]).Put ErrorCode.ok).err = down := by
  have h1 := scalar_write_at_least_one (HATableImpl.mk [healthy, dead, healthy]) down
    TableImpl.Put HATableImpl.Put (List.mem_cons_self _ _) (List.cons_ne_nil _ _)
  have h2 := scalar_write_at_least_one (HATableImpl.mk [dead, dead_too]) ErrorCode.ok
    TableImpl.Put HATableImpl.Put (List.mem_cons_self _ _) (List.cons_ne_nil _ _)
  have ok1 : ((HATableImpl.mk [healthy, dead, healthy]).Put down).ok = true :=
    h1.2.1.2 ⟨healthy, List.mem_cons_self _ _, rfl⟩
  have ok2 : ((HATableImpl.mk [dead, dead_too]).Put ErrorCode.ok).ok = false := by decide
  exact ⟨ok1, h1.2.2.1 ok1, h1.1, ok2, h2.2.2.2 ok2⟩

/-! ## Completion gates -/

theorem feed_append {σ ε : Type} (step : σ → ε → Bool × σ) (s : σ) (es₁ es₂ : List ε) :
    feed step s (es₁ ++ es₂)
      = ((feed step s es₁).1 ++ (feed step (feed step s es₁).2 es₂).1,
         (feed step (feed step s es₁).2 es₂).2) := by
  induction es₁ generalizing s with
  | nil => simp [feed]
  | cons e es ih => simp [feed, ih]

theorem feed_fired {σ ε : Type} (step : σ → ε → Bool × σ) (log : σ → List Event)
    (fired : σ → Prop)
    (hstay : ∀ s e, fired s → (step s e).1 = false ∧ fired (step s e).2 ∧
      log (step s e).2 = log s)
    (s : σ) (es : List ε) (hs : fired s) :
    (feed step s es).1 = List.replicate es.length false ∧ log (feed step s es).2 = log s := by
  induction es generalizing s with
  | nil => simp [feed]
  | cons e es ih =>
    obtain ⟨h1, h2, h3⟩ := hstay s e hs
    obtain ⟨i1, i2⟩ := ih _ h2
    simp [feed, h1, i1, i2, h3, List.replicate_succ]

theorem feed_once {σ ε : Type} (step : σ → ε → Bool × σ) (log : σ → List Event)
    (fired : σ → Prop)
    (hfire : ∀ s e, (step s e).1 = true → fired (step s e).2)
    (hstay : ∀ s e, fired s → (step s e).1 = false ∧ fired (step s e).2 ∧
      log (step s e).2 = log s)
    (s : σ) (es : List ε) :
    (feed step s es).1 = List.replicate es.length false ∨
    ∃ es₁ e es₂, es = es₁ ++ e :: es₂ ∧
      (feed step s es).1
        = List.replicate es₁.length false ++ true :: List.replicate es₂.length false ∧
      log (feed step s es).2 = log (feed step s (es₁ ++ [e])).2 := by
  induction es generalizing s with
  | nil => left; simp [feed]
  | cons e es ih =>
    cases hb : (step s e).1 with
    | true =>
      right
      obtain ⟨i1, i2⟩ := feed_fired step log fired hstay _ es (hfire s e hb)
      exact ⟨[], e, es, rfl, by simp [feed, hb, i1], by simp [feed, i2]⟩
    | false =>
      rcases ih (step s e).2 with h | ⟨es₁, e', es₂, h1, h2, h3⟩
      · left; simp [feed, hb, h, List.replicate_succ]
      · right
        refine ⟨e :: es₁, e', es₂, by simp [h1], by simp [feed, hb, h2, List.replicate_succ], ?_⟩
        simpa [feed] using h3

/-! ## Asynchronous writes (C3, C5) -/

theorem put_complete_pending (chk : PutCallbackChecker) (w : MuWorld)
    (c : Completion) (hc : chk._has_call = false)
    (hlt : chk._cluster_index + 1 < chk._clusters.length) :
    PutCallbackChecker.complete (chk, w) c
      = (false,
         { chk with
           _cluster_index := chk._cluster_index + 1,
           _failed_count := chk._failed_count
             + (if (c.error.GetType != ErrorCodeType.kOK) = true then 1 else 0) },
         ((w.completed chk._row_mutate c).Reset chk._row_mutate).dispatch
           (chk._cluster_index + 1) chk._row_mutate) := by
  have hn : ¬ chk._clusters.length ≤ chk._cluster_index + 1 := by omega
  by_cases he : c.error.GetType = ErrorCodeType.kOK <;>
    simp [PutCallbackChecker.complete, PutCallbackChecker.NeedCall, hc, hn, he,
      MuWorld.completed]

theorem put_complete_final (chk : PutCallbackChecker) (w : MuWorld)
    (c : Completion) (hc : chk._has_call = false)
    (hge : chk._clusters.length ≤ chk._cluster_index + 1) :
    (PutCallbackChecker.complete (chk, w) c).1 = true ∧
    dispatched (PutCallbackChecker.complete (chk, w) c).2.2.log = dispatched w.log ∧
    (PutCallbackChecker.complete (chk, w) c).2.2.GetError chk._row_mutate
      = if c.error.GetType = ErrorCodeType.kOK then c.error
        else if chk._failed_count + 1 < chk._clusters.length then ErrorCode.ok else c.error := by
  by_cases he : c.error.GetType = ErrorCodeType.kOK
  · simp [PutCallbackChecker.complete, PutCallbackChecker.NeedCall, hc, hge, he,
      MuWorld.completed]
  · by_cases hf : chk._failed_count + 1 < chk._clusters.length <;>
      simp [PutCallbackChecker.complete, PutCallbackChecker.NeedCall, hc, hge, he, hf,
        MuWorld.completed, MuWorld.Reset, dispatched_append, dispatched]

theorem put_feed_pending (cs : List Completion) (chk : PutCallbackChecker)
    (w : MuWorld) (hc : chk._has_call = false)
    (hlt : chk._cluster_index + cs.length < chk._clusters.length) :
    (feed PutCallbackChecker.complete (chk, w) cs).1 = List.replicate cs.length false ∧
    (feed PutCallbackChecker.complete (chk, w) cs).2.1
      = { chk with
          _cluster_index := chk._cluster_index + cs.length,
          _failed_count := chk._failed_count
            + cs.countP (fun c => c.error.GetType != ErrorCodeType.kOK) } ∧
    (feed PutCallbackChecker.complete (chk, w) cs).2.2.log
      = w.log ++ (List.range' (chk._cluster_index + 1) cs.length).flatMap
          (fun i => [Event.reset chk._row_mutate, Event.dispatch i chk._row_mutate]) := by
  induction cs generalizing chk w with
  | nil => simp [feed]
  | cons c cs ih =>
    simp only [List.length_cons] at hlt
    have hstep := put_complete_pending chk w c hc (by omega)
    obtain ⟨i1, i2, i3⟩ := ih
      { chk with
        _cluster_index := chk._cluster_index + 1,
        _failed_count := chk._failed_count
          + (if (c.error.GetType != ErrorCodeType.kOK) = true then 1 else 0) }
      (((w.completed chk._row_mutate c).Reset chk._row_mutate).dispatch
        (chk._cluster_index + 1) chk._row_mutate) hc (by simp only; omega)
    simp only [feed, hstep, i1, i2, i3, List.length_cons, List.replicate_succ, true_and,
      List.countP_cons, List.range'_succ, List.flatMap_cons]
    constructor
    · congr 1 <;> omega
    · simp [MuWorld.dispatch, MuWorld.Reset, MuWorld.completed]

theorem dispatched_reset_dispatch (row a n : Nat) :
    dispatched ((List.range' a n).flatMap (fun i => [Event.reset row, Event.dispatch i row]))
      = List.range' a n := by
  induction n generalizing a with
  | zero => simp [dispatched]
  | succ n ih =>
    rw [List.range'_succ, List.flatMap_cons, dispatched_append, ih]
    rfl

theorem put_feed_all (init : List Completion) (last : Completion)
    (chk : PutCallbackChecker) (w : MuWorld) (hc : chk._has_call = false)
    (hlen : chk._cluster_index + init.length + 1 = chk._clusters.length) :
    (feed PutCallbackChecker.complete (chk, w) (init ++ [last])).1
      = List.replicate init.length false ++ [true] ∧
    dispatched (feed PutCallbackChecker.complete (chk, w) (init ++ [last])).2.2.log
      = dispatched w.log ++ List.range' (chk._cluster_index + 1) init.length ∧
    (feed PutCallbackChecker.complete (chk, w) (init ++ [last])).2.2.GetError chk._row_mutate
      = if last.error.GetType = ErrorCodeType.kOK then last.error
        else if chk._failed_count
            + init.countP (fun c => c.error.GetType != ErrorCodeType.kOK) + 1
            < chk._clusters.length then ErrorCode.ok
        else last.error := by
  obtain ⟨i1, i2, i3⟩ := put_feed_pending init chk w hc (by omega)
  have hfin := put_complete_final
    (feed PutCallbackChecker.complete (chk, w) init).2.1
    (feed PutCallbackChecker.complete (chk, w) init).2.2 last (by rw [i2]; exact hc)
    (by rw [i2]; simp only; omega)
  obtain ⟨f1, f2, f3⟩ := hfin
  rw [feed_append]
  simp only [feed, i1, f1, List.append_nil, true_and]
  refine ⟨?_, ?_⟩
  · rw [f2, i3, dispatched_append, dispatched_reset_dispatch]
  · have hrow : (feed PutCallbackChecker.complete (chk, w) init).2.1._row_mutate
        = chk._row_mutate := by rw [i2]
    rw [hrow] at f3
    rw [f3, i2]

/-- C3. Asynchronous `Put` through a fresh `PutCallbackChecker` over `N ≥ 1` replicas, fed the
`N` completions of the replicas in order: `NeedCall` returns true at the last completion, and
at that moment the error slot of the mutation is OK exactly when some replica completed with
OK; when all failed, the slot holds the error of the last replica. -/
theorem async_put_at_least_one (clusters : List TableImpl) (w : MuWorld) (row_mu : Nat)
    (cs : List Completion) (hN : 1 ≤ clusters.length) (hlen : cs.length = clusters.length) :
    (feed PutCallbackChecker.complete (PutCallbackChecker.new clusters row_mu, w) cs).1
      = List.replicate (clusters.length - 1) false ++ [true] ∧
    (((feed PutCallbackChecker.complete (PutCallbackChecker.new clusters row_mu, w) cs).2.2.GetError
        row_mu).GetType = ErrorCodeType.kOK ↔
      ∃ c ∈ cs, c.error.GetType = ErrorCodeType.kOK) ∧
    ((∀ c ∈ cs, c.error.GetType ≠ ErrorCodeType.kOK) →
      ∃ last, cs.getLast? = some last ∧
        (feed PutCallbackChecker.complete (PutCallbackChecker.new clusters row_mu, w) cs).2.2.GetError
          row_mu = last.error) := by
  rcases eq_nil_or_snoc cs with rfl | ⟨init, last, rfl⟩
  · simp only [List.length_nil] at hlen; omega
  · replace hlen : init.length + 1 = clusters.length := by simpa using hlen
    obtain ⟨h1, _, h3⟩ := put_feed_all init last
      (PutCallbackChecker.new clusters row_mu) w rfl
      (by simp only [PutCallbackChecker.new]; omega)
    have hiff := countP_lt_length_iff
      (fun c : Completion => c.error.GetType != ErrorCodeType.kOK) init
    simp only [PutCallbackChecker.new, Nat.zero_add] at h1 h3 ⊢
    refine ⟨by rw [h1, ← hlen]; simp, ?_, ?_⟩
    · rw [h3]
      by_cases hl : last.error.GetType = ErrorCodeType.kOK
      · simp only [hl, if_true, true_iff]
        exact ⟨last, by simp, hl⟩
      · simp only [hl, if_false]
        by_cases hf : init.countP (fun c => c.error.GetType != ErrorCodeType.kOK) + 1
            < clusters.length
        · simp only [hf, if_true]
          obtain ⟨a, ha, hpa⟩ := hiff.1 (by omega)
          exact ⟨fun _ => ⟨a, by simp [ha], by simpa using hpa⟩, fun _ => rfl⟩
        · simp only [hf, if_false, hl, false_iff]
          rintro ⟨a, ha, hpa⟩
          simp only [List.mem_append, List.mem_singleton] at ha
          rcases ha with ha | rfl
          · have := hiff.2 ⟨a, ha, by simpa using hpa⟩
            omega
          · exact hl hpa
    · intro hall
      refine ⟨last, by simp, ?_⟩
      rw [h3]
      have hl : last.error.GetType ≠ ErrorCodeType.kOK := hall last (by simp)
      rw [if_neg hl, if_neg]
      intro hf
      obtain ⟨a, ha, hpa⟩ := hiff.1 (by omega)
      exact hall a (by simp [ha]) (by simpa using hpa)

/-- Witness of C3 (three replicas; the first completes with OK, the other two fail): the callback
is released at the third completion with the slot reading OK. -/
theorem async_put_at_least_one_witness :
    1 ≤ [healthy, dead, dead_too].length ∧
    [Completion.of ErrorCode.ok [], Completion.of timeout [], Completion.of down []].length
      = [healthy, dead, dead_too].length ∧
    (feed PutCallbackChecker.complete
      (PutCallbackChecker.new [healthy, dead, dead_too] 10, async_mutations)
      [Completion.of ErrorCode.ok [], Completion.of timeout [], Completion.of down []]).1
      = [false, false, true] ∧
    ((feed PutCallbackChecker.complete
      (PutCallbackChecker.new [healthy, dead, dead_too] 10, async_mutations)
      [Completion.of ErrorCode.ok [], Completion.of timeout [], Completion.of down []]).2.2.GetError
        10).GetType = ErrorCodeType.kOK := by
  have h := async_put_at_least_one [healthy, dead, dead_too] async_mutations 10
    [Completion.of ErrorCode.ok [], Completion.of timeout [], Completion.of down []]
    (by decide) rfl
  exact ⟨by decide, rfl, h.1, h.2.1.2 ⟨Completion.of ErrorCode.ok [], List.mem_cons_self _ _, rfl⟩⟩

/-! ## At most one release per checker (C4) -/

theorem put_complete_fire (s : PutCallbackChecker × MuWorld) (c : Completion)
    (h : (PutCallbackChecker.complete s c).1 = true) :
    (PutCallbackChecker.complete s c).2.1._has_call = true := by
  revert h
  simp only [PutCallbackChecker.complete, PutCallbackChecker.NeedCall]
  split
  · simp
  · split
    · split <;> simp
    · simp

theorem put_complete_stay (s : PutCallbackChecker × MuWorld) (c : Completion)
    (h : s.1._has_call = true) :
    (PutCallbackChecker.complete s c).1 = false ∧
    (PutCallbackChecker.complete s c).2.1._has_call = true ∧
    (PutCallbackChecker.complete s c).2.2.log = s.2.log := by
  simp [PutCallbackChecker.complete, PutCallbackChecker.NeedCall, h, MuWorld.completed]

theorem get_complete_fire (s : GetCallbackChecker × RdWorld) (c : Completion)
    (h : (GetCallbackChecker.complete s c).1 = true) :
    (GetCallbackChecker.complete s c).2.1._has_call = true := by
  revert h
  simp only [GetCallbackChecker.complete, GetCallbackChecker.NeedCall]
  split
  · simp
  · split
    · simp
    · split <;> simp

theorem get_complete_stay (s : GetCallbackChecker × RdWorld) (c : Completion)
    (h : s.1._has_call = true) :
    (GetCallbackChecker.complete s c).1 = false ∧
    (GetCallbackChecker.complete s c).2.1._has_call = true ∧
    (GetCallbackChecker.complete s c).2.2.log = s.2.log := by
  simp [GetCallbackChecker.complete, GetCallbackChecker.NeedCall, h, RdWorld.completed]

theorem lget_complete_fire (FLAGS : Flags) (s : LGetCallbackChecker × RdWorld)
    (c : Completion) (h : (LGetCallbackChecker.complete FLAGS s c).1 = true) :
    (LGetCallbackChecker.complete FLAGS s c).2.1._has_call = true := by
  revert h
  simp only [LGetCallbackChecker.complete, LGetCallbackChecker.NeedCall]
  split
  · simp
  · split <;> split <;> simp

theorem lget_complete_stay (FLAGS : Flags) (s : LGetCallbackChecker × RdWorld)
    (c : Completion) (h : s.1._has_call = true) :
    (LGetCallbackChecker.complete FLAGS s c).1 = false ∧
    (LGetCallbackChecker.complete FLAGS s c).2.1._has_call = true ∧
    (LGetCallbackChecker.complete FLAGS s c).2.2.log = s.2.log := by
  simp [LGetCallbackChecker.complete, LGetCallbackChecker.NeedCall, h, RdWorld.completed]

/-- C4. For each of the three checkers and every finite sequence of completions, with arbitrary
codes, delivered to one instance in any state: either `NeedCall` never returns true, or it
returns true exactly once, at some completion `e`, false at every other one, and nothing is
dispatched, reset or called after `e` (the log stays as it was right after `e`). -/
theorem NeedCall_true_at_most_once :
    (∀ (s : PutCallbackChecker × MuWorld) (es : List Completion),
      (feed PutCallbackChecker.complete s es).1 = List.replicate es.length false ∨
      ∃ es₁ e es₂, es = es₁ ++ e :: es₂ ∧
        (feed PutCallbackChecker.complete s es).1
          = List.replicate es₁.length false ++ true :: List.replicate es₂.length false ∧
        (feed PutCallbackChecker.complete s es).2.2.log
          = (feed PutCallbackChecker.complete s (es₁ ++ [e])).2.2.log) ∧
    (∀ (s : GetCallbackChecker × RdWorld) (es : List Completion),
      (feed GetCallbackChecker.complete s es).1 = List.replicate es.length false ∨
      ∃ es₁ e es₂, es = es₁ ++ e :: es₂ ∧
        (feed GetCallbackChecker.complete s es).1
          = List.replicate es₁.length false ++ true :: List.replicate es₂.length false ∧
        (feed GetCallbackChecker.complete s es).2.2.log
          = (feed GetCallbackChecker.complete s (es₁ ++ [e])).2.2.log) ∧
    (∀ (FLAGS : Flags) (s : LGetCallbackChecker × RdWorld) (es : List Completion),
      (feed (LGetCallbackChecker.complete FLAGS) s es).1 = List.replicate es.length false ∨
      ∃ es₁ e es₂, es = es₁ ++ e :: es₂ ∧
        (feed (LGetCallbackChecker.complete FLAGS) s es).1
          = List.replicate es₁.length false ++ true :: List.replicate es₂.length false ∧
        (feed (LGetCallbackChecker.complete FLAGS) s es).2.2.log
          = (feed (LGetCallbackChecker.complete FLAGS) s (es₁ ++ [e])).2.2.log) :=
  ⟨fun s es => feed_once PutCallbackChecker.complete (fun s => s.2.log)
      (fun s => s.1._has_call = true) put_complete_fire
      put_complete_stay s es,
   fun s es => feed_once GetCallbackChecker.complete (fun s => s.2.log)
      (fun s => s.1._has_call = true) get_complete_fire
      get_complete_stay s es,
   fun FLAGS s es => feed_once (LGetCallbackChecker.complete FLAGS) (fun s => s.2.log)
      (fun s => s.1._has_call = true) (lget_complete_fire FLAGS)
      (lget_complete_stay FLAGS) s es⟩

/-! ## Dispatch order of the asynchronous write (C5) -/

/-- C5. Asynchronous `Put` over `N ≥ 1` replicas. `ApplyMutation` attaches a fresh checker and
dispatches to replica 0 only. For `k < N`, after the first `k` completions `NeedCall` has
returned false `k` times and each of them has reset the mutation and dispatched to the next
replica, so the log reads: dispatch 0, then reset and dispatch `i` for `i = 1..k`. The `N`-th
completion returns true and dispatches nothing: the replicas are dispatched to in the order
`0, 1, ..., N-1`, each once, and the callback is released once, at the end, whatever the
outcomes. -/
theorem async_put_sequential_dispatch (self : HATableImpl) (w : MuWorld) (row_mu : Nat)
    (cs : List Completion) (hasync : w.IsAsync row_mu = true) (hN : 1 ≤ self._tables.length)
    (hlen : cs.length = self._tables.length) :
    (self.ApplyMutation w row_mu).call_checker row_mu
      = some (PutCallbackChecker.new self._tables row_mu) ∧
    (self.ApplyMutation w row_mu).log = w.log ++ [Event.dispatch 0 row_mu] ∧
    (∀ k, k < self._tables.length →
      (feed PutCallbackChecker.complete
        (PutCallbackChecker.new self._tables row_mu, self.ApplyMutation w row_mu)
        (cs.take k)).1 = List.replicate k false ∧
      (feed PutCallbackChecker.complete
        (PutCallbackChecker.new self._tables row_mu, self.ApplyMutation w row_mu)
        (cs.take k)).2.2.log
        = w.log ++ Event.dispatch 0 row_mu ::
            (List.range' 1 k).flatMap
              (fun i => [Event.reset row_mu, Event.dispatch i row_mu])) ∧
    (feed PutCallbackChecker.complete
      (PutCallbackChecker.new self._tables row_mu, self.ApplyMutation w row_mu) cs).1
      = List.replicate (self._tables.length - 1) false ++ [true] ∧
    dispatched (feed PutCallbackChecker.complete
      (PutCallbackChecker.new self._tables row_mu, self.ApplyMutation w row_mu) cs).2.2.log
      = dispatched w.log ++ List.range self._tables.length := by
  have hpos : 0 < self._tables.length := hN
  have hlog : (self.ApplyMutation w row_mu).log = w.log ++ [Event.dispatch 0 row_mu] := by
    simp [HATableImpl.ApplyMutation, hasync, hpos, MuWorld.dispatch, MuWorld.SetCallChecker]
  refine ⟨?_, hlog, ?_, ?_⟩
  · simp [HATableImpl.ApplyMutation, hasync, hpos, MuWorld.dispatch, MuWorld.SetCallChecker]
  · intro k hk
    have hk' : (cs.take k).length = k := by simp [List.length_take]; omega
    obtain ⟨i1, _, i3⟩ := put_feed_pending (cs.take k)
      (PutCallbackChecker.new self._tables row_mu) (self.ApplyMutation w row_mu) rfl
      (by simp only [PutCallbackChecker.new, hk']; omega)
    rw [hk'] at i1 i3
    refine ⟨i1, ?_⟩
    rw [i3, hlog]
    simp [PutCallbackChecker.new]
  · rcases eq_nil_or_snoc cs with rfl | ⟨init, last, rfl⟩
    · simp only [List.length_nil] at hlen; omega
    · replace hlen : init.length + 1 = self._tables.length := by simpa using hlen
      obtain ⟨h1, h2, _⟩ := put_feed_all init last
        (PutCallbackChecker.new self._tables row_mu) (self.ApplyMutation w row_mu) rfl
        (by simp only [PutCallbackChecker.new]; omega)
      refine ⟨by rw [h1, ← hlen]; simp, ?_⟩
      rw [h2, hlog, dispatched_append]
      simp only [PutCallbackChecker.new, dispatched, Nat.zero_add, List.append_assoc]
      rw [← hlen, List.range_eq_range', List.range'_succ]
      simp

/-- Witness of C5 (three replicas, the second one fails): dispatches go to 0, 1, 2 and the
callback is released at the third completion. -/
theorem async_put_sequential_dispatch_witness :
    async_mutations.IsAsync 10 = true ∧
    1 ≤ (HATableImpl.mk [healthy, dead, healthy])._tables.length ∧
    (feed PutCallbackChecker.complete
      (PutCallbackChecker.new [healthy, dead, healthy] 10,
        (HATableImpl.mk [healthy, dead, healthy]).ApplyMutation async_mutations 10)
      [Completion.of ErrorCode.ok [], Completion.of timeout [], Completion.of ErrorCode.ok []]).1
      = [false, false, true] ∧
    dispatched (feed PutCallbackChecker.complete
      (PutCallbackChecker.new [healthy, dead, healthy] 10,
        (HATableImpl.mk [healthy, dead, healthy]).ApplyMutation async_mutations 10)
      [Completion.of ErrorCode.ok [], Completion.of timeout [],
        Completion.of ErrorCode.ok []]).2.2.log = [0, 1, 2] := by
  have h := async_put_sequential_dispatch (HATableImpl.mk [healthy, dead, healthy])
    async_mutations 10
    [Completion.of ErrorCode.ok [], Completion.of timeout [], Completion.of ErrorCode.ok []]
    rfl (by decide) rfl
  exact ⟨rfl, by decide, h.2.2.2.1, h.2.2.2.2⟩

/-! ## Asynchronous `Get` (C6) -/

theorem get_NeedCall_ok (chk : GetCallbackChecker) (w : RdWorld)
    (hc : chk._has_call = false) :
    chk.NeedCall w ErrorCodeType.kOK = (true, { chk with _has_call := true }, w) := by
  simp [GetCallbackChecker.NeedCall, hc]

theorem get_NeedCall_next (chk : GetCallbackChecker) (w : RdWorld)
    (code : ErrorCodeType) (hc : chk._has_call = false) (hcode : code ≠ ErrorCodeType.kOK)
    (hlt : chk._cluster_index + 1 < chk._clusters.length) :
    chk.NeedCall w code
      = (false, { chk with _cluster_index := chk._cluster_index + 1 },
         (w.Reset chk._row_reader).dispatch (chk._cluster_index + 1) chk._row_reader) := by
  have hn : ¬ chk._clusters.length ≤ chk._cluster_index + 1 := by omega
  simp [GetCallbackChecker.NeedCall, hc, hcode, hn]

theorem get_NeedCall_exhausted (chk : GetCallbackChecker) (w : RdWorld)
    (code : ErrorCodeType) (hc : chk._has_call = false) (hcode : code ≠ ErrorCodeType.kOK)
    (hge : chk._clusters.length ≤ chk._cluster_index + 1) :
    chk.NeedCall w code
      = (true, { chk with _cluster_index := chk._cluster_index + 1, _has_call := true }, w) := by
  simp [GetCallbackChecker.NeedCall, hc, hcode, hge]

theorem get_feed_pending (cs : List Completion) (chk : GetCallbackChecker)
    (w : RdWorld) (hc : chk._has_call = false)
    (hcs : ∀ c ∈ cs, c.code ≠ ErrorCodeType.kOK)
    (hlt : chk._cluster_index + cs.length < chk._clusters.length) :
    (feed GetCallbackChecker.complete (chk, w) cs).1 = List.replicate cs.length false ∧
    (feed GetCallbackChecker.complete (chk, w) cs).2.1
      = { chk with _cluster_index := chk._cluster_index + cs.length } ∧
    (feed GetCallbackChecker.complete (chk, w) cs).2.2.log
      = w.log ++ (List.range' (chk._cluster_index + 1) cs.length).flatMap
          (fun i => [Event.reset chk._row_reader, Event.dispatch i chk._row_reader]) := by
  induction cs generalizing chk w with
  | nil => simp [feed]
  | cons c cs ih =>
    simp only [List.length_cons] at hlt
    have hstep : GetCallbackChecker.complete (chk, w) c
        = (false, { chk with _cluster_index := chk._cluster_index + 1 },
           ((w.completed chk._row_reader c).Reset chk._row_reader).dispatch
             (chk._cluster_index + 1) chk._row_reader) := by
      simp only [GetCallbackChecker.complete]
      rw [get_NeedCall_next chk _ c.code hc (hcs c (by simp)) (by omega)]
    obtain ⟨i1, i2, i3⟩ := ih { chk with _cluster_index := chk._cluster_index + 1 }
      (((w.completed chk._row_reader c).Reset chk._row_reader).dispatch
        (chk._cluster_index + 1) chk._row_reader) hc
      (fun c' hc' => hcs c' (by simp [hc'])) (by simp only; omega)
    simp only [feed, hstep, i1, i2, i3, List.length_cons, List.replicate_succ, true_and,
      List.range'_succ, List.flatMap_cons]
    constructor
    · congr 1; omega
    · simp [RdWorld.dispatch, RdWorld.Reset, RdWorld.completed]

/-- C6. `GetCallbackChecker::NeedCall` on an instance that has not fired: with code OK it
returns true and leaves the reader and the log alone; with another code and a next replica it
resets the reader, dispatches to the next replica and returns false; with another code on the
last replica it returns true and leaves the reader alone, so the last error stays. Hence, for a
fresh checker over the replica list `clusters`, if the first `k` completions fail
(`k < clusters.length`) and the next one succeeds, `NeedCall` returns false `k` times and then
true, the cursor of the checker is `k`, and the reader holds what the successful replica
left. -/
theorem async_get_first_success (chk : GetCallbackChecker) (w : RdWorld) (code : ErrorCodeType)
    (clusters : List TableImpl) (row_reader : Nat) (fails : List Completion) (succ : Completion)
    (hc : chk._has_call = false)
    (hfails : ∀ c ∈ fails, c.code ≠ ErrorCodeType.kOK)
    (hsucc : succ.code = ErrorCodeType.kOK)
    (hk : fails.length < clusters.length) :
    chk.NeedCall w ErrorCodeType.kOK = (true, { chk with _has_call := true }, w) ∧
    (code ≠ ErrorCodeType.kOK → chk._cluster_index + 1 < chk._clusters.length →
      chk.NeedCall w code
        = (false, { chk with _cluster_index := chk._cluster_index + 1 },
           (w.Reset chk._row_reader).dispatch (chk._cluster_index + 1) chk._row_reader)) ∧
    (code ≠ ErrorCodeType.kOK → chk._clusters.length ≤ chk._cluster_index + 1 →
      chk.NeedCall w code
        = (true, { chk with _cluster_index := chk._cluster_index + 1, _has_call := true }, w)) ∧
    (feed GetCallbackChecker.complete (GetCallbackChecker.new clusters row_reader, w)
        (fails ++ [succ])).1 = List.replicate fails.length false ++ [true] ∧
    (feed GetCallbackChecker.complete (GetCallbackChecker.new clusters row_reader, w)
        (fails ++ [succ])).2.1._cluster_index = fails.length ∧
    dispatched (feed GetCallbackChecker.complete (GetCallbackChecker.new clusters row_reader, w)
        (fails ++ [succ])).2.2.log = dispatched w.log ++ List.range' 1 fails.length ∧
    (feed GetCallbackChecker.complete (GetCallbackChecker.new clusters row_reader, w)
        (fails ++ [succ])).2.2.GetError row_reader = succ.error ∧
    (feed GetCallbackChecker.complete (GetCallbackChecker.new clusters row_reader, w)
        (fails ++ [succ])).2.2.GetResult row_reader = succ.result := by
  refine ⟨get_NeedCall_ok chk w hc,
    fun h1 h2 => get_NeedCall_next chk w code hc h1 h2,
    fun h1 h2 => get_NeedCall_exhausted chk w code hc h1 h2, ?_⟩
  obtain ⟨i1, i2, i3⟩ := get_feed_pending fails
    (GetCallbackChecker.new clusters row_reader) w rfl hfails
    (by simp only [GetCallbackChecker.new]; omega)
  rw [feed_append]
  simp only [feed, GetCallbackChecker.complete, i1, i2, hsucc, List.append_nil]
  rw [get_NeedCall_ok _ _ rfl]
  simp only [GetCallbackChecker.new, Nat.zero_add, true_and]
  refine ⟨?_, ?_, ?_⟩
  · simp only [GetCallbackChecker.new, Nat.zero_add] at i3
    simp only [RdWorld.completed, i3, dispatched_append, dispatched_reset_dispatch]
  · simp [RdWorld.completed]
  · simp [RdWorld.completed]

/-- Witness of C6, scenario S3: three replicas, replica 0 fails, replica 1 returns the row
`cf:q → "v"`; the callback is released at the second completion, the cursor is 1 and the reader
holds "v". -/
theorem async_get_first_success_witness :
    (feed GetCallbackChecker.complete
      (GetCallbackChecker.new [dead, knows_B, healthy] 11, sync_readers)
      ([Completion.of timeout []] ++ [Completion.of ErrorCode.ok [cell 2 "v"]])).1
      = [false, true] ∧
    (feed GetCallbackChecker.complete
      (GetCallbackChecker.new [dead, knows_B, healthy] 11, sync_readers)
      ([Completion.of timeout []] ++ [Completion.of ErrorCode.ok [cell 2 "v"]])).2.1._cluster_index
      = 1 ∧
    (feed GetCallbackChecker.complete
      (GetCallbackChecker.new [dead, knows_B, healthy] 11, sync_readers)
      ([Completion.of timeout []]
        ++ [Completion.of ErrorCode.ok [cell 2 "v"]])).2.2.GetResult 11 = [cell 2 "v"] := by
  have h := async_get_first_success (GetCallbackChecker.new [dead, knows_B, healthy] 11)
    sync_readers ErrorCodeType.kTimeout [dead, knows_B, healthy] 11 [Completion.of timeout []]
    (Completion.of ErrorCode.ok [cell 2 "v"]) rfl (by decide) rfl (by decide)
  exact ⟨h.2.2.2.1, h.2.2.2.2.1, h.2.2.2.2.2.2.2⟩

/-! ## `ShuffleArray` -/

theorem perm_cons_set {α : Type} (l : List α) (b : Nat) (x y : α) (hy : l[b]? = some y) :
    (y :: l.set b x).Perm (x :: l) := by
  induction l generalizing b with
  | nil => simp at hy
  | cons z t ih =>
    cases b with
    | zero =>
      simp only [List.getElem?_cons_zero, Option.some.injEq] at hy
      subst hy
      simpa using List.Perm.swap x z t
    | succ n =>
      simp only [List.getElem?_cons_succ] at hy
      simp only [List.set_cons_succ]
      exact (List.Perm.swap z y _).trans
        (((ih n hy).cons z).trans (List.Perm.swap x z t))

theorem perm_swap_set {α : Type} (l : List α) (a b : Nat) (x y : α) (hx : l[a]? = some x)
    (hy : l[b]? = some y) : ((l.set a y).set b x).Perm l := by
  induction l generalizing a b with
  | nil => simp at hx
  | cons z t ih =>
    cases a with
    | zero =>
      simp only [List.getElem?_cons_zero, Option.some.injEq] at hx
      subst hx
      cases b with
      | zero =>
        simp only [List.getElem?_cons_zero, Option.some.injEq] at hy
        subst hy
        simp
      | succ n =>
        simp only [List.getElem?_cons_succ] at hy
        simpa using perm_cons_set t n z y hy
    | succ m =>
      simp only [List.getElem?_cons_succ] at hx
      cases b with
      | zero =>
        simp only [List.getElem?_cons_zero, Option.some.injEq] at hy
        subst hy
        simpa using perm_cons_set t m z x hx
      | succ n =>
        simp only [List.getElem?_cons_succ] at hy
        simpa using (ih m n hx hy).cons z

theorem ShuffleArray_loop_perm {α : Type} (random : Nat → Nat) (i k : Nat) (table_set : List α)
    (hi : i < table_set.length) (hsize : table_set.length < 2 ^ 64) :
    ∃ l, HATableImpl.ShuffleArray_loop random i k table_set = some l ∧ l.Perm table_set := by
  induction i generalizing k table_set with
  | zero => exact ⟨table_set, rfl, List.Perm.refl _⟩
  | succ i ih =>
    have hmod : (i + 1 + 1) % 2 ^ 64 = i + 1 + 1 := Nat.mod_eq_of_lt (by omega)
    have hrnd : (random k % 2 ^ 31) % (i + 1 + 1) < table_set.length :=
      lt_of_lt_of_le (Nat.mod_lt _ (by omega)) (by omega)
    obtain ⟨t, ht⟩ : ∃ t, table_set[(random k % 2 ^ 31) % (i + 1 + 1)]? = some t :=
      ⟨_, List.getElem?_eq_getElem hrnd⟩
    obtain ⟨u, hu⟩ : ∃ u, table_set[i + 1]? = some u := ⟨_, List.getElem?_eq_getElem hi⟩
    have hp := perm_swap_set table_set _ _ t u ht hu
    obtain ⟨l, hl, hlp⟩ := ih (k + 1)
      ((table_set.set ((random k % 2 ^ 31) % (i + 1 + 1)) u).set (i + 1) t)
      (by simp only [List.length_set]; omega) (by simpa only [List.length_set] using hsize)
    refine ⟨l, ?_, hlp.trans hp⟩
    rw [HATableImpl.ShuffleArray_loop, hmod, if_neg (by omega)]
    simp only [ht, hu]
    exact hl

theorem ShuffleArray_perm {α : Type} (random : Nat → Nat) (table_set : List α)
    (hne : table_set ≠ []) (hsize : table_set.length < 2 ^ 64) :
    ∃ l, HATableImpl.ShuffleArray random table_set = some l ∧ l.Perm table_set := by
  have hpos : 0 < table_set.length := List.length_pos.2 hne
  have hstart : (table_set.length + 2 ^ 64 - 1) % 2 ^ 64 = table_set.length - 1 := by
    have : table_set.length + 2 ^ 64 - 1 = (table_set.length - 1) + 2 ^ 64 := by omega
    rw [this, Nat.add_mod_right, Nat.mod_eq_of_lt (by omega)]
  unfold HATableImpl.ShuffleArray
  rw [hstart]
  exact ShuffleArray_loop_perm random _ 0 table_set (by omega) hsize

theorem table_set_perm (self : HATableImpl) (FLAGS : Flags) (random : Nat → Nat)
    (h : FLAGS.tera_sdk_ha_get_random_mode = true → self._tables ≠ [])
    (hsize : self._tables.length < 2 ^ 64) :
    ∃ l, self.table_set FLAGS random = some l ∧ l.Perm self._tables ∧
      (FLAGS.tera_sdk_ha_get_random_mode = false → l = self._tables) := by
  unfold HATableImpl.table_set
  cases hm : FLAGS.tera_sdk_ha_get_random_mode with
  | false => exact ⟨_, by simp, List.Perm.refl _, fun _ => rfl⟩
  | true =>
    obtain ⟨l, hl, hp⟩ := ShuffleArray_perm random self._tables (h hm) hsize
    exact ⟨l, by simpa using hl, hp, by simp⟩

/-! ## Synchronous `Get` (C7) -/

theorem rd_call_GetError_self (w : RdWorld) (t : TableImpl) (i row : Nat) :
    (w.call t i [row]).GetError row = (t.Get row).1 := by
  simp [RdWorld.call]

theorem rd_call_GetResult_self (w : RdWorld) (t : TableImpl) (i row : Nat) :
    (w.call t i [row]).GetResult row = (t.Get row).2 := by
  simp [RdWorld.call]

theorem Get_loop_first_success (size row : Nat) (pre : List TableImpl) (t : TableImpl)
    (post : List TableImpl) (i fc : Nat) (w : RdWorld)
    (hpre : ∀ u ∈ pre, (u.Get row).1.GetType ≠ ErrorCodeType.kOK)
    (ht : (t.Get row).1.GetType = ErrorCodeType.kOK) :
    invoked (HATableImpl.Get_loop size row (pre ++ t :: post) i fc w).log
      = invoked w.log ++ List.range' i (pre.length + 1) ∧
    (HATableImpl.Get_loop size row (pre ++ t :: post) i fc w).GetError row = (t.Get row).1 ∧
    (HATableImpl.Get_loop size row (pre ++ t :: post) i fc w).GetResult row = (t.Get row).2 ∧
    ∃ l, (HATableImpl.Get_loop size row (pre ++ t :: post) i fc w).log
      = l ++ [Event.invoke (i + pre.length) [row]] := by
  induction pre generalizing i fc w with
  | nil =>
    simp only [List.nil_append, HATableImpl.Get_loop, rd_call_GetError_self, ht, ne_eq,
      not_true_eq_false, if_false, rd_call_GetResult_self, List.length_nil, Nat.zero_add,
      Nat.add_zero, true_and]
    exact ⟨by simp [RdWorld.call, invoked_append, invoked], w.log, rfl⟩
  | cons u pre ih =>
    have hu : (u.Get row).1.GetType ≠ ErrorCodeType.kOK := hpre u (by simp)
    rw [List.cons_append, HATableImpl.Get_loop]
    simp only [rd_call_GetError_self, hu, ne_eq, not_false_eq_true, if_true,
      List.length_cons]
    obtain ⟨h1, h2, h3, l, h4⟩ := ih (i + 1) (fc + 1)
      (if fc + 1 < size then (w.call u i [row]).Reset row else w.call u i [row])
      (fun v hv => hpre v (by simp [hv]))
    refine ⟨?_, h2, h3, l, ?_⟩
    · rw [h1, List.range'_succ i]
      split <;> simp [RdWorld.call, RdWorld.Reset, invoked_append, invoked]
    · rw [h4]
      congr 3
      omega

theorem Get_loop_all_fail (size row : Nat) (ts : List TableImpl) (i fc : Nat) (w : RdWorld)
    (hall : ∀ u ∈ ts, (u.Get row).1.GetType ≠ ErrorCodeType.kOK) (h : ts ≠ []) :
    invoked (HATableImpl.Get_loop size row ts i fc w).log
      = invoked w.log ++ List.range' i ts.length ∧
    (HATableImpl.Get_loop size row ts i fc w).GetError row
      = if fc + ts.length < size then ErrorCode.ok else ((ts.getLast h).Get row).1 := by
  induction ts generalizing i fc w with
  | nil => exact absurd rfl h
  | cons u ts ih =>
    have hu : (u.Get row).1.GetType ≠ ErrorCodeType.kOK := hall u (by simp)
    cases ts with
    | nil =>
      simp only [HATableImpl.Get_loop, rd_call_GetError_self, hu, ne_eq,
        not_false_eq_true, if_true, List.length_singleton, List.getLast_singleton]
      split <;> simp [RdWorld.call, RdWorld.Reset, invoked_append, invoked]
    | cons v vs =>
      rw [HATableImpl.Get_loop, List.getLast_cons (by simp)]
      simp only [rd_call_GetError_self, hu, ne_eq, not_false_eq_true, if_true]
      obtain ⟨h1, h2⟩ := ih (i + 1) (fc + 1)
        (if fc + 1 < size then (w.call u i [row]).Reset row else w.call u i [row])
        (fun x hx => hall x (by simp [hx])) (by simp)
      refine ⟨?_, ?_⟩
      · have hl : (u :: v :: vs).length = (v :: vs).length + 1 := rfl
        rw [h1, hl, List.range'_succ i]
        split <;> simp [RdWorld.call, RdWorld.Reset, invoked_append, invoked]
      · rw [h2]
        simp only [List.length_cons]
        congr 1
        apply propext
        constructor <;> intro <;> omega

/-- C7. Synchronous single-row `Get` on a non-empty replica list (of a size a `size_t` can
hold): the call returns; the replicas are consulted in the order `table_set`, a permutation of
`_tables` that is `_tables` itself unless random mode is on; the reader ends with error OK
exactly when some replica reported OK; in that case the replicas consulted are those up to and
including the first successful one, the reader holds the error and the result that replica
left, and the last thing done is that call (no `Reset()` follows); when all replicas fail
every replica is consulted and the reader keeps the error of the last one. -/
theorem Get_sync_first_success (self : HATableImpl) (FLAGS : Flags) (random : Nat → Nat)
    (w : RdWorld) (row_reader : Nat) (hsync : w.IsAsync row_reader = false)
    (hne : self._tables ≠ []) (hsize : self._tables.length < 2 ^ 64) :
    ∃ table_set w', self.table_set FLAGS random = some table_set ∧
      table_set.Perm self._tables ∧
      (FLAGS.tera_sdk_ha_get_random_mode = false → table_set = self._tables) ∧
      self.Get FLAGS random w row_reader = some w' ∧
      ((w'.GetError row_reader).GetType = ErrorCodeType.kOK ↔
        ∃ t ∈ self._tables, (t.Get row_reader).1.GetType = ErrorCodeType.kOK) ∧
      (∀ pre t post, table_set = pre ++ t :: post →
        (∀ u ∈ pre, (u.Get row_reader).1.GetType ≠ ErrorCodeType.kOK) →
        (t.Get row_reader).1.GetType = ErrorCodeType.kOK →
        invoked w'.log = invoked w.log ++ List.range (pre.length + 1) ∧
        w'.GetError row_reader = (t.Get row_reader).1 ∧
        w'.GetResult row_reader = (t.Get row_reader).2 ∧
        ∃ l, w'.log = l ++ [Event.invoke pre.length [row_reader]]) ∧
      ((∀ t ∈ self._tables, (t.Get row_reader).1.GetType ≠ ErrorCodeType.kOK) →
        invoked w'.log = invoked w.log ++ List.range self._tables.length ∧
        ∃ last, table_set.getLast? = some last ∧
          w'.GetError row_reader = (last.Get row_reader).1) := by
  obtain ⟨table_set, hts, hperm, hoff⟩ := table_set_perm self FLAGS random (fun _ => hne) hsize
  have hne' : table_set ≠ [] := by
    intro h0
    rw [h0] at hperm
    exact hne (List.Perm.eq_nil hperm.symm)
  have hget : self.Get FLAGS random w row_reader
      = some (HATableImpl.Get_loop table_set.length row_reader table_set 0 0 w) := by
    simp [HATableImpl.Get, hts, hsync]
  have hsucc : ∀ pre t post, table_set = pre ++ t :: post →
      (∀ u ∈ pre, (u.Get row_reader).1.GetType ≠ ErrorCodeType.kOK) →
      (t.Get row_reader).1.GetType = ErrorCodeType.kOK →
      invoked (HATableImpl.Get_loop table_set.length row_reader table_set 0 0 w).log
        = invoked w.log ++ List.range (pre.length + 1) ∧
      (HATableImpl.Get_loop table_set.length row_reader table_set 0 0 w).GetError row_reader
        = (t.Get row_reader).1 ∧
      (HATableImpl.Get_loop table_set.length row_reader table_set 0 0 w).GetResult row_reader
        = (t.Get row_reader).2 ∧
      ∃ l, (HATableImpl.Get_loop table_set.length row_reader table_set 0 0 w).log
        = l ++ [Event.invoke pre.length [row_reader]] := by
    intro pre t post hsplit hpre ht
    obtain ⟨h1, h2, h3, l, h4⟩ := Get_loop_first_success (pre ++ t :: post).length row_reader
      pre t post 0 0 w hpre ht
    rw [hsplit]
    exact ⟨by rw [h1, List.range_eq_range'], h2, h3, l, by rw [h4, Nat.zero_add]⟩
  have hfail : (∀ t ∈ table_set, (t.Get row_reader).1.GetType ≠ ErrorCodeType.kOK) →
      invoked (HATableImpl.Get_loop table_set.length row_reader table_set 0 0 w).log
        = invoked w.log ++ List.range table_set.length ∧
      (HATableImpl.Get_loop table_set.length row_reader table_set 0 0 w).GetError row_reader
        = ((table_set.getLast hne').Get row_reader).1 := by
    intro hall
    obtain ⟨h1, h2⟩ := Get_loop_all_fail table_set.length row_reader table_set 0 0 w hall hne'
    refine ⟨by rw [h1, List.range_eq_range'], ?_⟩
    rw [h2, if_neg (by omega)]
  refine ⟨table_set, _, hts, hperm, hoff, hget, ?_, hsucc, ?_⟩
  · constructor
    · intro hok
      by_contra hnone
      have hall : ∀ t ∈ table_set, (t.Get row_reader).1.GetType ≠ ErrorCodeType.kOK := by
        intro t ht htok
        exact hnone ⟨t, hperm.mem_iff.1 ht, htok⟩
      rw [(hfail hall).2] at hok
      exact hall _ (List.getLast_mem hne') hok
    · rintro ⟨t, ht, htok⟩
      obtain ⟨pre, t', post, hsplit, hpre, ht'⟩ := exists_first
        (fun t => (t.Get row_reader).1.GetType = ErrorCodeType.kOK) table_set
        ⟨t, hperm.mem_iff.2 ht, htok⟩
      rw [(hsucc pre t' post hsplit hpre ht').2.1]
      exact ht'
  · intro hall
    have hall' : ∀ t ∈ table_set, (t.Get row_reader).1.GetType ≠ ErrorCodeType.kOK :=
      fun t ht => hall t (hperm.mem_iff.1 ht)
    obtain ⟨h1, h2⟩ := hfail hall'
    refine ⟨by rw [h1, hperm.length_eq], table_set.getLast hne', ?_, h2⟩
    exact List.getLast?_eq_getLast _ hne'

/-- Witness of C7 (three replicas, only replica 1 answers reader 11): the call returns and the
reader ends OK. -/
theorem Get_sync_first_success_witness :
    sync_readers.IsAsync 11 = false ∧
    (HATableImpl.mk [dead, knows_B, dead_too])._tables ≠ [] ∧
    (HATableImpl.mk [dead, knows_B, dead_too])._tables.length < 2 ^ 64 ∧
    ∃ w', (HATableImpl.mk [dead, knows_B, dead_too]).Get flags_default (fun _ => 0)
        sync_readers 11 = some w' ∧
      (w'.GetError 11).GetType = ErrorCodeType.kOK := by
  obtain ⟨_, w', _, _, _, h4, h5, _⟩ := Get_sync_first_success
    (HATableImpl.mk [dead, knows_B, dead_too]) flags_default (fun _ => 0) sync_readers 11 rfl
    (List.cons_ne_nil _ _) (by decide)
  exact ⟨rfl, List.cons_ne_nil _ _, by decide, w', h4,
    h5.2 ⟨knows_B, List.mem_cons_of_mem _ (List.mem_cons_self _ _), rfl⟩⟩

/-! ## Batched synchronous `Get` (C8, C9) -/

/-- C8 at its failing input: readers A = 10 and B = 11, three replicas; replica 0 answers A and
fails B, replicas 1 and 2 fail B. The failures of B are counted at position 1 and then at
position 0 of the counter list, no counter reaches 3, and B is reset after the last replica:
its error slot reads OK although every replica failed it. In scenario S7 both rows end OK. -/
theorem Get_list_counter_follows_position :
    (knows_A.Get 11).1.GetType ≠ ErrorCodeType.kOK ∧
    (dead_too.Get 11).1.GetType ≠ ErrorCodeType.kOK ∧
    ((HATableImpl.mk [knows_A, dead_too, dead_too]).Get_list flags_default (fun _ _ => 0)
      sync_readers [10, 11]).map (fun w => (w.GetError 11, w.log))
      = some (ErrorCode.ok,
          [Event.invoke 0 [10, 11], Event.reset 11, Event.invoke 1 [11], Event.reset 11,
           Event.invoke 2 [11], Event.reset 11]) ∧
    ((HATableImpl.mk [knows_A, knows_B, dead]).Get_list flags_default (fun _ _ => 0)
      sync_readers [10, 11]).map
        (fun w => ((w.GetError 10).GetType, (w.GetError 11).GetType, submitted w.log))
      = some (ErrorCodeType.kOK, ErrorCodeType.kOK, [(0, [10, 11]), (1, [11])]) := by
  decide

theorem incr_at_spec (l : List Nat) (j : Nat) (h : j < l.length) :
    incr_at l j = some (l.set j (l[j] + 1)) := by
  simp [incr_at, List.getElem?_eq_getElem h]

theorem Get_list_inspect_spec (size : Nat) (Q : Nat → Prop) (rest : List Nat) (j : Nat)
    (s : GetListState) (hb : j + rest.length ≤ s.failed_count_list.length)
    (hQ : ∀ r ∈ rest, (s.w.GetError r).GetType ≠ ErrorCodeType.kOK → Q r) :
    ∃ s' added, HATableImpl.Get_list_inspect size rest j s = some s' ∧
      s'.sync_readers = s.sync_readers ++ added ∧
      added.Sublist rest ∧ (∀ r ∈ added, Q r) ∧
      submitted s'.w.log = submitted s.w.log ∧
      s'.failed_count_list.length = s.failed_count_list.length := by
  induction rest generalizing j s with
  | nil =>
    exact ⟨s, [], by simp [HATableImpl.Get_list_inspect], by simp, List.Sublist.refl _, by simp,
      rfl, rfl⟩
  | cons r rest ih =>
    simp only [List.length_cons] at hb
    have hj : j < s.failed_count_list.length := by omega
    rw [HATableImpl.Get_list_inspect]
    by_cases he : (s.w.GetError r).GetType = ErrorCodeType.kOK
    · rw [if_neg (by simpa using he)]
      obtain ⟨s', added, h0, h1, h2, h3, h4, h5⟩ := ih (j + 1) s (by omega)
        (fun r' hr' => hQ r' (by simp [hr']))
      exact ⟨s', added, h0, h1, h2.cons r, h3, h4, h5⟩
    · rw [if_pos he]
      simp only [incr_at_spec _ _ hj, Option.bind_eq_bind, Option.some_bind,
        List.getElem?_set_self hj]
      split
      · obtain ⟨s', added, h0, h1, h2, h3, h4, h5⟩ := ih (j + 1)
          { failed_count_list := s.failed_count_list.set j (s.failed_count_list[j] + 1),
            sync_readers := s.sync_readers ++ [r],
            w := s.w.Reset r }
          (by simp only [List.length_set]; omega)
          (by
            intro r' hr' hne
            by_cases hrr : r' = r
            · subst hrr
              simp [RdWorld.Reset, ErrorCode.ok] at hne
            · apply hQ r' (by simp [hr'])
              simpa [RdWorld.Reset, Function.update_noteq hrr] using hne)
        refine ⟨s', r :: added, h0, by simpa using h1, h2.cons₂ r, ?_, ?_, ?_⟩
        · intro r' hr'
          rcases List.mem_cons.1 hr' with rfl | hr''
          · exact hQ _ (by simp) he
          · exact h3 r' hr''
        · rw [h4]
          simp [RdWorld.Reset, submitted_append, submitted]
        · simpa using h5
      · obtain ⟨s', added, h0, h1, h2, h3, h4, h5⟩ := ih (j + 1)
          { s with failed_count_list :=
              s.failed_count_list.set j (s.failed_count_list[j] + 1) }
          (by simp only [List.length_set]; omega)
          (fun r' hr' => hQ r' (by simp [hr']))
        exact ⟨s', added, h0, h1, h2.cons r, h3, h4, by simpa using h5⟩

theorem Get_list_loop_spec (size : Nat) (ts prev : List TableImpl) (s : GetListState)
    (hb : s.sync_readers.length ≤ s.failed_count_list.length) :
    ∃ (s' : GetListState) (chain : List (Nat × List Nat)),
      HATableImpl.Get_list_loop size ts prev.length s = some s' ∧
      submitted s'.w.log = submitted s.w.log ++ chain ∧
      List.Chain' (fun p q => q.1 = p.1 + 1 ∧ q.2.Sublist p.2 ∧
        ∀ t, (prev ++ ts)[p.1]? = some t →
          ∀ r ∈ q.2, (t.Get r).1.GetType ≠ ErrorCodeType.kOK) chain ∧
      (∀ p ∈ chain.head?, p = (prev.length, s.sync_readers)) ∧
      (∀ p ∈ chain, p.2 ≠ [] ∧ prev.length ≤ p.1 ∧ p.1 < prev.length + ts.length) ∧
      (∀ p ∈ chain, ∀ r ∈ p.2, r ∈ s.sync_readers ∧
        ∀ k, prev.length ≤ k → k < p.1 → ∀ t, (prev ++ ts)[k]? = some t →
          (t.Get r).1.GetType ≠ ErrorCodeType.kOK) := by
  induction ts generalizing prev s with
  | nil =>
    exact ⟨s, [], by simp [HATableImpl.Get_list_loop], by simp, by simp, by simp, by simp,
      by simp⟩
  | cons t ts ih =>
    have hlen : (prev ++ [t]).length = prev.length + 1 := by simp
    rw [HATableImpl.Get_list_loop]
    by_cases hempty : s.sync_readers.length ≤ 0
    · rw [if_pos hempty]
      obtain ⟨s', chain, h0, h1, _, h3, h4, _⟩ := ih (prev ++ [t]) s hb
      rw [hlen] at h0
      have hnil : chain = [] := by
        cases chain with
        | nil => rfl
        | cons p rest =>
          have hp := h3 p (by simp)
          have hp2 := (h4 p (by simp)).1
          rw [hp] at hp2
          simp only [ne_eq] at hp2
          exact absurd (List.length_eq_zero.1 (by omega)) hp2
      subst hnil
      exact ⟨s', [], h0, h1, by simp, by simp, by simp, by simp⟩
    · rw [if_neg hempty]
      obtain ⟨s1, added, a0, a1, a2, a3, a4, a5⟩ := Get_list_inspect_spec size
        (fun r => (t.Get r).1.GetType ≠ ErrorCodeType.kOK) s.sync_readers 0
        { s with sync_readers := [], w := s.w.call t prev.length s.sync_readers }
        (by simpa using hb)
        (by
          intro r hr hne
          simpa [RdWorld.call, hr] using hne)
      simp only [List.nil_append] at a1
      have hb1 : s1.sync_readers.length ≤ s1.failed_count_list.length := by
        rw [a1, a5]
        exact le_trans a2.length_le hb
      obtain ⟨s', chain, h0, h1, h2, h3, h4, h5⟩ := ih (prev ++ [t]) s1 hb1
      rw [hlen] at h0 h3 h4 h5
      simp only [List.append_assoc, List.singleton_append] at h2 h5
      rw [a1] at h3 h5
      have hget : (prev ++ t :: ts)[prev.length]? = some t := by
        rw [List.getElem?_append_right (le_refl _)]
        simp
      refine ⟨s', (prev.length, s.sync_readers) :: chain, ?_, ?_, ?_, by simp, ?_, ?_⟩
      · simp only [a0, Option.bind_eq_bind, Option.some_bind]
        exact h0
      · rw [h1, a4]
        simp [RdWorld.call, submitted_append, submitted]
      · rw [List.chain'_cons']
        refine ⟨?_, h2⟩
        intro y hy
        rw [h3 y hy]
        refine ⟨rfl, a2, ?_⟩
        intro t' ht' r hr
        simp only [hget, Option.some.injEq] at ht'
        subst ht'
        exact a3 r hr
      · intro p hp
        rcases List.mem_cons.1 hp with rfl | hp'
        · refine ⟨?_, le_refl _, by simp⟩
          intro h0'
          simp only at h0'
          rw [h0'] at hempty
          simp at hempty
        · obtain ⟨b1, b2, b3⟩ := h4 p hp'
          exact ⟨b1, by omega, by simp only [List.length_cons]; omega⟩
      · intro p hp r hr
        rcases List.mem_cons.1 hp with rfl | hp'
        · refine ⟨hr, ?_⟩
          intro k hk1 hk2
          simp only at hk2
          omega
        · obtain ⟨b1, b2⟩ := h5 p hp' r hr
          refine ⟨a2.subset b1, ?_⟩
          intro k hk1 hk2 t' ht'
          by_cases hk : k = prev.length
          · subst hk
            simp only [hget, Option.some.injEq] at ht'
            subst ht'
            exact a3 r b1
          · exact b2 k (by omega) hk2 t' ht'

theorem Get_async_spec (self : HATableImpl) (FLAGS : Flags) (random : Nat → Nat) (w w' : RdWorld)
    (r : Nat) (hasync : w.IsAsync r = true) (h : self.Get FLAGS random w r = some w') :
    w'.IsAsync = w.IsAsync ∧ submitted w'.log = submitted w.log := by
  unfold HATableImpl.Get at h
  cases hts : self.table_set FLAGS random with
  | none => simp [hts] at h
  | some table_set =>
    simp only [hts, Option.bind_eq_bind, Option.some_bind, hasync, if_true] at h
    split at h
    · simp only [Option.some.injEq] at h
      subst h
      simp [RdWorld.dispatch, RdWorld.SetCallChecker, submitted_append, submitted]
    · simp only [Option.some.injEq] at h
      subst h
      exact ⟨rfl, rfl⟩

theorem Get_total (self : HATableImpl) (FLAGS : Flags) (random : Nat → Nat) (w : RdWorld)
    (r : Nat) (h : FLAGS.tera_sdk_ha_get_random_mode = true → self._tables ≠ [])
    (hsize : self._tables.length < 2 ^ 64) : ∃ w', self.Get FLAGS random w r = some w' := by
  obtain ⟨table_set, hts, _, _⟩ := table_set_perm self FLAGS random h hsize
  unfold HATableImpl.Get
  simp only [hts, Option.bind_eq_bind, Option.some_bind]
  split
  · split <;> exact ⟨_, rfl⟩
  · exact ⟨_, rfl⟩

theorem Get_list_async_spec (self : HATableImpl) (FLAGS : Flags) (random : Nat → Nat → Nat)
    (rest : List Nat) (k : Nat) (w w1 : RdWorld) (hasync : ∀ r ∈ rest, w.IsAsync r = true)
    (h : HATableImpl.Get_list_async self FLAGS random rest k w = some w1) :
    w1.IsAsync = w.IsAsync ∧ submitted w1.log = submitted w.log := by
  induction rest generalizing k w with
  | nil =>
    simp only [HATableImpl.Get_list_async, Option.some.injEq] at h
    subst h
    exact ⟨rfl, rfl⟩
  | cons r rest ih =>
    rw [HATableImpl.Get_list_async] at h
    cases hg : self.Get FLAGS (random k) w r with
    | none => simp [hg] at h
    | some w2 =>
      simp only [hg, Option.bind_eq_bind, Option.some_bind] at h
      obtain ⟨g1, g2⟩ := Get_async_spec self FLAGS (random k) w w2 r (hasync r (by simp)) hg
      obtain ⟨i1, i2⟩ := ih (k + 1) w2
        (fun r' hr' => by rw [g1]; exact hasync r' (by simp [hr'])) h
      exact ⟨i1.trans g1, i2.trans g2⟩

theorem Get_list_async_total (self : HATableImpl) (FLAGS : Flags) (random : Nat → Nat → Nat)
    (rest : List Nat) (k : Nat) (w : RdWorld)
    (h : FLAGS.tera_sdk_ha_get_random_mode = true → self._tables ≠ [])
    (hsize : self._tables.length < 2 ^ 64) :
    ∃ w1, HATableImpl.Get_list_async self FLAGS random rest k w = some w1 := by
  induction rest generalizing k w with
  | nil => exact ⟨w, rfl⟩
  | cons r rest ih =>
    obtain ⟨w2, hg⟩ := Get_total self FLAGS (random k) w r h hsize
    obtain ⟨w1, h1⟩ := ih (k + 1) w2
    exact ⟨w1, by simp [HATableImpl.Get_list_async, hg, h1]⟩

/-- C9. Batched `Get`, the residual set of the synchronous readers. The call returns (in random
mode provided there is a replica to shuffle). The synchronous calls it makes, in order, form a
list `chain` of pairs (replica index, batch) in which: each entry's replica index is the
previous one plus one, its batch is a sub-list of the previous batch and holds no reader the
previous replica answered with OK; the first entry is replica 0 with all synchronous readers;
no batch is empty, so nothing is invoked once the residual is empty; and a reader in the batch
of replica `i` was answered non-OK by every replica before `i`. -/
theorem Get_list_residual (self : HATableImpl) (FLAGS : Flags) (random : Nat → Nat → Nat)
    (w : RdWorld) (row_readers : List Nat) (hsize : self._tables.length < 2 ^ 64) :
    ((FLAGS.tera_sdk_ha_get_random_mode = true → self._tables ≠ []) →
      ∃ w', self.Get_list FLAGS random w row_readers = some w') ∧
    ∀ w', self.Get_list FLAGS random w row_readers = some w' →
      ∃ (table_set : List TableImpl) (chain : List (Nat × List Nat)),
        self.table_set FLAGS (random 0) = some table_set ∧
        submitted w'.log = submitted w.log ++ chain ∧
        List.Chain' (fun p q => q.1 = p.1 + 1 ∧ q.2.Sublist p.2 ∧
          ∀ t, table_set[p.1]? = some t →
            ∀ r ∈ q.2, (t.Get r).1.GetType ≠ ErrorCodeType.kOK) chain ∧
        (∀ p ∈ chain.head?, p = (0, row_readers.filter (fun r => !w.IsAsync r))) ∧
        (∀ p ∈ chain, p.2 ≠ [] ∧ p.1 < table_set.length) ∧
        (∀ p ∈ chain, ∀ r ∈ p.2, ∀ k, k < p.1 → ∀ t, table_set[k]? = some t →
          (t.Get r).1.GetType ≠ ErrorCodeType.kOK) := by
  have hloop : ∀ (table_set : List TableImpl) (w1 : RdWorld),
      ∃ (s' : GetListState) (chain : List (Nat × List Nat)),
        HATableImpl.Get_list_loop table_set.length table_set 0
          { failed_count_list :=
              List.replicate (row_readers.filter (fun r => !w.IsAsync r)).length 0,
            sync_readers := row_readers.filter (fun r => !w.IsAsync r),
            w := w1 } = some s' ∧
        submitted s'.w.log = submitted w1.log ++ chain ∧
        List.Chain' (fun p q => q.1 = p.1 + 1 ∧ q.2.Sublist p.2 ∧
          ∀ t, table_set[p.1]? = some t →
            ∀ r ∈ q.2, (t.Get r).1.GetType ≠ ErrorCodeType.kOK) chain ∧
        (∀ p ∈ chain.head?, p = (0, row_readers.filter (fun r => !w.IsAsync r))) ∧
        (∀ p ∈ chain, p.2 ≠ [] ∧ p.1 < table_set.length) ∧
        (∀ p ∈ chain, ∀ r ∈ p.2, ∀ k, k < p.1 → ∀ t, table_set[k]? = some t →
          (t.Get r).1.GetType ≠ ErrorCodeType.kOK) := by
    intro table_set w1
    obtain ⟨s', chain, c0, c1, c2, c3, c4, c5⟩ := Get_list_loop_spec table_set.length table_set []
      { failed_count_list :=
          List.replicate (row_readers.filter (fun r => !w.IsAsync r)).length 0,
        sync_readers := row_readers.filter (fun r => !w.IsAsync r),
        w := w1 } (by simp)
    simp only [List.length_nil, List.nil_append, Nat.zero_add] at c0 c1 c2 c3 c4 c5
    exact ⟨s', chain, c0, c1, c2, c3, fun p hp => ⟨(c4 p hp).1, (c4 p hp).2.2⟩,
      fun p hp r hr k hk t ht => (c5 p hp r hr).2 k (Nat.zero_le _) hk t ht⟩
  constructor
  · intro h
    obtain ⟨table_set, hts, _, _⟩ := table_set_perm self FLAGS (random 0) h hsize
    obtain ⟨w1, h1⟩ := Get_list_async_total self FLAGS random
      (row_readers.filter (fun r => w.IsAsync r)) 1 w h hsize
    obtain ⟨s', _, c0, _⟩ := hloop table_set w1
    unfold HATableImpl.Get_list
    simp only [hts, Option.bind_eq_bind, Option.some_bind, h1]
    split
    · exact ⟨_, rfl⟩
    · exact ⟨s'.w, by simp [c0]⟩
  · intro w' hw'
    unfold HATableImpl.Get_list at hw'
    cases hts : self.table_set FLAGS (random 0) with
    | none => simp [hts] at hw'
    | some table_set =>
      cases h1 : HATableImpl.Get_list_async self FLAGS random
          (row_readers.filter (fun r => w.IsAsync r)) 1 w with
      | none => simp [hts, h1] at hw'
      | some w1 =>
        obtain ⟨_, s1⟩ := Get_list_async_spec self FLAGS random _ 1 w w1
          (fun r hr => (List.mem_filter.1 hr).2) h1
        simp only [hts, Option.bind_eq_bind, Option.some_bind, h1] at hw'
        refine ⟨table_set, ?_⟩
        split at hw'
        · simp only [Option.some.injEq] at hw'
          subst hw'
          exact ⟨[], rfl, by simp [s1], by simp, by simp, by simp, by simp⟩
        · obtain ⟨s', chain, c0, c1, c2, c3, c4, c5⟩ := hloop table_set w1
          simp only [c0, Option.some_bind, Option.some.injEq] at hw'
          subst hw'
          exact ⟨chain, rfl, by rw [c1, s1], c2, c3, c4, c5⟩

/-- Witness of C9, scenario S7 (rows A and B, three replicas): the call returns, and its
synchronous calls are those of a residual chain. -/
theorem Get_list_residual_witness :
    (HATableImpl.mk [knows_A, knows_B, dead])._tables.length < 2 ^ 64 ∧
    ∃ w' chain, (HATableImpl.mk [knows_A, knows_B, dead]).Get_list flags_default (fun _ _ => 0)
        sync_readers [10, 11] = some w' ∧
      submitted w'.log = submitted sync_readers.log ++ chain ∧
      ∀ p ∈ chain, p.2 ≠ [] := by
  have h := Get_list_residual (HATableImpl.mk [knows_A, knows_B, dead]) flags_default
    (fun _ _ => 0) sync_readers [10, 11] (by decide)
  obtain ⟨w', hw'⟩ := h.1 (fun _ => List.cons_ne_nil _ _)
  obtain ⟨_, chain, _, h2, _, _, h5, _⟩ := h.2 w' hw'
  exact ⟨by decide, w', chain, hw', h2, fun p hp => (h5 p hp).1⟩

/-! ## Batched synchronous `ApplyMutation` (C10) -/

/-- C10 at its failing input: mutations A = 10 and B = 11, two replicas; replica 0 accepts both,
replica 1 fails both. The counter that is incremented is the one of the replica, so it reaches
2 at row B, which is not reset: B ends with the error of replica 1 although replica 0 accepted
it. With two replicas that both fail A only, A is reset and ends OK although no replica
accepted it. -/
theorem ApplyMutation_list_counter_per_replica :
    (healthy.ApplyMutation 11).GetType = ErrorCodeType.kOK ∧
    ((HATableImpl.mk [healthy, dead]).ApplyMutation_list sync_mutations [10, 11]).map
      (fun w => (w.GetError 10, w.GetError 11)) = some (ErrorCode.ok, timeout) ∧
    ((HATableImpl.mk [{ ApplyMutation := fun r => if r = 10 then timeout else ErrorCode.ok },
        { ApplyMutation := fun r => if r = 10 then down else ErrorCode.ok }]).ApplyMutation_list
      sync_mutations [10, 11]).map (fun w => (w.GetError 10, w.GetError 11))
      = some (ErrorCode.ok, ErrorCode.ok) := by
  decide

/-! ## `MergeResult`: cursors and the size of the output (C11) -/

theorem getD_set_nat (l : List Nat) (i k a : Nat) :
    (l.set i a).getD k 0 = if k = i ∧ i < l.length then a else l.getD k 0 := by
  simp only [List.getD_eq_getElem?_getD, List.getElem?_set]
  by_cases hik : i = k
  · subst hik
    by_cases hl : i < l.length
    · simp [hl]
    · simp [hl, List.getElem?_eq_none (Nat.le_of_not_lt hl)]
  · have hki : ¬ k = i := fun h => hik h.symm
    simp [hik, hki]

theorem getD_le_set_succ (l : List Nat) (c k : Nat) :
    l.getD k 0 ≤ (l.set c (l.getD c 0 + 1)).getD k 0 := by
  rw [getD_set_nat]
  split
  · rename_i h
    rw [h.1]
    omega
  · exact le_refl _

theorem cells_ahead_length_mono (p p' : List Nat) (rs : List RowResult) (j : Nat)
    (h : ∀ k, p.getD k 0 ≤ p'.getD k 0) :
    (cells_ahead p' rs j).flatten.length ≤ (cells_ahead p rs j).flatten.length := by
  induction rs generalizing j with
  | nil => simp [cells_ahead]
  | cons r rs ih =>
    simp only [cells_ahead, List.flatten_cons, List.length_append, List.length_drop]
    have := h j
    have := ih (j + 1)
    omega

theorem cells_ahead_length_lt (p p' : List Nat) (rs : List RowResult) (j i : Nat)
    (r : RowResult) (h : ∀ k, p.getD k 0 ≤ p'.getD k 0) (hr : rs[i]? = some r)
    (hlt : p.getD (j + i) 0 < r.length) (hstep : p.getD (j + i) 0 + 1 ≤ p'.getD (j + i) 0) :
    (cells_ahead p' rs j).flatten.length + 1 ≤ (cells_ahead p rs j).flatten.length := by
  induction rs generalizing j i with
  | nil => simp at hr
  | cons r0 rs ih =>
    simp only [cells_ahead, List.flatten_cons, List.length_append, List.length_drop]
    cases i with
    | zero =>
      simp only [List.getElem?_cons_zero, Option.some.injEq] at hr
      subst hr
      have := cells_ahead_length_mono p p' rs (j + 1) h
      simp only [Nat.add_zero] at hlt hstep
      omega
    | succ i =>
      simp only [List.getElem?_cons_succ] at hr
      have := ih (j + 1) i hr (by rwa [Nat.add_assoc, Nat.add_comm 1 i])
        (by rwa [Nat.add_assoc, Nat.add_comm 1 i])
      have := h j
      omega

theorem cells_ahead_zero (rs : List RowResult) (n j : Nat) :
    cells_ahead (List.replicate n 0) rs j = rs := by
  induction rs generalizing j with
  | nil => rfl
  | cons r rs ih =>
    have h0 : (List.replicate n 0).getD j 0 = 0 := by
      rw [List.getD_eq_getElem?_getD]
      by_cases hj : j < n
      · simp [List.getElem?_replicate, hj]
      · simp [List.getElem?_replicate, hj]
    simp [cells_ahead, h0, ih]

theorem MergeResult_advance_spec (results : List RowResult) (timestamp_diff : Int)
    (c : Nat) (timestamp : Int) (n j : Nat) (pos : List Nat) :
    (HATableImpl.MergeResult_advance results timestamp_diff c timestamp n j pos).length
      = pos.length ∧
    (∀ k, pos.getD k 0
      ≤ (HATableImpl.MergeResult_advance results timestamp_diff c timestamp n j pos).getD k 0) ∧
    (j ≤ c → ∀ k, c ≤ k →
      (HATableImpl.MergeResult_advance results timestamp_diff c timestamp n j pos).getD k 0
        = pos.getD k 0) := by
  induction n generalizing j pos with
  | zero => simp [HATableImpl.MergeResult_advance]
  | succ n ih =>
    rw [HATableImpl.MergeResult_advance]
    by_cases hj : j = c
    · simp [hj]
    · rw [if_pos hj]
      simp only
      split
      · split
        · obtain ⟨h1, h2, h3⟩ := ih (j + 1) (pos.set j (pos.getD j 0 + 1))
          refine ⟨by rw [h1, List.length_set], ?_, ?_⟩
          · intro k
            exact le_trans (getD_le_set_succ pos j k) (h2 k)
          · intro hjc k hk
            rw [h3 (by omega) k hk, getD_set_nat, if_neg (by omega)]
        · obtain ⟨h1, h2, h3⟩ := ih (j + 1) pos
          exact ⟨h1, h2, fun hjc k hk => h3 (by omega) k hk⟩
      · obtain ⟨h1, h2, h3⟩ := ih (j + 1) pos
        exact ⟨h1, h2, fun hjc k hk => h3 (by omega) k hk⟩

theorem getD_nil_of_le (results : List RowResult) (c : Nat) (h : results.length ≤ c) :
    results.getD c [] = [] := by
  rw [List.getD_eq_getElem?_getD, List.getElem?_eq_none h]
  rfl

theorem getD_eq_of_getElem? (results : List RowResult) (c : Nat) (r : RowResult)
    (h : results[c]? = some r) : results.getD c [] = r := by
  rw [List.getD_eq_getElem?_getD, h]
  rfl

theorem MergeResult_loop_length (results : List RowResult) (timestamp_diff : Int) (n : Nat)
    (pos : List Nat) (res : RowResult) (hlen : pos.length = results.length) :
    (HATableImpl.MergeResult_loop results timestamp_diff n pos res).1.length ≤ res.length + n ∧
    (HATableImpl.MergeResult_loop results timestamp_diff n pos res).1.length
        + (cells_ahead (HATableImpl.MergeResult_loop results timestamp_diff n pos res).2
            results 0).flatten.length
      ≤ res.length + (cells_ahead pos results 0).flatten.length := by
  induction n generalizing pos res with
  | zero => simp [HATableImpl.MergeResult_loop]
  | succ n ih =>
    rw [HATableImpl.MergeResult_loop]
    split
    · simp
    · rename_i c timestamp _
      obtain ⟨a1, a2, _⟩ := MergeResult_advance_spec results timestamp_diff c timestamp
        results.length 0 pos
      have hmono := cells_ahead_length_mono pos _ results 0 a2
      simp only
      split
      · rename_i kv hkv
        have hc : c < results.length := by
          by_contra hge
          rw [getD_nil_of_le results c (by omega)] at hkv
          simp at hkv
        obtain ⟨r, hr⟩ : ∃ r, results[c]? = some r := ⟨_, List.getElem?_eq_getElem hc⟩
        rw [getD_eq_of_getElem? results c r hr] at hkv
        have hlt := (List.getElem?_eq_some.1 hkv).1
        obtain ⟨i1, i2⟩ := ih
          ((HATableImpl.MergeResult_advance results timestamp_diff c timestamp results.length 0
            pos).set c ((HATableImpl.MergeResult_advance results timestamp_diff c timestamp
              results.length 0 pos).getD c 0 + 1))
          (res ++ [kv]) (by rw [List.length_set, a1, hlen])
        have hstrict := cells_ahead_length_lt
          (HATableImpl.MergeResult_advance results timestamp_diff c timestamp results.length 0 pos)
          ((HATableImpl.MergeResult_advance results timestamp_diff c timestamp results.length 0
            pos).set c ((HATableImpl.MergeResult_advance results timestamp_diff c timestamp
              results.length 0 pos).getD c 0 + 1))
          results 0 c r (getD_le_set_succ _ c) hr (by simpa using hlt)
          (by
            rw [getD_set_nat, if_pos ⟨by omega, by rw [a1, hlen]; exact hc⟩]
            simp)
        simp only [List.length_append, List.length_singleton] at i1 i2
        constructor <;> omega
      · simp only
        constructor <;> omega

/-- C11. `MergeResult` on an empty output, for every list of per-replica results, every
threshold and every `max_size`: the output has at most `max_size` cells and at most as many
cells as the inputs have together. -/
theorem MergeResult_cardinality_cap (FLAGS : Flags) (results : List RowResult) (max_size : Nat) :
    (HATableImpl.MergeResult FLAGS results [] max_size).length ≤ max_size ∧
    (HATableImpl.MergeResult FLAGS results [] max_size).length
      ≤ (results.map List.length).sum := by
  obtain ⟨h1, h2⟩ := MergeResult_loop_length results FLAGS.tera_sdk_ha_timestamp_diff max_size
    (List.replicate results.length 0) [] (by simp)
  rw [cells_ahead_zero] at h2
  have hsum := List.length_flatten results
  simp only [List.length_nil, Nat.zero_add] at h1 h2
  exact ⟨h1, by unfold HATableImpl.MergeResult; omega⟩

/-! ## `MergeResult`: the candidate scan and the order of the output (C12) -/

theorem MergeResult_scan_spec (pos : List Nat) (rs : List RowResult) (j : Nat)
    (best : Option (Nat × Int)) (c : Nat) (T : Int)
    (h : HATableImpl.MergeResult_scan pos rs j best = some (c, T)) :
    (best = some (c, T) ∧
      ∀ i r kv, rs[i]? = some r → r[pos.getD (j + i) 0]? = some kv → kv.timestamp ≤ T) ∨
    (∃ i r kv, c = j + i ∧ rs[i]? = some r ∧ r[pos.getD (j + i) 0]? = some kv ∧
      kv.timestamp = T ∧
      (∀ b, best = some b → b.2 < T) ∧
      (∀ i' r' kv', i' < i → rs[i']? = some r' → r'[pos.getD (j + i') 0]? = some kv' →
        kv'.timestamp < T) ∧
      (∀ i' r' kv', rs[i']? = some r' → r'[pos.getD (j + i') 0]? = some kv' →
        kv'.timestamp ≤ T)) := by
  induction rs generalizing j best with
  | nil =>
    left
    simp only [HATableImpl.MergeResult_scan] at h
    exact ⟨h, by simp⟩
  | cons r rs ih =>
    have hidx : ∀ i, j + 1 + i = j + (i + 1) := fun i => by omega
    rw [HATableImpl.MergeResult_scan] at h
    cases hcell : r[pos.getD j 0]? with
    | none =>
      simp only [hcell] at h
      rcases ih (j + 1) best h with ⟨h1, h2⟩ | ⟨i, r0, kv0, h1, h2, h3, h4, h5, h6, h7⟩
      · left
        refine ⟨h1, ?_⟩
        intro i r' kv' hr' hkv'
        cases i with
        | zero =>
          simp only [List.getElem?_cons_zero, Option.some.injEq] at hr'
          subst hr'
          rw [Nat.add_zero, hcell] at hkv'
          exact absurd hkv' (by simp)
        | succ i =>
          simp only [List.getElem?_cons_succ] at hr'
          exact h2 i r' kv' hr' (by rw [hidx]; exact hkv')
      · right
        refine ⟨i + 1, r0, kv0, by omega, by simpa using h2, by rw [← hidx]; exact h3, h4, h5,
          ?_, ?_⟩
        · intro i' r' kv' hi' hr' hkv'
          cases i' with
          | zero =>
            simp only [List.getElem?_cons_zero, Option.some.injEq] at hr'
            subst hr'
            rw [Nat.add_zero, hcell] at hkv'
            exact absurd hkv' (by simp)
          | succ i' =>
            simp only [List.getElem?_cons_succ] at hr'
            exact h6 i' r' kv' (by omega) hr' (by rw [hidx]; exact hkv')
        · intro i' r' kv' hr' hkv'
          cases i' with
          | zero =>
            simp only [List.getElem?_cons_zero, Option.some.injEq] at hr'
            subst hr'
            rw [Nat.add_zero, hcell] at hkv'
            exact absurd hkv' (by simp)
          | succ i' =>
            simp only [List.getElem?_cons_succ] at hr'
            exact h7 i' r' kv' hr' (by rw [hidx]; exact hkv')
    | some kv =>
      simp only [hcell] at h
      -- what follows from the rest of the scan once `kv` has become the best cell
      have hreplace : HATableImpl.MergeResult_scan pos rs (j + 1) (some (j, kv.timestamp))
            = some (c, T) →
          (∀ b, best = some b → b.2 < kv.timestamp) →
          ∃ i r0 kv0, c = j + i ∧ (r :: rs)[i]? = some r0 ∧
            r0[pos.getD (j + i) 0]? = some kv0 ∧ kv0.timestamp = T ∧
            (∀ b, best = some b → b.2 < T) ∧
            (∀ i' r' kv', i' < i → (r :: rs)[i']? = some r' →
              r'[pos.getD (j + i') 0]? = some kv' → kv'.timestamp < T) ∧
            (∀ i' r' kv', (r :: rs)[i']? = some r' → r'[pos.getD (j + i') 0]? = some kv' →
              kv'.timestamp ≤ T) := by
        intro h' hb
        rcases ih (j + 1) _ h' with ⟨h1, h2⟩ | ⟨i, r0, kv0, h1, h2, h3, h4, h5, h6, h7⟩
        · simp only [Option.some.injEq, Prod.mk.injEq] at h1
          obtain ⟨hc, hT⟩ := h1
          refine ⟨0, r, kv, by omega, by simp, by simpa using hcell, hT, ?_, ?_, ?_⟩
          · intro b hbb
            rw [← hT]
            exact hb b hbb
          · intro i' r' kv' hi'
            omega
          · intro i' r' kv' hr' hkv'
            cases i' with
            | zero =>
              simp only [List.getElem?_cons_zero, Option.some.injEq] at hr'
              subst hr'
              simp only [Nat.add_zero, hcell, Option.some.injEq] at hkv'
              subst hkv'
              exact le_of_eq hT
            | succ i' =>
              simp only [List.getElem?_cons_succ] at hr'
              exact h2 i' r' kv' hr' (by rw [hidx]; exact hkv')
        · have hlt : kv.timestamp < T := h5 (j, kv.timestamp) rfl
          refine ⟨i + 1, r0, kv0, by omega, by simpa using h2, by rw [← hidx]; exact h3, h4, ?_,
            ?_, ?_⟩
          · intro b hbb
            exact lt_trans (hb b hbb) hlt
          · intro i' r' kv' hi' hr' hkv'
            cases i' with
            | zero =>
              simp only [List.getElem?_cons_zero, Option.some.injEq] at hr'
              subst hr'
              simp only [Nat.add_zero, hcell, Option.some.injEq] at hkv'
              subst hkv'
              exact hlt
            | succ i' =>
              simp only [List.getElem?_cons_succ] at hr'
              exact h6 i' r' kv' (by omega) hr' (by rw [hidx]; exact hkv')
          · intro i' r' kv' hr' hkv'
            cases i' with
            | zero =>
              simp only [List.getElem?_cons_zero, Option.some.injEq] at hr'
              subst hr'
              simp only [Nat.add_zero, hcell, Option.some.injEq] at hkv'
              subst hkv'
              exact le_of_lt hlt
            | succ i' =>
              simp only [List.getElem?_cons_succ] at hr'
              exact h7 i' r' kv' hr' (by rw [hidx]; exact hkv')
      cases best with
      | none =>
        simp only [if_true] at h
        exact Or.inr (hreplace h (by simp))
      | some b =>
        by_cases hgt : kv.timestamp > b.2
        · simp only [hgt, decide_True, if_true] at h
          refine Or.inr (hreplace h ?_)
          intro b' hb'
          simp only [Option.some.injEq] at hb'
          subst hb'
          exact hgt
        · simp only [hgt, decide_False, Bool.false_eq_true, if_false] at h
          have hle : kv.timestamp ≤ b.2 := by omega
          rcases ih (j + 1) _ h with ⟨h1, h2⟩ | ⟨i, r0, kv0, h1, h2, h3, h4, h5, h6, h7⟩
          · left
            refine ⟨h1, ?_⟩
            simp only [Option.some.injEq] at h1
            intro i' r' kv' hr' hkv'
            cases i' with
            | zero =>
              simp only [List.getElem?_cons_zero, Option.some.injEq] at hr'
              subst hr'
              simp only [Nat.add_zero, hcell, Option.some.injEq] at hkv'
              subst hkv'
              rw [h1] at hle
              exact hle
            | succ i' =>
              simp only [List.getElem?_cons_succ] at hr'
              exact h2 i' r' kv' hr' (by rw [hidx]; exact hkv')
          · have hlt : kv.timestamp < T := lt_of_le_of_lt hle (h5 b rfl)
            right
            refine ⟨i + 1, r0, kv0, by omega, by simpa using h2, by rw [← hidx]; exact h3, h4,
              h5, ?_, ?_⟩
            · intro i' r' kv' hi' hr' hkv'
              cases i' with
              | zero =>
                simp only [List.getElem?_cons_zero, Option.some.injEq] at hr'
                subst hr'
                simp only [Nat.add_zero, hcell, Option.some.injEq] at hkv'
                subst hkv'
                exact hlt
              | succ i' =>
                simp only [List.getElem?_cons_succ] at hr'
                exact h6 i' r' kv' (by omega) hr' (by rw [hidx]; exact hkv')
            · intro i' r' kv' hr' hkv'
              cases i' with
              | zero =>
                simp only [List.getElem?_cons_zero, Option.some.injEq] at hr'
                subst hr'
                simp only [Nat.add_zero, hcell, Option.some.injEq] at hkv'
                subst hkv'
                exact le_of_lt hlt
              | succ i' =>
                simp only [List.getElem?_cons_succ] at hr'
                exact h7 i' r' kv' hr' (by rw [hidx]; exact hkv')

theorem MergeResult_scan_top (pos : List Nat) (results : List RowResult) (c : Nat) (T : Int)
    (h : HATableImpl.MergeResult_scan pos results 0 none = some (c, T)) :
    ∃ r kv, results[c]? = some r ∧ r[pos.getD c 0]? = some kv ∧ kv.timestamp = T ∧
      (∀ j r' kv', j < c → results[j]? = some r' → r'[pos.getD j 0]? = some kv' →
        kv'.timestamp < T) ∧
      (∀ j r' kv', results[j]? = some r' → r'[pos.getD j 0]? = some kv' →
        kv'.timestamp ≤ T) := by
  rcases MergeResult_scan_spec pos results 0 none c T h with ⟨h1, _⟩ |
    ⟨i, r, kv, h1, h2, h3, h4, _, h6, h7⟩
  · simp at h1
  · simp only [Nat.zero_add] at h1 h3 h6 h7
    subst h1
    exact ⟨r, kv, h2, h3, h4, h6, h7⟩

theorem sorted_getElem_le (r : RowResult)
    (hs : (r.map KeyValuePair.timestamp).Sorted (· ≥ ·)) (p k : Nat) (a b : KeyValuePair)
    (ha : r[p]? = some a) (hb : r[k]? = some b) (hpk : p ≤ k) : b.timestamp ≤ a.timestamp := by
  obtain ⟨hp, rfl⟩ := List.getElem?_eq_some.1 ha
  obtain ⟨hk, rfl⟩ := List.getElem?_eq_some.1 hb
  rcases Nat.eq_or_lt_of_le hpk with rfl | hlt
  · exact le_refl _
  · have hs' : r.Pairwise (fun x y => x.timestamp ≥ y.timestamp) := List.pairwise_map.1 hs
    exact List.pairwise_iff_getElem.1 hs' p k hp hk hlt

theorem MergeResult_loop_sorted (results : List RowResult) (timestamp_diff : Int)
    (hs : ∀ r ∈ results, (r.map KeyValuePair.timestamp).Sorted (· ≥ ·))
    (n : Nat) (pos : List Nat) (res : RowResult) :
    ∃ app, (HATableImpl.MergeResult_loop results timestamp_diff n pos res).1 = res ++ app ∧
      app.Pairwise (fun x y => x.timestamp ≥ y.timestamp) ∧
      ∀ B : Int,
        (∀ j r k kv, results[j]? = some r → pos.getD j 0 ≤ k → r[k]? = some kv →
          kv.timestamp ≤ B) →
        ∀ kv ∈ app, kv.timestamp ≤ B := by
  induction n generalizing pos res with
  | zero => exact ⟨[], by simp [HATableImpl.MergeResult_loop], List.Pairwise.nil, by simp⟩
  | succ n ih =>
    rw [HATableImpl.MergeResult_loop]
    cases hscan : HATableImpl.MergeResult_scan pos results 0 none with
    | none => exact ⟨[], by simp, List.Pairwise.nil, by simp⟩
    | some ct =>
      obtain ⟨c, T⟩ := ct
      obtain ⟨r, kv, hr, hkv, hT, _, hmax⟩ := MergeResult_scan_top pos results c T hscan
      obtain ⟨a1, a2, a3⟩ := MergeResult_advance_spec results timestamp_diff c T
        results.length 0 pos
      have hc : (HATableImpl.MergeResult_advance results timestamp_diff c T results.length 0
          pos).getD c 0 = pos.getD c 0 := a3 (Nat.zero_le _) c (le_refl _)
      simp only [getD_eq_of_getElem? results c r hr, hc, hkv]
      obtain ⟨app, i1, i2, i3⟩ := ih
        ((HATableImpl.MergeResult_advance results timestamp_diff c T results.length 0 pos).set c
          (pos.getD c 0 + 1)) (res ++ [kv])
      have hpos2 : ∀ k, pos.getD k 0 ≤
          ((HATableImpl.MergeResult_advance results timestamp_diff c T results.length 0 pos).set c
            (pos.getD c 0 + 1)).getD k 0 := by
        intro k
        rw [getD_set_nat]
        split
        · rename_i hk
          rw [hk.1]
          omega
        · exact a2 k
      refine ⟨kv :: app, by rw [i1]; simp, ?_, ?_⟩
      · refine List.Pairwise.cons ?_ i2
        intro x hx
        rw [hT]
        apply i3 T _ x hx
        intro j r' k kv' hr' hk hkv'
        have hk' : pos.getD j 0 ≤ k := le_trans (hpos2 j) hk
        have hlen : k < r'.length := (List.getElem?_eq_some.1 hkv').1
        obtain ⟨kvj, hkvj⟩ : ∃ kvj, r'[pos.getD j 0]? = some kvj :=
          ⟨_, List.getElem?_eq_getElem (lt_of_le_of_lt hk' hlen)⟩
        exact le_trans
          (sorted_getElem_le r' (hs r' (List.mem_iff_getElem?.2 ⟨_, hr'⟩)) _ k kvj kv' hkvj hkv' hk')
          (hmax j r' kvj hr' hkvj)
      · intro B hB x hx
        rcases List.mem_cons.1 hx with rfl | hx'
        · exact hB c r (pos.getD c 0) x hr (le_refl _) hkv
        · apply i3 B _ x hx'
          intro j r' k kv' hr' hk hkv'
          exact hB j r' k kv' hr' (le_trans (hpos2 j) hk) hkv'

/-- C12. `MergeResult` on inputs whose cells are each in non-increasing timestamp order, for
every threshold (so for every Δ ≥ 0) and every `max_size`: the timestamps of the emitted cells
are non-increasing. -/
theorem MergeResult_monotonic_timestamps (FLAGS : Flags) (results : List RowResult)
    (max_size : Nat)
    (hs : ∀ r ∈ results, (r.map KeyValuePair.timestamp).Sorted (· ≥ ·)) :
    ((HATableImpl.MergeResult FLAGS results [] max_size).map KeyValuePair.timestamp).Sorted
      (· ≥ ·) := by
  obtain ⟨app, h1, h2, _⟩ := MergeResult_loop_sorted results FLAGS.tera_sdk_ha_timestamp_diff hs
    max_size (List.replicate results.length 0) []
  unfold HATableImpl.MergeResult
  rw [h1]
  exact List.pairwise_map.2 (by simpa using h2)

/-- Witness of C12 (scenario S4: A = [100], B = [99, 50], window 5, three versions): both inputs
are newest-first and the emitted timestamps are non-increasing. -/
theorem MergeResult_monotonic_timestamps_witness :
    (∀ r ∈ [result_A, result_B], (r.map KeyValuePair.timestamp).Sorted (· ≥ ·)) ∧
    ((HATableImpl.MergeResult flags_default [result_A, result_B] [] 3).map
      KeyValuePair.timestamp).Sorted (· ≥ ·) :=
  ⟨by decide, MergeResult_monotonic_timestamps flags_default [result_A, result_B] 3 (by decide)⟩

/-! ## `MergeResult` with an empty window is a k-way merge (C14) -/

/-- C13 at its failing input, scenario S4: A = [100], B = [99, 50] in that order,
`max_versions = 3`, Δ = 5. The loop that advances the other cursors has `j != candidate_index`
in its condition, so it ends when it reaches the chosen replica and never looks at a replica
above it: with A chosen at index 0 the cursor of B stays where it is and the cell with timestamp
99 is emitted. With the two inputs swapped B lies below the chosen replica and the cell is
collapsed. -/
theorem MergeResult_window_stops_at_candidate :
    HATableImpl.MergeResult_advance [result_A, result_B] 5 0 100 2 0 [0, 0] = [0, 0] ∧
    HATableImpl.MergeResult flags_default [result_A, result_B] [] 3
      = [cell 100 "new", cell 99 "old", cell 50 "older"] ∧
    HATableImpl.MergeResult_advance [result_B, result_A] 5 1 100 2 0 [0, 0] = [1, 0] ∧
    HATableImpl.MergeResult flags_default [result_B, result_A] [] 3
      = [cell 100 "new", cell 50 "older"] := by
  decide

/-- C15 at its failing input: two replicas whose only cell has timestamp 100, Δ = 5. The cell of
replica 0 is emitted first (lowest index among the tied ones), but the cursor of replica 1 is not
advanced in that step, because the advancing loop ends at the chosen replica; the tied cell of
replica 1 is emitted in the next step. -/
theorem MergeResult_tie_not_coalesced :
    HATableImpl.MergeResult_scan [0, 0] [[cell 100 "a"], [cell 100 "b"]] 0 none
      = some (0, 100) ∧
    HATableImpl.MergeResult_advance [[cell 100 "a"], [cell 100 "b"]] 5 0 100 2 0 [0, 0]
      = [0, 0] ∧
    HATableImpl.MergeResult flags_default [[cell 100 "a"], [cell 100 "b"]] [] 3
      = [cell 100 "a", cell 100 "b"] := by
  decide

/-! ## Synchronous `LGet` (C16) -/

theorem LGet_loop_log (size row : Nat) (ts : List TableImpl) (i fc : Nat)
    (results : List RowResult) (w : RdWorld) :
    invoked (HATableImpl.LGet_loop size row ts i fc results w).2.log
      = invoked w.log ++ List.range' i ts.length := by
  induction ts generalizing i fc results w with
  | nil => simp [HATableImpl.LGet_loop]
  | cons t ts ih =>
    rw [HATableImpl.LGet_loop]
    simp only
    split
    · rw [ih, List.length_cons, List.range'_succ]
      split <;> simp [RdWorld.call, RdWorld.Reset, invoked_append, invoked]
    · rw [ih, List.length_cons, List.range'_succ]
      simp [RdWorld.call, RdWorld.Reset, invoked_append, invoked]

theorem LGet_loop_error (size row : Nat) (ts : List TableImpl) (i fc : Nat)
    (results : List RowResult) (w : RdWorld) (h : ts ≠ []) :
    (HATableImpl.LGet_loop size row ts i fc results w).2.GetError row
      = if ((ts.getLast h).Get row).1.GetType = ErrorCodeType.kOK ∨
          fc + ts.countP (fun t => (t.Get row).1.GetType != ErrorCodeType.kOK) < size
        then ErrorCode.ok else ((ts.getLast h).Get row).1 := by
  induction ts generalizing i fc results w with
  | nil => exact absurd rfl h
  | cons t ts ih =>
    cases ts with
    | nil =>
      simp only [HATableImpl.LGet_loop, rd_call_GetError_self, List.getLast_singleton,
        List.countP_cons, List.countP_nil, Nat.zero_add]
      by_cases hf : (t.Get row).1.GetType = ErrorCodeType.kOK
      · simp [hf, RdWorld.Reset]
      · have hb : ((t.Get row).1.GetType != ErrorCodeType.kOK) = true := by simpa using hf
        simp only [hf, ne_eq, not_false_eq_true, if_true, hb, false_or]
        split
        · simp [RdWorld.Reset]
        · simp [RdWorld.call]
    | cons u us =>
      rw [HATableImpl.LGet_loop, List.getLast_cons (by simp)]
      simp only [rd_call_GetError_self]
      rw [List.countP_cons _ t (u :: us)]
      by_cases hf : (t.Get row).1.GetType = ErrorCodeType.kOK
      · simp only [hf, ne_eq, not_true_eq_false, if_false, bne_self_eq_false,
          Bool.false_eq_true, Nat.add_zero]
        exact ih _ _ _ _ (by simp)
      · have hb : ((t.Get row).1.GetType != ErrorCodeType.kOK) = true := by simpa using hf
        simp only [hf, ne_eq, not_false_eq_true, if_true, hb]
        rw [ih _ _ _ _ (by simp)]
        have e : fc + 1 + List.countP (fun t => (t.Get row).1.GetType != ErrorCodeType.kOK)
            (u :: us) = fc + (List.countP (fun t => (t.Get row).1.GetType != ErrorCodeType.kOK)
            (u :: us) + 1) := by omega
        rw [e]

/-- C16. Synchronous `LGet` on a non-empty replica list: every replica is queried exactly once,
in order, whatever the earlier outcomes; on return the error slot of the reader is OK exactly
when some replica reported OK (so a failed replica does not make the call fail when another
one succeeded); when every replica failed the slot holds the error of the last one. -/
theorem LGet_sync_at_least_one (self : HATableImpl) (FLAGS : Flags) (w : RdWorld)
    (row_reader : Nat) (hsync : w.IsAsync row_reader = false) (h : self._tables ≠ []) :
    invoked (self.LGet FLAGS w row_reader).log
      = invoked w.log ++ List.range self._tables.length ∧
    (((self.LGet FLAGS w row_reader).GetError row_reader).GetType = ErrorCodeType.kOK ↔
      ∃ t ∈ self._tables, (t.Get row_reader).1.GetType = ErrorCodeType.kOK) ∧
    ((∀ t ∈ self._tables, (t.Get row_reader).1.GetType ≠ ErrorCodeType.kOK) →
      (self.LGet FLAGS w row_reader).GetError row_reader
        = ((self._tables.getLast h).Get row_reader).1) := by
  have herr := LGet_loop_error self._tables.length row_reader self._tables 0 0 [] w h
  have hlog := LGet_loop_log self._tables.length row_reader self._tables 0 0 [] w
  have hiff := countP_lt_length_iff
    (fun t => (t.Get row_reader).1.GetType != ErrorCodeType.kOK) self._tables
  simp only [Nat.zero_add] at herr
  have hE : (self.LGet FLAGS w row_reader).GetError row_reader
      = (HATableImpl.LGet_loop self._tables.length row_reader self._tables 0 0 [] w).2.GetError
          row_reader := by
    simp only [HATableImpl.LGet, hsync, Bool.false_eq_true, if_false]
    split <;> simp [RdWorld.SetResult]
  have hL : (self.LGet FLAGS w row_reader).log
      = (HATableImpl.LGet_loop self._tables.length row_reader self._tables 0 0 [] w).2.log := by
    simp only [HATableImpl.LGet, hsync, Bool.false_eq_true, if_false]
    split <;> simp [RdWorld.SetResult]
  rw [hE, hL]
  refine ⟨by simpa [List.range_eq_range'] using hlog, ?_, ?_⟩
  · rw [herr]
    split
    · rename_i hc
      refine ⟨fun _ => ?_, fun _ => rfl⟩
      rcases hc with hc | hc
      · exact ⟨_, List.getLast_mem h, hc⟩
      · obtain ⟨a, ha, hpa⟩ := hiff.1 hc
        exact ⟨a, ha, by simpa using hpa⟩
    · rename_i hc
      push_neg at hc
      constructor
      · intro hok
        exact absurd hok hc.1
      · rintro ⟨a, ha, hpa⟩
        have := hiff.2 ⟨a, ha, by simpa using hpa⟩
        omega
  · intro hall
    rw [herr, if_neg]
    rintro (hc | hc)
    · exact hall _ (List.getLast_mem h) hc
    · obtain ⟨a, ha, hpa⟩ := hiff.1 hc
      exact hall a ha (by simpa using hpa)

/-- Witness of C16 (three replicas, only replica 1 answers reader 11): all three replicas are
queried and the reader ends OK. -/
theorem LGet_sync_at_least_one_witness :
    sync_readers.IsAsync 11 = false ∧
    (HATableImpl.mk [dead, knows_B, dead_too])._tables ≠ [] ∧
    invoked ((HATableImpl.mk [dead, knows_B, dead_too]).LGet flags_default sync_readers 11).log
      = [0, 1, 2] ∧
    (((HATableImpl.mk [dead, knows_B, dead_too]).LGet flags_default sync_readers 11).GetError
      11).GetType = ErrorCodeType.kOK :=
  ⟨rfl, List.cons_ne_nil _ _,
    (LGet_sync_at_least_one (HATableImpl.mk [dead, knows_B, dead_too]) flags_default
      sync_readers 11 rfl (List.cons_ne_nil _ _)).1,
    (LGet_sync_at_least_one (HATableImpl.mk [dead, knows_B, dead_too]) flags_default
      sync_readers 11 rfl (List.cons_ne_nil _ _)).2.1.2
      ⟨knows_B, List.mem_cons_of_mem _ (List.mem_cons_self _ _), rfl⟩⟩

/-! ## Asynchronous `LGet` (C17) -/

/-- C17 at its failing input: asynchronous `LGet` over two replicas; the first completes with OK
and one cell, the second fails with "timeout". `NeedCall` returns true at the second completion,
the results are merged into the reader, and the error slot still holds "timeout": nothing
resets it. -/
theorem async_LGet_keeps_last_failure :
    (feed (LGetCallbackChecker.complete flags_default)
      (LGetCallbackChecker.new [healthy, dead] 11, async_readers)
      [Completion.of ErrorCode.ok result_A, Completion.of timeout []]).1 = [false, true] ∧
    (feed (LGetCallbackChecker.complete flags_default)
      (LGetCallbackChecker.new [healthy, dead] 11, async_readers)
      [Completion.of ErrorCode.ok result_A, Completion.of timeout []]).2.2.GetError 11
      = timeout ∧
    (feed (LGetCallbackChecker.complete flags_default)
      (LGetCallbackChecker.new [healthy, dead] 11, async_readers)
      [Completion.of ErrorCode.ok result_A, Completion.of timeout []]).2.2.GetResult 11
      = result_A := by
  decide

/-! ## DDL fan-out (C18, C19) -/

theorem ddl_loop_fail_fast (FLAGS : Flags) (op : ClientImpl → Bool × ErrorCode)
    (hon : FLAGS.tera_sdk_ha_ddl_enable = true) (pre : List ClientImpl) (c : ClientImpl)
    (post : List ClientImpl) (i : Nat) (s : DdlState)
    (hpre : ∀ u ∈ pre, (op u).1 = true) (hc : (op c).1 = false) :
    (HAClientImpl.ddl_loop FLAGS op (pre ++ c :: post) i s).fail_fast = true ∧
    (HAClientImpl.ddl_loop FLAGS op (pre ++ c :: post) i s).err = (op c).2 ∧
    invoked (HAClientImpl.ddl_loop FLAGS op (pre ++ c :: post) i s).log
      = invoked s.log ++ List.range' i (pre.length + 1) := by
  induction pre generalizing i s with
  | nil =>
    simp [HAClientImpl.ddl_loop, hc, hon, invoked_append, invoked]
  | cons u pre ih =>
    have hu : (op u).1 = true := hpre u (by simp)
    rw [List.cons_append, HAClientImpl.ddl_loop]
    simp only [hu, Bool.not_true, Bool.false_eq_true, if_false]
    obtain ⟨h1, h2, h3⟩ := ih (i + 1)
      { s with err := (op u).2, log := s.log ++ [Event.invoke i []] }
      (fun v hv => hpre v (by simp [hv]))
    refine ⟨h1, h2, ?_⟩
    rw [h3, List.length_cons, List.range'_succ i]
    simp [invoked_append, invoked]

theorem ddl_loop_best_effort (FLAGS : Flags) (op : ClientImpl → Bool × ErrorCode)
    (hoff : FLAGS.tera_sdk_ha_ddl_enable = false) (cs : List ClientImpl) (i : Nat)
    (s : DdlState) :
    (HAClientImpl.ddl_loop FLAGS op cs i s).fail_fast = s.fail_fast ∧
    (HAClientImpl.ddl_loop FLAGS op cs i s).failed_count
      = s.failed_count + cs.countP (fun c => !(op c).1) ∧
    invoked (HAClientImpl.ddl_loop FLAGS op cs i s).log
      = invoked s.log ++ List.range' i cs.length ∧
    (∀ h : cs ≠ [], (HAClientImpl.ddl_loop FLAGS op cs i s).err = (op (cs.getLast h)).2) := by
  induction cs generalizing i s with
  | nil => simp [HAClientImpl.ddl_loop]
  | cons u cs ih =>
    rw [HAClientImpl.ddl_loop]
    have hlast : ∀ (s' : DdlState), s'.err = (op u).2 →
        (∀ h : cs ≠ [], (HAClientImpl.ddl_loop FLAGS op cs (i + 1) s').err
          = (op (cs.getLast h)).2) →
        ∀ h : u :: cs ≠ [], (HAClientImpl.ddl_loop FLAGS op cs (i + 1) s').err
          = (op ((u :: cs).getLast h)).2 := by
      intro s' hs' hrec _
      cases cs with
      | nil => simpa [HAClientImpl.ddl_loop] using hs'
      | cons v vs =>
        rw [List.getLast_cons (by simp)]
        exact hrec (by simp)
    cases hu : (op u).1 with
    | true =>
      simp only [Bool.not_true, Bool.false_eq_true, if_false]
      obtain ⟨h1, h2, h3, h4⟩ := ih (i + 1)
        { s with err := (op u).2, log := s.log ++ [Event.invoke i []] }
      refine ⟨h1, ?_, ?_, hlast _ rfl h4⟩
      · rw [h2, List.countP_cons]
        simp [hu]
      · rw [h3, List.length_cons, List.range'_succ i]
        simp [invoked_append, invoked]
    | false =>
      simp only [Bool.not_false, if_true, hoff, Bool.false_eq_true, if_false]
      obtain ⟨h1, h2, h3, h4⟩ := ih (i + 1)
        { failed_count := s.failed_count + 1, fail_fast := s.fail_fast, err := (op u).2,
          log := s.log ++ [Event.invoke i []] }
      refine ⟨h1, ?_, ?_, hlast _ rfl h4⟩
      · rw [h2, List.countP_cons]
        simp [hu]
        omega
      · rw [h3, List.length_cons, List.range'_succ i]
        simp [invoked_append, invoked]

theorem ddl_fail_fast_spec (self : HAClientImpl) (FLAGS : Flags)
    (op : ClientImpl → Bool × ErrorCode) (err : ErrorCode)
    (hon : FLAGS.tera_sdk_ha_ddl_enable = true) (pre : List ClientImpl) (c : ClientImpl)
    (post : List ClientImpl) (hsplit : self._clients = pre ++ c :: post)
    (hpre : ∀ u ∈ pre, (op u).1 = true) (hc : (op c).1 = false) :
    (self.ddl FLAGS op err).ok = false ∧
    invoked (self.ddl FLAGS op err).log = List.range (pre.length + 1) ∧
    (self.ddl FLAGS op err).err = (op c).2 := by
  obtain ⟨h1, h2, h3⟩ := ddl_loop_fail_fast FLAGS op hon pre c post 0 ⟨0, false, err, []⟩ hpre hc
  unfold HAClientImpl.ddl
  rw [hsplit]
  simp only [h1, if_true]
  exact ⟨trivial, by simpa [invoked, List.range_eq_range'] using h3, h2⟩

theorem ddl_best_effort_spec (self : HAClientImpl) (FLAGS : Flags)
    (op : ClientImpl → Bool × ErrorCode) (err : ErrorCode)
    (hoff : FLAGS.tera_sdk_ha_ddl_enable = false) (h : self._clients ≠ []) :
    invoked (self.ddl FLAGS op err).log = List.range self._clients.length ∧
    ((self.ddl FLAGS op err).ok = true ↔ ∃ c ∈ self._clients, (op c).1 = true) ∧
    ((self.ddl FLAGS op err).ok = true →
      (self.ddl FLAGS op err).err = ⟨ErrorCodeType.kOK, "success"⟩) ∧
    ((self.ddl FLAGS op err).ok = false →
      (self.ddl FLAGS op err).err = (op (self._clients.getLast h)).2) := by
  obtain ⟨h1, h2, h3, h4⟩ := ddl_loop_best_effort FLAGS op hoff self._clients 0
    ⟨0, false, err, []⟩
  have hiff := countP_lt_length_iff (fun c => !(op c).1) self._clients
  simp only [Nat.zero_add] at h2
  unfold HAClientImpl.ddl
  simp only [h1, Bool.false_eq_true, if_false, h2, ge_iff_le]
  by_cases hc : self._clients.length ≤ List.countP (fun c => !(op c).1) self._clients
  · simp only [hc, if_true]
    refine ⟨by simpa [invoked, List.range_eq_range'] using h3, ?_, by simp, fun _ => h4 h⟩
    simp only [Bool.false_eq_true, false_iff]
    intro hex
    have := hiff.2 (by simpa using hex)
    omega
  · simp only [hc, if_false]
    refine ⟨by simpa [invoked, List.range_eq_range'] using h3, ?_, fun _ => rfl, by simp⟩
    simp only [true_iff]
    simpa using hiff.1 (by omega)

/-- C18. A mutating DDL operation (`CreateTable`, both overloads, `UpdateTable`, `DeleteTable`,
`DisableTable`, `EnableTable`, `CreateUser`, `DeleteUser`, `ChangePwd`, `AddUserToGroup`,
`DeleteUserFromGroup`, `DelSnapshot`, `Rollback`, `Rename`) with fail-fast enabled: if the
replica behind `pre` is the first to fail, the call returns false, the replicas invoked are
those up to and including it and none after it, and the error is the one that replica wrote. -/
theorem ddl_fail_fast (self : HAClientImpl) (FLAGS : Flags) (err : ErrorCode)
    (op : ClientImpl → Bool × ErrorCode) (run : HAClientImpl → Flags → ErrorCode → WriteResult)
    (hrun : (op, run) ∈ [(ClientImpl.CreateTable, HAClientImpl.CreateTable),
      (ClientImpl.CreateTable_delim, HAClientImpl.CreateTable_delim),
      (ClientImpl.UpdateTable, HAClientImpl.UpdateTable),
      (ClientImpl.DeleteTable, HAClientImpl.DeleteTable),
      (ClientImpl.DisableTable, HAClientImpl.DisableTable),
      (ClientImpl.EnableTable, HAClientImpl.EnableTable),
      (ClientImpl.CreateUser, HAClientImpl.CreateUser),
      (ClientImpl.DeleteUser, HAClientImpl.DeleteUser),
      (ClientImpl.ChangePwd, HAClientImpl.ChangePwd),
      (ClientImpl.AddUserToGroup, HAClientImpl.AddUserToGroup),
      (ClientImpl.DeleteUserFromGroup, HAClientImpl.DeleteUserFromGroup),
      (ClientImpl.DelSnapshot, HAClientImpl.DelSnapshot),
      (ClientImpl.Rollback, HAClientImpl.Rollback),
      (ClientImpl.Rename, HAClientImpl.Rename)])
    (hon : FLAGS.tera_sdk_ha_ddl_enable = true) (pre : List ClientImpl) (c : ClientImpl)
    (post : List ClientImpl) (hsplit : self._clients = pre ++ c :: post)
    (hpre : ∀ u ∈ pre, (op u).1 = true) (hc : (op c).1 = false) :
    (run self FLAGS err).ok = false ∧
    invoked (run self FLAGS err).log = List.range (pre.length + 1) ∧
    (run self FLAGS err).err = (op c).2 := by
  simp only [List.mem_cons, Prod.mk.injEq, List.mem_singleton, List.not_mem_nil, or_false]
    at hrun
  casesm* _ ∨ _ <;>
    (rename_i hcase; obtain ⟨rfl, rfl⟩ := hcase
     exact ddl_fail_fast_spec self FLAGS _ err hon pre c post hsplit hpre hc)

/-- Witness of C18, scenario S6: three replicas, `CreateTable` fails on replica 1 with fail-fast
enabled; the result is false, replicas 0 and 1 were invoked and replica 2 was not. -/
theorem ddl_fail_fast_witness :
    flags_default.tera_sdk_ha_ddl_enable = true ∧
    ((HAClientImpl.mk [willing, refusing, willing]).CreateTable flags_default down).ok = false ∧
    invoked ((HAClientImpl.mk [willing, refusing, willing]).CreateTable flags_default down).log
      = [0, 1] ∧
    ((HAClientImpl.mk [willing, refusing, willing]).CreateTable flags_default down).err
      = timeout := by
  have h := ddl_fail_fast (HAClientImpl.mk [willing, refusing, willing]) flags_default down
    ClientImpl.CreateTable HAClientImpl.CreateTable (List.mem_cons_self _ _) rfl
    [willing] refusing [willing] rfl (by simp [willing]) rfl
  exact ⟨rfl, h.1, h.2.1, h.2.2⟩

/-- C19. A mutating DDL operation with fail-fast disabled on a non-empty replica list: every
replica is invoked exactly once, in order; the call returns true exactly when some replica
reported OK; on true the error is `kOK` / "success"; on false the error is the last
replica's. -/
theorem ddl_best_effort (self : HAClientImpl) (FLAGS : Flags) (err : ErrorCode)
    (op : ClientImpl → Bool × ErrorCode) (run : HAClientImpl → Flags → ErrorCode → WriteResult)
    (hrun : (op, run) ∈ [(ClientImpl.CreateTable, HAClientImpl.CreateTable),
      (ClientImpl.CreateTable_delim, HAClientImpl.CreateTable_delim),
      (ClientImpl.UpdateTable, HAClientImpl.UpdateTable),
      (ClientImpl.DeleteTable, HAClientImpl.DeleteTable),
      (ClientImpl.DisableTable, HAClientImpl.DisableTable),
      (ClientImpl.EnableTable, HAClientImpl.EnableTable),
      (ClientImpl.CreateUser, HAClientImpl.CreateUser),
      (ClientImpl.DeleteUser, HAClientImpl.DeleteUser),
      (ClientImpl.ChangePwd, HAClientImpl.ChangePwd),
      (ClientImpl.AddUserToGroup, HAClientImpl.AddUserToGroup),
      (ClientImpl.DeleteUserFromGroup, HAClientImpl.DeleteUserFromGroup),
      (ClientImpl.DelSnapshot, HAClientImpl.DelSnapshot),
      (ClientImpl.Rollback, HAClientImpl.Rollback),
      (ClientImpl.Rename, HAClientImpl.Rename)])
    (hoff : FLAGS.tera_sdk_ha_ddl_enable = false) (h : self._clients ≠ []) :
    invoked (run self FLAGS err).log = List.range self._clients.length ∧
    ((run self FLAGS err).ok = true ↔ ∃ c ∈ self._clients, (op c).1 = true) ∧
    ((run self FLAGS err).ok = true →
      (run self FLAGS err).err = ⟨ErrorCodeType.kOK, "success"⟩) ∧
    ((run self FLAGS err).ok = false →
      (run self FLAGS err).err = (op (self._clients.getLast h)).2) := by
  simp only [List.mem_cons, Prod.mk.injEq, List.mem_singleton, List.not_mem_nil, or_false]
    at hrun
  casesm* _ ∨ _ <;>
    (rename_i hcase; obtain ⟨rfl, rfl⟩ := hcase
     exact ddl_best_effort_spec self FLAGS _ err hoff h)

/-- Witness of C19: three replicas, `CreateTable` fails on replica 1 with fail-fast disabled;
all three replicas are invoked and the result is true with `kOK` / "success". -/
theorem ddl_best_effort_witness :
    flags_best_effort.tera_sdk_ha_ddl_enable = false ∧
    (HAClientImpl.mk [willing, refusing, willing])._clients ≠ [] ∧
    invoked ((HAClientImpl.mk [willing, refusing, willing]).CreateTable flags_best_effort
      down).log = [0, 1, 2] ∧
    ((HAClientImpl.mk [willing, refusing, willing]).CreateTable flags_best_effort down).ok
      = true ∧
    ((HAClientImpl.mk [willing, refusing, willing]).CreateTable flags_best_effort down).err
      = ⟨ErrorCodeType.kOK, "success"⟩ := by
  have h := ddl_best_effort (HAClientImpl.mk [willing, refusing, willing]) flags_best_effort down
    ClientImpl.CreateTable HAClientImpl.CreateTable (List.mem_cons_self _ _) rfl
    (List.cons_ne_nil _ _)
  have hok := h.2.1.2 ⟨willing, List.mem_cons_self _ _, rfl⟩
  exact ⟨rfl, List.cons_ne_nil _ _, h.1, hok, h.2.2.1 hok⟩

/-! ## Read and admin operations of the client (C20) -/

theorem read_loop_first_success (op : ClientImpl → Bool × ErrorCode) (pre : List ClientImpl)
    (c : ClientImpl) (post : List ClientImpl) (i : Nat) (s : WriteState)
    (hpre : ∀ u ∈ pre, (op u).1 = false) (hc : (op c).1 = true) :
    (HAClientImpl.read_loop op (pre ++ c :: post) i s).failed_count
      = s.failed_count + pre.length ∧
    (HAClientImpl.read_loop op (pre ++ c :: post) i s).err = (op c).2 ∧
    invoked (HAClientImpl.read_loop op (pre ++ c :: post) i s).log
      = invoked s.log ++ List.range' i (pre.length + 1) := by
  induction pre generalizing i s with
  | nil => simp [HAClientImpl.read_loop, hc, invoked_append, invoked]
  | cons u pre ih =>
    have hu : (op u).1 = false := hpre u (by simp)
    rw [List.cons_append, HAClientImpl.read_loop]
    simp only [hu, Bool.not_false, if_true]
    obtain ⟨h1, h2, h3⟩ := ih (i + 1)
      { failed_count := s.failed_count + 1, err := (op u).2,
        log := s.log ++ [Event.invoke i []] }
      (fun v hv => hpre v (by simp [hv]))
    refine ⟨?_, h2, ?_⟩
    · rw [h1, List.length_cons]
      simp only
      omega
    · rw [h3, List.length_cons, List.range'_succ i]
      simp [invoked_append, invoked]

theorem read_loop_all_fail (op : ClientImpl → Bool × ErrorCode) (cs : List ClientImpl)
    (i : Nat) (s : WriteState) (hall : ∀ u ∈ cs, (op u).1 = false) :
    (HAClientImpl.read_loop op cs i s).failed_count = s.failed_count + cs.length ∧
    invoked (HAClientImpl.read_loop op cs i s).log
      = invoked s.log ++ List.range' i cs.length ∧
    (∀ h : cs ≠ [], (HAClientImpl.read_loop op cs i s).err = (op (cs.getLast h)).2) := by
  induction cs generalizing i s with
  | nil => simp [HAClientImpl.read_loop]
  | cons u cs ih =>
    have hu : (op u).1 = false := hall u (by simp)
    rw [HAClientImpl.read_loop]
    simp only [hu, Bool.not_false, if_true]
    obtain ⟨h1, h2, h3⟩ := ih (i + 1)
      { failed_count := s.failed_count + 1, err := (op u).2,
        log := s.log ++ [Event.invoke i []] }
      (fun v hv => hall v (by simp [hv]))
    refine ⟨?_, ?_, ?_⟩
    · rw [h1, List.length_cons]
      simp only
      omega
    · rw [h2, List.length_cons, List.range'_succ i]
      simp [invoked_append, invoked]
    · intro _
      cases cs with
      | nil => simp [HAClientImpl.read_loop]
      | cons v vs =>
        rw [List.getLast_cons (by simp)]
        exact h3 (by simp)

theorem read_spec (self : HAClientImpl) (FLAGS FLAGS' : Flags)
    (op : ClientImpl → Bool × ErrorCode) (err : ErrorCode) (h : self._clients ≠ []) :
    ((self.read FLAGS op err).ok = true ↔ ∃ c ∈ self._clients, (op c).1 = true) ∧
    (∀ pre c post, self._clients = pre ++ c :: post → (∀ u ∈ pre, (op u).1 = false) →
      (op c).1 = true →
      invoked (self.read FLAGS op err).log = List.range (pre.length + 1) ∧
      (self.read FLAGS op err).err = (op c).2) ∧
    ((∀ c ∈ self._clients, (op c).1 = false) →
      invoked (self.read FLAGS op err).log = List.range self._clients.length ∧
      (self.read FLAGS op err).err = (op (self._clients.getLast h)).2) ∧
    self.read FLAGS op err = self.read FLAGS' op err := by
  have hsucc : ∀ pre c post, self._clients = pre ++ c :: post →
      (∀ u ∈ pre, (op u).1 = false) → (op c).1 = true →
      (self.read FLAGS op err).ok = true ∧
      invoked (self.read FLAGS op err).log = List.range (pre.length + 1) ∧
      (self.read FLAGS op err).err = (op c).2 := by
    intro pre c post hsplit hpre hc
    obtain ⟨h1, h2, h3⟩ := read_loop_first_success op pre c post 0 ⟨0, err, []⟩ hpre hc
    unfold HAClientImpl.read
    rw [hsplit]
    simp only [h1, h2, h3, Nat.zero_add, ge_iff_le, List.length_append, List.length_cons]
    refine ⟨?_, by simp [invoked, List.range_eq_range'], trivial⟩
    rw [if_neg (by omega)]
  have hfail : (∀ c ∈ self._clients, (op c).1 = false) →
      (self.read FLAGS op err).ok = false ∧
      invoked (self.read FLAGS op err).log = List.range self._clients.length ∧
      (self.read FLAGS op err).err = (op (self._clients.getLast h)).2 := by
    intro hall
    obtain ⟨h1, h2, h3⟩ := read_loop_all_fail op self._clients 0 ⟨0, err, []⟩ hall
    unfold HAClientImpl.read
    simp only [h1, h2, h3 h, Nat.zero_add, ge_iff_le, le_refl, if_true]
    exact ⟨trivial, by simp [invoked, List.range_eq_range'], trivial⟩
  refine ⟨?_, fun pre c post h1 h2 h3 => (hsucc pre c post h1 h2 h3).2, fun hall =>
    (hfail hall).2, rfl⟩
  constructor
  · intro hok
    by_contra hnone
    have hall : ∀ c ∈ self._clients, (op c).1 = false := by
      intro c hc
      by_contra hne
      exact hnone ⟨c, hc, by simpa using hne⟩
    rw [(hfail hall).1] at hok
    exact absurd hok (by simp)
  · intro hex
    obtain ⟨pre, c, post, hsplit, hpre, hc⟩ := exists_first (fun c => (op c).1 = true)
      self._clients hex
    exact (hsucc pre c post hsplit (fun u hu => by simpa using hpre u hu) hc).1

theorem GetTableDescriptor_loop_first_success (pre : List ClientImpl) (c : ClientImpl)
    (post : List ClientImpl) (i : Nat) (s : DescriptorState)
    (hpre : ∀ u ∈ pre, u.GetTableDescriptor.1 = none) (hc : c.GetTableDescriptor.1 ≠ none) :
    (HAClientImpl.GetTableDescriptor_loop (pre ++ c :: post) i s).failed_count
      = s.failed_count + pre.length ∧
    (HAClientImpl.GetTableDescriptor_loop (pre ++ c :: post) i s).td
      = c.GetTableDescriptor.1 ∧
    (HAClientImpl.GetTableDescriptor_loop (pre ++ c :: post) i s).err
      = c.GetTableDescriptor.2 ∧
    invoked (HAClientImpl.GetTableDescriptor_loop (pre ++ c :: post) i s).log
      = invoked s.log ++ List.range' i (pre.length + 1) := by
  induction pre generalizing i s with
  | nil => simp [HAClientImpl.GetTableDescriptor_loop, hc, invoked_append, invoked]
  | cons u pre ih =>
    have hu : u.GetTableDescriptor.1 = none := hpre u (by simp)
    rw [List.cons_append, HAClientImpl.GetTableDescriptor_loop]
    simp only [hu, if_true]
    obtain ⟨h1, h2, h3, h4⟩ := ih (i + 1)
      { td := none, failed_count := s.failed_count + 1, err := u.GetTableDescriptor.2,
        log := s.log ++ [Event.invoke i []] }
      (fun v hv => hpre v (by simp [hv]))
    refine ⟨?_, h2, h3, ?_⟩
    · rw [h1, List.length_cons]
      simp only
      omega
    · rw [h4, List.length_cons, List.range'_succ i]
      simp [invoked_append, invoked]

theorem GetTableDescriptor_loop_all_fail (cs : List ClientImpl) (i : Nat) (s : DescriptorState)
    (hall : ∀ u ∈ cs, u.GetTableDescriptor.1 = none) :
    (HAClientImpl.GetTableDescriptor_loop cs i s).failed_count = s.failed_count + cs.length ∧
    invoked (HAClientImpl.GetTableDescriptor_loop cs i s).log
      = invoked s.log ++ List.range' i cs.length := by
  induction cs generalizing i s with
  | nil => simp [HAClientImpl.GetTableDescriptor_loop]
  | cons u cs ih =>
    have hu : u.GetTableDescriptor.1 = none := hall u (by simp)
    rw [HAClientImpl.GetTableDescriptor_loop]
    simp only [hu, if_true]
    obtain ⟨h1, h2⟩ := ih (i + 1)
      { td := none, failed_count := s.failed_count + 1, err := u.GetTableDescriptor.2,
        log := s.log ++ [Event.invoke i []] }
      (fun v hv => hall v (by simp [hv]))
    refine ⟨?_, ?_⟩
    · rw [h1, List.length_cons]
      simp only
      omega
    · rw [h2, List.length_cons, List.range'_succ i]
      simp [invoked_append, invoked]

theorem GetTableDescriptor_spec (self : HAClientImpl) (FLAGS FLAGS' : Flags) (err : ErrorCode) :
    ((self.GetTableDescriptor FLAGS err).1 ≠ none ↔
      ∃ c ∈ self._clients, c.GetTableDescriptor.1 ≠ none) ∧
    (∀ pre c post, self._clients = pre ++ c :: post →
      (∀ u ∈ pre, u.GetTableDescriptor.1 = none) → c.GetTableDescriptor.1 ≠ none →
      invoked (self.GetTableDescriptor FLAGS err).2.2 = List.range (pre.length + 1) ∧
      (self.GetTableDescriptor FLAGS err).1 = c.GetTableDescriptor.1 ∧
      (self.GetTableDescriptor FLAGS err).2.1 = c.GetTableDescriptor.2) ∧
    ((∀ c ∈ self._clients, c.GetTableDescriptor.1 = none) →
      invoked (self.GetTableDescriptor FLAGS err).2.2 = List.range self._clients.length) ∧
    self.GetTableDescriptor FLAGS err = self.GetTableDescriptor FLAGS' err := by
  have hsucc : ∀ pre c post, self._clients = pre ++ c :: post →
      (∀ u ∈ pre, u.GetTableDescriptor.1 = none) → c.GetTableDescriptor.1 ≠ none →
      invoked (self.GetTableDescriptor FLAGS err).2.2 = List.range (pre.length + 1) ∧
      (self.GetTableDescriptor FLAGS err).1 = c.GetTableDescriptor.1 ∧
      (self.GetTableDescriptor FLAGS err).2.1 = c.GetTableDescriptor.2 := by
    intro pre c post hsplit hpre hc
    obtain ⟨h1, h2, h3, h4⟩ := GetTableDescriptor_loop_first_success pre c post 0
      ⟨none, 0, err, []⟩ hpre hc
    unfold HAClientImpl.GetTableDescriptor
    rw [hsplit]
    simp only [h1, h2, h3, h4, Nat.zero_add, ge_iff_le, List.length_append, List.length_cons]
    refine ⟨by simp [invoked, List.range_eq_range'], ?_, trivial⟩
    rw [if_neg (by omega)]
  have hfail : (∀ c ∈ self._clients, c.GetTableDescriptor.1 = none) →
      (self.GetTableDescriptor FLAGS err).1 = none ∧
      invoked (self.GetTableDescriptor FLAGS err).2.2 = List.range self._clients.length := by
    intro hall
    obtain ⟨h1, h2⟩ := GetTableDescriptor_loop_all_fail self._clients 0 ⟨none, 0, err, []⟩ hall
    unfold HAClientImpl.GetTableDescriptor
    simp only [h1, h2, Nat.zero_add, ge_iff_le, le_refl, if_true]
    exact ⟨trivial, by simp [invoked, List.range_eq_range']⟩
  refine ⟨?_, hsucc, fun hall => (hfail hall).2, rfl⟩
  constructor
  · intro hok
    by_contra hnone
    have hall : ∀ c ∈ self._clients, c.GetTableDescriptor.1 = none := by
      intro c hc
      by_contra hne
      exact hnone ⟨c, hc, hne⟩
    exact hok (hfail hall).1
  · intro hex
    obtain ⟨pre, c, post, hsplit, hpre, hc⟩ := exists_first
      (fun c : ClientImpl => c.GetTableDescriptor.1 ≠ none) self._clients hex
    rw [(hsucc pre c post hsplit (fun u hu => by simpa using hpre u hu) hc).2.1]
    exact hc

/-- C20. The read and admin operations of the client (`ShowUser`, `GetTabletLocation`, both
`List`, `IsTableExist`, `IsTableEnabled`, `IsTableEmpty`, `GetSnapshot`, and
`GetTableDescriptor`, whose success is a non-null descriptor) on a non-empty replica list: the
call reports success exactly when some replica answered OK; the replicas consulted are those up
to and including the first that answers OK and none after it, and its error is the one
reported; when all fail every replica is consulted; and the result is the same under any two
settings of the flags, `tera_sdk_ha_ddl_enable` included. -/
theorem read_first_success (self : HAClientImpl) (FLAGS FLAGS' : Flags) (err : ErrorCode)
    (op : ClientImpl → Bool × ErrorCode) (run : HAClientImpl → Flags → ErrorCode → WriteResult)
    (hrun : (op, run) ∈ [(ClientImpl.ShowUser, HAClientImpl.ShowUser),
      (ClientImpl.GetTabletLocation, HAClientImpl.GetTabletLocation),
      (ClientImpl.List_tables, HAClientImpl.List_tables),
      (ClientImpl.List_table, HAClientImpl.List_table),
      (ClientImpl.IsTableExist, HAClientImpl.IsTableExist),
      (ClientImpl.IsTableEnabled, HAClientImpl.IsTableEnabled),
      (ClientImpl.IsTableEmpty, HAClientImpl.IsTableEmpty),
      (ClientImpl.GetSnapshot, HAClientImpl.GetSnapshot)])
    (h : self._clients ≠ []) :
    (((run self FLAGS err).ok = true ↔ ∃ c ∈ self._clients, (op c).1 = true) ∧
      (∀ pre c post, self._clients = pre ++ c :: post → (∀ u ∈ pre, (op u).1 = false) →
        (op c).1 = true →
        invoked (run self FLAGS err).log = List.range (pre.length + 1) ∧
        (run self FLAGS err).err = (op c).2) ∧
      ((∀ c ∈ self._clients, (op c).1 = false) →
        invoked (run self FLAGS err).log = List.range self._clients.length ∧
        (run self FLAGS err).err = (op (self._clients.getLast h)).2) ∧
      run self FLAGS err = run self FLAGS' err) ∧
    (((self.GetTableDescriptor FLAGS err).1 ≠ none ↔
        ∃ c ∈ self._clients, c.GetTableDescriptor.1 ≠ none) ∧
      (∀ pre c post, self._clients = pre ++ c :: post →
        (∀ u ∈ pre, u.GetTableDescriptor.1 = none) → c.GetTableDescriptor.1 ≠ none →
        invoked (self.GetTableDescriptor FLAGS err).2.2 = List.range (pre.length + 1) ∧
        (self.GetTableDescriptor FLAGS err).1 = c.GetTableDescriptor.1 ∧
        (self.GetTableDescriptor FLAGS err).2.1 = c.GetTableDescriptor.2) ∧
      ((∀ c ∈ self._clients, c.GetTableDescriptor.1 = none) →
        invoked (self.GetTableDescriptor FLAGS err).2.2 = List.range self._clients.length) ∧
      self.GetTableDescriptor FLAGS err = self.GetTableDescriptor FLAGS' err) := by
  refine ⟨?_, GetTableDescriptor_spec self FLAGS FLAGS' err⟩
  simp only [List.mem_cons, Prod.mk.injEq, List.mem_singleton, List.not_mem_nil, or_false]
    at hrun
  casesm* _ ∨ _ <;>
    (rename_i hcase; obtain ⟨rfl, rfl⟩ := hcase; exact read_spec self FLAGS FLAGS' _ err h)

/-- Witness of C20: three replicas, `ShowUser` and `GetTableDescriptor` fail on replica 0 and
succeed on replica 1; replicas 0 and 1 are consulted, replica 2 is not, and the call succeeds
whatever `tera_sdk_ha_ddl_enable` is. -/
theorem read_first_success_witness :
    (HAClientImpl.mk [refusing, willing, willing])._clients ≠ [] ∧
    ((HAClientImpl.mk [refusing, willing, willing]).ShowUser flags_default down).ok = true ∧
    invoked ((HAClientImpl.mk [refusing, willing, willing]).ShowUser flags_default down).log
      = [0, 1] ∧
    (HAClientImpl.mk [refusing, willing, willing]).ShowUser flags_default down
      = (HAClientImpl.mk [refusing, willing, willing]).ShowUser flags_best_effort down ∧
    invoked ((HAClientImpl.mk [refusing, willing, willing]).GetTableDescriptor flags_default
      down).2.2 = [0, 1] := by
  have h := read_first_success (HAClientImpl.mk [refusing, willing, willing]) flags_default
    flags_best_effort down ClientImpl.ShowUser HAClientImpl.ShowUser (List.mem_cons_self _ _)
    (List.cons_ne_nil _ _)
  exact ⟨List.cons_ne_nil _ _,
    h.1.1.2 ⟨willing, List.mem_cons_of_mem _ (List.mem_cons_self _ _), rfl⟩,
    (h.1.2.1 [refusing] willing [willing] rfl (by simp [refusing]) rfl).1,
    h.1.2.2.2,
    (h.2.2.1 [refusing] willing [willing] rfl (by simp [refusing]) (by simp [willing])).1⟩

/-! ## `CmdCtrl` (C21) -/

theorem CmdCtrl_loop_log (cs : List ClientImpl) (i : Nat) (s : CmdCtrlState) :
    invoked (HAClientImpl.CmdCtrl_loop cs i s).log = invoked s.log ++ List.range' i cs.length ∧
    (HAClientImpl.CmdCtrl_loop cs i s).failed_count
      = s.failed_count + cs.countP (fun c => !c.CmdCtrl.1) := by
  induction cs generalizing i s with
  | nil => simp [HAClientImpl.CmdCtrl_loop]
  | cons c cs ih =>
    rw [HAClientImpl.CmdCtrl_loop]
    simp only [List.length_cons, List.range'_succ i, List.countP_cons]
    split
    · rename_i hc
      obtain ⟨h1, h2⟩ := ih (i + 1)
        { s with err := c.CmdCtrl.2.2.2, log := s.log ++ [Event.invoke i []],
                 failed_count := s.failed_count + 1 }
      rw [h1, h2]
      simp only [hc, if_true]
      exact ⟨by simp [invoked_append, invoked], by omega⟩
    · rename_i hc
      split
      · obtain ⟨h1, h2⟩ := ih (i + 1)
          { s with err := c.CmdCtrl.2.2.2, log := s.log ++ [Event.invoke i []],
                   has_set := true, bool_result := c.CmdCtrl.2.1,
                   str_result := c.CmdCtrl.2.2.1 }
        rw [h1, h2]
        simp only [hc]
        exact ⟨by simp [invoked_append, invoked], by simp⟩
      · obtain ⟨h1, h2⟩ := ih (i + 1)
          { s with err := c.CmdCtrl.2.2.2, log := s.log ++ [Event.invoke i []] }
        rw [h1, h2]
        simp only [hc]
        exact ⟨by simp [invoked_append, invoked], by simp⟩

theorem CmdCtrl_loop_set (cs : List ClientImpl) (i : Nat) (s : CmdCtrlState)
    (hs : s.has_set = true) :
    (HAClientImpl.CmdCtrl_loop cs i s).bool_result = s.bool_result ∧
    (HAClientImpl.CmdCtrl_loop cs i s).str_result = s.str_result := by
  induction cs generalizing i s with
  | nil => simp [HAClientImpl.CmdCtrl_loop]
  | cons c cs ih =>
    rw [HAClientImpl.CmdCtrl_loop]
    split
    · exact ih (i + 1) _ hs
    · simp only [hs, Bool.not_true, Bool.false_eq_true, if_false]
      exact ih (i + 1) _ rfl

theorem CmdCtrl_loop_first (pre : List ClientImpl) (c : ClientImpl) (post : List ClientImpl)
    (i : Nat) (s : CmdCtrlState) (hs : s.has_set = false)
    (hpre : ∀ u ∈ pre, u.CmdCtrl.1 = false) (hc : c.CmdCtrl.1 = true) :
    (HAClientImpl.CmdCtrl_loop (pre ++ c :: post) i s).bool_result = c.CmdCtrl.2.1 ∧
    (HAClientImpl.CmdCtrl_loop (pre ++ c :: post) i s).str_result = c.CmdCtrl.2.2.1 := by
  induction pre generalizing i s with
  | nil =>
    rw [List.nil_append, HAClientImpl.CmdCtrl_loop]
    simp only [hc, Bool.not_true, Bool.false_eq_true, if_false, hs, Bool.not_false, if_true]
    exact CmdCtrl_loop_set post (i + 1) _ rfl
  | cons u pre ih =>
    have hu : u.CmdCtrl.1 = false := hpre u (by simp)
    rw [List.cons_append, HAClientImpl.CmdCtrl_loop]
    simp only [hu, Bool.not_false, if_true]
    exact ih (i + 1) _ hs (fun v hv => hpre v (by simp [hv]))

theorem CmdCtrl_loop_none (cs : List ClientImpl) (i : Nat) (s : CmdCtrlState)
    (hall : ∀ u ∈ cs, u.CmdCtrl.1 = false) :
    (HAClientImpl.CmdCtrl_loop cs i s).bool_result = s.bool_result ∧
    (HAClientImpl.CmdCtrl_loop cs i s).str_result = s.str_result := by
  induction cs generalizing i s with
  | nil => simp [HAClientImpl.CmdCtrl_loop]
  | cons u cs ih =>
    have hu : u.CmdCtrl.1 = false := hall u (by simp)
    rw [HAClientImpl.CmdCtrl_loop]
    simp only [hu, Bool.not_false, if_true]
    exact ih (i + 1) _ (fun v hv => hall v (by simp [hv]))

/-- C21. `CmdCtrl` on any replica list (the empty one included): every replica is invoked exactly once, in order,
whatever the outcomes; the result does not depend on the flags; the call returns true exactly
when some replica succeeded, and then the error is `kOK` / "success" and `bool_result` and
`str_result` are the values of the lowest-indexed successful replica; when it returns false
`bool_result` and `str_result` are what they were before the call. -/
theorem CmdCtrl_first_result (self : HAClientImpl) (FLAGS FLAGS' : Flags) (bool_result : Bool)
    (str_result : String) (err : ErrorCode) :
    invoked (self.CmdCtrl FLAGS bool_result str_result err).log
      = List.range self._clients.length ∧
    self.CmdCtrl FLAGS bool_result str_result err
      = self.CmdCtrl FLAGS' bool_result str_result err ∧
    ((self.CmdCtrl FLAGS bool_result str_result err).ok = true ↔
      ∃ c ∈ self._clients, c.CmdCtrl.1 = true) ∧
    ((self.CmdCtrl FLAGS bool_result str_result err).ok = true →
      (self.CmdCtrl FLAGS bool_result str_result err).err
        = ⟨ErrorCodeType.kOK, "success"⟩) ∧
    (∀ pre c post, self._clients = pre ++ c :: post → (∀ u ∈ pre, u.CmdCtrl.1 = false) →
      c.CmdCtrl.1 = true →
      (self.CmdCtrl FLAGS bool_result str_result err).bool_result = c.CmdCtrl.2.1 ∧
      (self.CmdCtrl FLAGS bool_result str_result err).str_result = c.CmdCtrl.2.2.1) ∧
    ((self.CmdCtrl FLAGS bool_result str_result err).ok = false →
      (self.CmdCtrl FLAGS bool_result str_result err).bool_result = bool_result ∧
      (self.CmdCtrl FLAGS bool_result str_result err).str_result = str_result) := by
  obtain ⟨hlog, hfc⟩ := CmdCtrl_loop_log self._clients 0
    ⟨0, false, bool_result, str_result, err, []⟩
  have hiff := countP_lt_length_iff (fun c : ClientImpl => !c.CmdCtrl.1) self._clients
  simp only [Nat.zero_add] at hfc
  have hok : (self.CmdCtrl FLAGS bool_result str_result err).ok = true ↔
      ∃ c ∈ self._clients, c.CmdCtrl.1 = true := by
    unfold HAClientImpl.CmdCtrl
    simp only [hfc, ge_iff_le]
    split
    · rename_i hge
      refine ⟨fun hh => absurd hh (by simp), ?_⟩
      rintro ⟨c, hc, hct⟩
      have := hiff.2 ⟨c, hc, by simp [hct]⟩
      omega
    · rename_i hge
      refine ⟨fun _ => ?_, fun _ => rfl⟩
      obtain ⟨c, hc, hct⟩ := hiff.1 (by omega)
      exact ⟨c, hc, by simpa using hct⟩
  have hB : (self.CmdCtrl FLAGS bool_result str_result err).bool_result
      = (HAClientImpl.CmdCtrl_loop self._clients 0
          ⟨0, false, bool_result, str_result, err, []⟩).bool_result := by
    simp only [HAClientImpl.CmdCtrl]
    split <;> rfl
  have hS : (self.CmdCtrl FLAGS bool_result str_result err).str_result
      = (HAClientImpl.CmdCtrl_loop self._clients 0
          ⟨0, false, bool_result, str_result, err, []⟩).str_result := by
    simp only [HAClientImpl.CmdCtrl]
    split <;> rfl
  refine ⟨?_, rfl, hok, ?_, ?_, ?_⟩
  · have : (self.CmdCtrl FLAGS bool_result str_result err).log
        = (HAClientImpl.CmdCtrl_loop self._clients 0
            ⟨0, false, bool_result, str_result, err, []⟩).log := by
      simp only [HAClientImpl.CmdCtrl]
      split <;> rfl
    rw [this, hlog]
    simp [invoked, List.range_eq_range']
  · simp only [HAClientImpl.CmdCtrl]
    split
    · intro hh
      exact absurd hh (by simp)
    · intro _
      rfl
  · intro pre c post hsplit hpre hc
    rw [hB, hS, hsplit]
    exact CmdCtrl_loop_first pre c post 0 _ rfl hpre hc
  · intro hfalse
    have hall : ∀ u ∈ self._clients, u.CmdCtrl.1 = false := by
      intro u hu
      by_contra hne
      have : (self.CmdCtrl FLAGS bool_result str_result err).ok = true :=
        hok.2 ⟨u, hu, by simpa using hne⟩
      rw [hfalse] at this
      exact absurd this (by simp)
    rw [hB, hS]
    exact CmdCtrl_loop_none self._clients 0 _ hall

/-- Witness of C21: three replicas, the first unreachable, the second answering `false` /
"leave", the third answering `true` / "": all three are invoked, the call returns true and the
results are those of the second replica. -/
theorem CmdCtrl_first_result_witness :
    (HAClientImpl.mk [unreachable, answering, willing])._clients ≠ [] ∧
    invoked ((HAClientImpl.mk [unreachable, answering, willing]).CmdCtrl flags_default true
      "before" down).log = [0, 1, 2] ∧
    ((HAClientImpl.mk [unreachable, answering, willing]).CmdCtrl flags_default true
      "before" down).ok = true ∧
    ((HAClientImpl.mk [unreachable, answering, willing]).CmdCtrl flags_default true
      "before" down).bool_result = false ∧
    ((HAClientImpl.mk [unreachable, answering, willing]).CmdCtrl flags_default true
      "before" down).str_result = "leave" := by
  have h := CmdCtrl_first_result (HAClientImpl.mk [unreachable, answering, willing])
    flags_default flags_best_effort true "before" down
  have h5 := h.2.2.2.2.1 [unreachable] answering [willing] rfl (by simp [unreachable]) rfl
  exact ⟨List.cons_ne_nil _ _, h.1,
    h.2.2.1.2 ⟨answering, List.mem_cons_of_mem _ (List.mem_cons_self _ _), rfl⟩, h5.1, h5.2⟩

/-! ## `OpenTable` (C22) -/

theorem OpenTable_loop_spec (cs : List ClientImpl) (i : Nat) (s : OpenTableState) :
    invoked (HAClientImpl.OpenTable_loop cs i s).log = invoked s.log ++ List.range' i cs.length ∧
    (HAClientImpl.OpenTable_loop cs i s).failed_count
      = s.failed_count + cs.countP (fun c => c.OpenTable.1.isNone) ∧
    ((HAClientImpl.OpenTable_loop cs i s).ha_table.map HATableImpl._tables).getD []
      = (s.ha_table.map HATableImpl._tables).getD [] ++ cs.filterMap (fun c => c.OpenTable.1) ∧
    ((HAClientImpl.OpenTable_loop cs i s).ha_table = none ↔
      s.ha_table = none ∧ ∀ c ∈ cs, c.OpenTable.1 = none) := by
  induction cs generalizing i s with
  | nil => simp [HAClientImpl.OpenTable_loop]
  | cons c cs ih =>
    rw [HAClientImpl.OpenTable_loop]
    simp only [List.length_cons, List.range'_succ i, List.countP_cons]
    cases hc : c.OpenTable.1 with
    | none =>
      obtain ⟨h1, h2, h3, h4⟩ := ih (i + 1)
        { s with err := c.OpenTable.2, log := s.log ++ [Event.invoke i []],
                 failed_count := s.failed_count + 1 }
      simp only at h1 h2 h3 h4 ⊢
      rw [h1, h2, h3, h4]
      refine ⟨?_, ?_, ?_, ?_⟩
      · simp [invoked_append, invoked]
      · simp [hc]
        omega
      · simp [List.filterMap_cons, hc]
      · simp [hc]
    | some ti =>
      obtain ⟨h1, h2, h3, h4⟩ := ih (i + 1)
        { s with err := c.OpenTable.2, log := s.log ++ [Event.invoke i []],
                 ha_table := some (HATableImpl.Add_table
                   (s.ha_table.getD { _tables := [] }) ti) }
      simp only at h1 h2 h3 h4 ⊢
      rw [h1, h2, h3, h4]
      refine ⟨?_, ?_, ?_, ?_⟩
      · simp [invoked_append, invoked]
      · simp [hc]
      · cases s.ha_table <;> simp [HATableImpl.Add_table, List.filterMap_cons, hc]
      · simp [hc]

/-- C22. `OpenTable` on any list of replica clients: every client is attempted, in order; if
some open succeeded the returned table holds exactly the tables that opened, in client order,
and the error is `kOK` / "success"; if none succeeded (the empty client list included) the
result is null and the error is left as the last client wrote it; the flags are not read. -/
theorem OpenTable_opened_subset (self : HAClientImpl) (FLAGS FLAGS' : Flags) (err : ErrorCode) :
    invoked (self.OpenTable FLAGS err).2.2 = List.range self._clients.length ∧
    self.OpenTable FLAGS err = self.OpenTable FLAGS' err ∧
    ((∃ c ∈ self._clients, c.OpenTable.1 ≠ none) →
      (self.OpenTable FLAGS err).1
        = some { _tables := self._clients.filterMap (fun c => c.OpenTable.1) } ∧
      (self.OpenTable FLAGS err).2.1 = ⟨ErrorCodeType.kOK, "success"⟩) ∧
    ((∀ c ∈ self._clients, c.OpenTable.1 = none) → (self.OpenTable FLAGS err).1 = none) := by
  obtain ⟨h1, h2, h3, h4⟩ := OpenTable_loop_spec self._clients 0 ⟨0, none, err, []⟩
  have hiff := countP_lt_length_iff (fun c : ClientImpl => c.OpenTable.1.isNone) self._clients
  simp only [Nat.zero_add, Option.map_none', Option.getD_none, List.nil_append,
    true_and] at h2 h3 h4
  refine ⟨?_, rfl, ?_, ?_⟩
  · have : (self.OpenTable FLAGS err).2.2
        = (HAClientImpl.OpenTable_loop self._clients 0 ⟨0, none, err, []⟩).log := by
      simp only [HAClientImpl.OpenTable]
      split <;> rfl
    rw [this, h1]
    simp [invoked, List.range_eq_range']
  · rintro ⟨c, hc, hcs⟩
    have hlt : self._clients.countP (fun c => c.OpenTable.1.isNone) < self._clients.length :=
      hiff.2 ⟨c, hc, by cases hh : c.OpenTable.1 <;> simp_all⟩
    simp only [HAClientImpl.OpenTable, h2, ge_iff_le]
    rw [if_neg (by omega)]
    refine ⟨?_, rfl⟩
    cases hh : (HAClientImpl.OpenTable_loop self._clients 0 ⟨0, none, err, []⟩).ha_table with
    | none => exact absurd (h4.1 hh c hc) hcs
    | some t =>
      rw [hh] at h3
      simp only [Option.map_some', Option.getD_some] at h3
      cases t
      simp only at h3
      simp [h3]
  · intro hall
    simp only [HAClientImpl.OpenTable]
    split
    · rfl
    · exact h4.2 hall

/-- Witness of C22: three replica clients of which the second cannot be reached; the table
returned holds the tables of the first and the third, in that order. With no client, or with
unreachable clients only, the result is null. -/
theorem OpenTable_opened_subset_witness :
    invoked ((HAClientImpl.mk [willing, unreachable, { OpenTable := (some streaming, down) }]
      ).OpenTable flags_default down).2.2 = [0, 1, 2] ∧
    ((HAClientImpl.mk [willing, unreachable, { OpenTable := (some streaming, down) }]
      ).OpenTable flags_default down).1 = some { _tables := [{}, streaming] } ∧
    ((HAClientImpl.mk [willing, unreachable, { OpenTable := (some streaming, down) }]
      ).OpenTable flags_default down).2.1 = ⟨ErrorCodeType.kOK, "success"⟩ ∧
    ((HAClientImpl.mk []).OpenTable flags_default down).1 = none ∧
    ((HAClientImpl.mk [unreachable, unreachable]).OpenTable flags_default down).1 = none := by
  have h := OpenTable_opened_subset
    (HAClientImpl.mk [willing, unreachable, { OpenTable := (some streaming, down) }])
    flags_default flags_best_effort down
  have h3 := h.2.2.1 ⟨willing, List.mem_cons_self _ _, by simp [willing]⟩
  exact ⟨h.1, h3.1, h3.2, rfl, rfl⟩

/-! ## Unsupported table operations (C23) -/

/-- C23, as the code has it: none of the seven unsupported operations calls a replica;
`CheckAndApply`, `LockRow`, `GetStartEndKeys`, the table-level `GetTabletLocation` and
`GetDescriptor` return false and leave the kind `kNotImpl` in `*err`; `IncrementColumnValue`
returns 0 and leaves `kNotImpl` in `*err`; `Flush` returns false and reports no error kind, as
it has no `err` parameter. -/
theorem unsupported_operations (self : HATableImpl) (err : ErrorCode) :
    (self.Flush.log = [] ∧ self.Flush.ret = false ∧ self.Flush.err = none) ∧
    ((self.IncrementColumnValue err).log = [] ∧ (self.IncrementColumnValue err).ret = 0 ∧
      (self.IncrementColumnValue err).err.map ErrorCode.GetType
        = some ErrorCodeType.kNotImpl) ∧
    ∀ op ∈ [HATableImpl.CheckAndApply, HATableImpl.LockRow, HATableImpl.GetStartEndKeys,
        HATableImpl.GetTabletLocation, HATableImpl.GetDescriptor],
      (op self err).log = [] ∧ (op self err).ret = false ∧
      (op self err).err.map ErrorCode.GetType = some ErrorCodeType.kNotImpl := by
  refine ⟨⟨rfl, rfl, rfl⟩, ⟨rfl, rfl, rfl⟩, ?_⟩
  intro op hop
  simp only [List.mem_cons, List.mem_singleton, List.not_mem_nil, or_false] at hop
  rcases hop with rfl | rfl | rfl | rfl | rfl <;> exact ⟨rfl, rfl, rfl⟩

/-- C23 at `Flush`: on a table with one healthy replica `Flush` returns false without calling
the replica, and the error kind it reports is not `kNotImpl`: it reports none. -/
theorem Flush_reports_no_kind :
    (HATableImpl.mk [healthy]).Flush.ret = false ∧
    (HATableImpl.mk [healthy]).Flush.log = [] ∧
    (HATableImpl.mk [healthy]).Flush.err.map ErrorCode.GetType
      ≠ some ErrorCodeType.kNotImpl := by
  decide

/-! ## Replica order of the `Get` variants outside random mode (C24) -/

theorem table_set_off (self : HATableImpl) (FLAGS : Flags) (random : Nat → Nat)
    (hoff : FLAGS.tera_sdk_ha_get_random_mode = false) :
    self.table_set FLAGS random = some self._tables := by
  simp [HATableImpl.table_set, hoff]

theorem Get_loop_prefix (size row : Nat) (ts : List TableImpl) (i fc : Nat) (w : RdWorld) :
    ∃ m, m ≤ ts.length ∧
      invoked (HATableImpl.Get_loop size row ts i fc w).log
        = invoked w.log ++ List.range' i m := by
  induction ts generalizing i fc w with
  | nil => exact ⟨0, le_refl _, by simp [HATableImpl.Get_loop]⟩
  | cons t ts ih =>
    rw [HATableImpl.Get_loop]
    split
    · obtain ⟨m, hm, h⟩ := ih (i + 1) (fc + 1)
        (if fc + 1 < size then (w.call t i [row]).Reset row else w.call t i [row])
      refine ⟨m + 1, by simp only [List.length_cons]; omega, ?_⟩
      rw [h, List.range'_succ]
      split <;> simp [RdWorld.call, RdWorld.Reset, invoked_append, invoked]
    · exact ⟨1, by simp, by simp [RdWorld.call, invoked_append, invoked, List.range']⟩

theorem Get_scalar_loop_prefix (op : TableImpl → Bool × ErrorCode) (ts : List TableImpl)
    (i : Nat) (s : WriteState) :
    ∃ m, m ≤ ts.length ∧
      invoked (HATableImpl.Get_scalar_loop op ts i s).log
        = invoked s.log ++ List.range' i m := by
  induction ts generalizing i s with
  | nil => exact ⟨0, le_refl _, by simp [HATableImpl.Get_scalar_loop]⟩
  | cons t ts ih =>
    rw [HATableImpl.Get_scalar_loop]
    split
    · obtain ⟨m, hm, h⟩ := ih (i + 1)
        { s with err := (op t).2, log := s.log ++ [Event.invoke i []],
                 failed_count := s.failed_count + 1 }
      refine ⟨m + 1, by simp only [List.length_cons]; omega, ?_⟩
      rw [h, List.range'_succ]
      simp [invoked_append, invoked]
    · exact ⟨1, by simp, by simp [invoked_append, invoked, List.range']⟩

theorem get_feed_fired (cs : List Completion) (chk : GetCallbackChecker) (w : RdWorld)
    (h : chk._has_call = true) :
    (feed GetCallbackChecker.complete (chk, w) cs).2.2.log = w.log :=
  (feed_fired GetCallbackChecker.complete (fun s => s.2.log) (fun s => s.1._has_call = true)
    get_complete_stay (chk, w) cs h).2

theorem get_feed_prefix (cs : List Completion) (chk : GetCallbackChecker) (w : RdWorld) :
    ∃ m, (m = 0 ∨ chk._cluster_index + m < chk._clusters.length) ∧
      dispatched (feed GetCallbackChecker.complete (chk, w) cs).2.2.log
        = dispatched w.log ++ List.range' (chk._cluster_index + 1) m := by
  induction cs generalizing chk w with
  | nil => exact ⟨0, Or.inl rfl, by simp [feed]⟩
  | cons c cs ih =>
    by_cases hc : chk._has_call = true
    · refine ⟨0, Or.inl rfl, ?_⟩
      rw [get_feed_fired (c :: cs) chk w hc]
      simp
    · have hc' : chk._has_call = false := by simpa using hc
      by_cases hcode : c.code = ErrorCodeType.kOK
      · refine ⟨0, Or.inl rfl, ?_⟩
        simp only [feed, GetCallbackChecker.complete, hcode]
        rw [get_NeedCall_ok chk _ hc', get_feed_fired cs _ _ rfl]
        simp [RdWorld.completed]
      · by_cases hlt : chk._cluster_index + 1 < chk._clusters.length
        · obtain ⟨m, hm, h⟩ := ih { chk with _cluster_index := chk._cluster_index + 1 }
            (((w.completed chk._row_reader c).Reset chk._row_reader).dispatch
              (chk._cluster_index + 1) chk._row_reader)
          refine ⟨m + 1, Or.inr ?_, ?_⟩
          · rcases hm with rfl | hm
            · omega
            · simp only at hm
              omega
          · simp only [feed, GetCallbackChecker.complete]
            rw [get_NeedCall_next chk _ c.code hc' hcode hlt, h, List.range'_succ]
            simp [RdWorld.completed, RdWorld.Reset, RdWorld.dispatch, dispatched_append,
              dispatched]
        · refine ⟨0, Or.inl rfl, ?_⟩
          simp only [feed, GetCallbackChecker.complete]
          rw [get_NeedCall_exhausted chk _ c.code hc' hcode (by omega),
            get_feed_fired cs _ _ rfl]
          simp [RdWorld.completed]

theorem chain_prefix (r : Nat) (chain : List (Nat × List Nat)) (a : Nat)
    (hchain : List.Chain' (fun p q : Nat × List Nat => q.1 = p.1 + 1 ∧ q.2.Sublist p.2) chain)
    (hhead : ∀ p ∈ chain.head?, p.1 = a) :
    ∃ m, ((chain.filter (fun p => decide (r ∈ p.2))).map Prod.fst = List.range' a m) ∧
      (∀ p ∈ chain.head?, r ∉ p.2 → m = 0) := by
  induction chain generalizing a with
  | nil => exact ⟨0, by simp, by simp⟩
  | cons p rest ih =>
    have hp : p.1 = a := hhead p (by simp)
    rw [List.chain'_cons'] at hchain
    obtain ⟨m, hm1, hm2⟩ := ih (a + 1) hchain.2
      (fun q hq => by rw [(hchain.1 q hq).1, hp])
    by_cases hr : r ∈ p.2
    · refine ⟨m + 1, ?_, fun q hq hn => ?_⟩
      · simp [List.filter_cons, hr, hm1, hp, List.range'_succ]
      · simp only [List.head?_cons, Option.mem_def, Option.some.injEq] at hq
        subst hq
        exact absurd hr hn
    · have hm0 : m = 0 := by
        cases hrest : rest with
        | nil =>
          subst hrest
          simp only [List.filter_nil, List.map_nil] at hm1
          cases m with
          | zero => rfl
          | succ k => simp [List.range'_succ] at hm1
        | cons q rest' =>
          subst hrest
          apply hm2 q (by simp)
          intro hq
          exact hr ((hchain.1 q (by simp)).2.subset hq)
      subst hm0
      refine ⟨0, ?_, fun _ _ _ => rfl⟩
      simpa [List.filter_cons, hr] using hm1

theorem Get_off (self : HATableImpl) (FLAGS : Flags) (random : Nat → Nat) (w : RdWorld)
    (row_reader : Nat) (hoff : FLAGS.tera_sdk_ha_get_random_mode = false) :
    self.Get FLAGS random w row_reader
      = some (if w.IsAsync row_reader then
          (if self._tables.length > 0 then
            (w.SetCallChecker row_reader
              (CallChecker.get (GetCallbackChecker.new self._tables row_reader))).dispatch 0
                row_reader
           else w)
         else HATableImpl.Get_loop self._tables.length row_reader self._tables 0 0 w) := by
  simp only [HATableImpl.Get, table_set_off self FLAGS random hoff, Option.bind_eq_bind,
    Option.some_bind]
  split
  · split <;> rfl
  · rfl

theorem Get_list_async_off (self : HATableImpl) (FLAGS : Flags) (rest : List Nat) (w : RdWorld)
    (hoff : FLAGS.tera_sdk_ha_get_random_mode = false) :
    ∃ w1, ∀ (random : Nat → Nat → Nat) (k : Nat),
      HATableImpl.Get_list_async self FLAGS random rest k w = some w1 := by
  induction rest generalizing w with
  | nil => exact ⟨w, fun _ _ => rfl⟩
  | cons r rest ih =>
    obtain ⟨w1, h1⟩ := ih _
    refine ⟨w1, fun random k => ?_⟩
    rw [HATableImpl.Get_list_async, Get_off self FLAGS (random k) w r hoff]
    simp only [Option.bind_eq_bind, Option.some_bind]
    exact h1 random (k + 1)

theorem Get_list_off (self : HATableImpl) (FLAGS : Flags) (w : RdWorld) (row_readers : List Nat)
    (hoff : FLAGS.tera_sdk_ha_get_random_mode = false) :
    ∃ (w' : RdWorld) (chain : List (Nat × List Nat)),
      (∀ random : Nat → Nat → Nat, self.Get_list FLAGS random w row_readers = some w') ∧
      submitted w'.log = submitted w.log ++ chain ∧
      List.Chain' (fun p q : Nat × List Nat => q.1 = p.1 + 1 ∧ q.2.Sublist p.2) chain ∧
      (∀ p ∈ chain.head?, p.1 = 0) ∧ (∀ p ∈ chain, p.1 < self._tables.length) := by
  obtain ⟨w1, h1⟩ := Get_list_async_off self FLAGS
    (row_readers.filter (fun r => w.IsAsync r)) w hoff
  obtain ⟨_, s1⟩ := Get_list_async_spec self FLAGS (fun _ _ => 0) _ 1 w w1
    (fun r hr => (List.mem_filter.1 hr).2) (h1 (fun _ _ => 0) 1)
  obtain ⟨s', chain, c0, c1, c2, c3, c4, _⟩ := Get_list_loop_spec self._tables.length
    self._tables []
    { failed_count_list := List.replicate (row_readers.filter (fun r => !w.IsAsync r)).length 0,
      sync_readers := row_readers.filter (fun r => !w.IsAsync r),
      w := w1 } (by simp)
  simp only [List.length_nil, List.nil_append, Nat.zero_add] at c0 c1 c2 c3 c4
  by_cases hempty : (row_readers.filter (fun r => !w.IsAsync r)).length ≤ 0
  · refine ⟨w1, [], fun random => ?_, by simp [s1], by simp, by simp, by simp⟩
    simp only [HATableImpl.Get_list, table_set_off self FLAGS (random 0) hoff,
      Option.bind_eq_bind, Option.some_bind, h1 random 1, if_pos hempty]
  · refine ⟨s'.w, chain, fun random => ?_, by rw [c1, s1], c2.imp (fun _ _ h => ⟨h.1, h.2.1⟩),
      fun p hp => by rw [c3 p hp], fun p hp => (c4 p hp).2.2⟩
    simp only [HATableImpl.Get_list, table_set_off self FLAGS (random 0) hoff,
      Option.bind_eq_bind, Option.some_bind, h1 random 1, if_neg hempty, c0]

/-- C24. With `tera_sdk_ha_get_random_mode` off, every `Get` variant consults the replicas in
construction order and does not depend on the random source. `table_set` is `_tables` itself.
Single synchronous reader: the replicas invoked are `0 .. m-1` for some `m ≤ N`. Single
asynchronous reader (on a non-empty table): the checker is built over `_tables`, and whatever
completions arrive the replicas dispatched to, the first dispatch included, are `0 .. m-1` for
some `m ≤ N`. Batch: the synchronous calls form a list `chain` in which, for every reader, the
replicas that were handed that reader are `0 .. m-1` for some `m ≤ N`. Scalar `Get`, both
overloads: the replicas invoked are `0 .. m-1` for some `m ≤ N`. In each case the call returns
and two runs that differ in the random source only return the same thing. -/
theorem Get_construction_order (self : HATableImpl) (FLAGS : Flags)
    (hoff : FLAGS.tera_sdk_ha_get_random_mode = false) :
    (∀ random, self.table_set FLAGS random = some self._tables) ∧
    (∀ (w : RdWorld) (row_reader : Nat), ∃ w',
      (∀ random, self.Get FLAGS random w row_reader = some w') ∧
      (w.IsAsync row_reader = false →
        ∃ m, m ≤ self._tables.length ∧ invoked w'.log = invoked w.log ++ List.range m) ∧
      (w.IsAsync row_reader = true → self._tables ≠ [] →
        w'.call_checker row_reader
          = some (CallChecker.get (GetCallbackChecker.new self._tables row_reader)) ∧
        ∀ cs, ∃ m, m ≤ self._tables.length ∧
          dispatched (feed GetCallbackChecker.complete
            (GetCallbackChecker.new self._tables row_reader, w') cs).2.2.log
            = dispatched w.log ++ List.range m)) ∧
    (∀ (w : RdWorld) (row_readers : List Nat), ∃ (w' : RdWorld) (chain : List (Nat × List Nat)),
      (∀ random, self.Get_list FLAGS random w row_readers = some w') ∧
      submitted w'.log = submitted w.log ++ chain ∧
      ∀ r, ∃ m, m ≤ self._tables.length ∧
        (chain.filter (fun p => decide (r ∈ p.2))).map Prod.fst = List.range m) ∧
    (∀ run ∈ [HATableImpl.Get_string, HATableImpl.Get_int64], ∀ (err : ErrorCode), ∃ res,
      (∀ random, run self FLAGS random err = some res) ∧
      ∃ m, m ≤ self._tables.length ∧ invoked res.log = List.range m) := by
  refine ⟨fun random => table_set_off self FLAGS random hoff, ?_, ?_, ?_⟩
  · intro w row_reader
    refine ⟨_, fun random => Get_off self FLAGS random w row_reader hoff, ?_, ?_⟩
    · intro hsync
      obtain ⟨m, hm, h⟩ := Get_loop_prefix self._tables.length row_reader self._tables 0 0 w
      exact ⟨m, hm, by simp [hsync, h, List.range_eq_range']⟩
    · intro hasync hne
      have hpos : 0 < self._tables.length := List.length_pos.2 hne
      simp only [hasync, if_true, gt_iff_lt, hpos]
      refine ⟨by simp [RdWorld.dispatch, RdWorld.SetCallChecker], fun cs => ?_⟩
      obtain ⟨m, hm, h⟩ := get_feed_prefix cs (GetCallbackChecker.new self._tables row_reader)
        ((w.SetCallChecker row_reader
          (CallChecker.get (GetCallbackChecker.new self._tables row_reader))).dispatch 0
            row_reader)
      simp only [GetCallbackChecker.new, Nat.zero_add] at hm h
      refine ⟨m + 1, ?_, ?_⟩
      · rcases hm with rfl | hm <;> omega
      · simp only [GetCallbackChecker.new]
        rw [h, List.range_eq_range', List.range'_succ]
        simp [RdWorld.dispatch, RdWorld.SetCallChecker, dispatched_append, dispatched]
  · intro w row_readers
    obtain ⟨w', chain, h1, h2, h3, h4, h5⟩ := Get_list_off self FLAGS w row_readers hoff
    refine ⟨w', chain, h1, h2, fun r => ?_⟩
    obtain ⟨m, hm, _⟩ := chain_prefix r chain 0 h3 h4
    refine ⟨m, ?_, by rw [hm, List.range_eq_range']⟩
    cases m with
    | zero => exact Nat.zero_le _
    | succ k =>
      have hk : k ∈ (chain.filter (fun p => decide (r ∈ p.2))).map Prod.fst := by
        rw [hm]
        simp [List.mem_range']
      obtain ⟨p, hp, hpk⟩ := List.mem_map.1 hk
      have := h5 p (List.mem_filter.1 hp).1
      omega
  · intro run hrun err
    have hboth : ∀ op : TableImpl → Bool × ErrorCode, ∃ res,
        (∀ random, self.Get_scalar FLAGS random op err = some res) ∧
        ∃ m, m ≤ self._tables.length ∧ invoked res.log = List.range m := by
      intro op
      obtain ⟨m, hm, h⟩ := Get_scalar_loop_prefix op self._tables 0 ⟨0, err, []⟩
      refine ⟨⟨if (HATableImpl.Get_scalar_loop op self._tables 0 ⟨0, err, []⟩).failed_count
            >= self._tables.length then false else true,
          (HATableImpl.Get_scalar_loop op self._tables 0 ⟨0, err, []⟩).err,
          (HATableImpl.Get_scalar_loop op self._tables 0 ⟨0, err, []⟩).log⟩,
        fun random => ?_, m, hm, ?_⟩
      · simp only [HATableImpl.Get_scalar, table_set_off self FLAGS random hoff,
          Option.bind_eq_bind, Option.some_bind]
      · simpa [invoked, List.range_eq_range'] using h
    simp only [List.mem_cons, List.mem_singleton, List.not_mem_nil, or_false] at hrun
    rcases hrun with rfl | rfl
    · exact hboth TableImpl.Get_string
    · exact hboth TableImpl.Get_int64

/-- Witness of C24: three replicas of which only the second answers reader 11, random mode off;
the synchronous `Get` returns whatever the random source is. -/
theorem Get_construction_order_witness :
    flags_default.tera_sdk_ha_get_random_mode = false ∧
    (∀ random, (HATableImpl.mk [dead, knows_B, dead_too]).table_set flags_default random
      = some [dead, knows_B, dead_too]) ∧
    ∃ w', ∀ random, (HATableImpl.mk [dead, knows_B, dead_too]).Get flags_default random
      sync_readers 11 = some w' :=
  ⟨rfl, (Get_construction_order (HATableImpl.mk [dead, knows_B, dead_too]) flags_default rfl).1,
    ((Get_construction_order (HATableImpl.mk [dead, knows_B, dead_too]) flags_default
      rfl).2.1 sync_readers 11).imp (fun _ h => h.1)⟩

/-! ## `Scan` (C25) -/

theorem Scan_loop_first (pre : List TableImpl) (t : TableImpl) (post : List TableImpl)
    (i : Nat) (err : ErrorCode) (log : List Event)
    (hpre : ∀ u ∈ pre, u.Scan.1 = none) (ht : t.Scan.1 ≠ none) :
    HATableImpl.Scan_loop (pre ++ t :: post) i err log
      = (t.Scan.1, t.Scan.2,
         log ++ (List.range' i (pre.length + 1)).map (fun k => Event.invoke k [])) := by
  induction pre generalizing i err log with
  | nil => simp [HATableImpl.Scan_loop, ht]
  | cons u pre ih =>
    have hu : u.Scan.1 = none := hpre u (by simp)
    rw [List.cons_append, HATableImpl.Scan_loop]
    simp only [hu, if_true]
    rw [ih (i + 1) _ _ (fun v hv => hpre v (by simp [hv]))]
    simp [List.range'_succ i]

theorem Scan_loop_none (ts : List TableImpl) (i : Nat) (err : ErrorCode) (log : List Event)
    (hall : ∀ u ∈ ts, u.Scan.1 = none) :
    (HATableImpl.Scan_loop ts i err log).1 = none ∧
    (HATableImpl.Scan_loop ts i err log).2.2
      = log ++ (List.range' i ts.length).map (fun k => Event.invoke k []) := by
  induction ts generalizing i err log with
  | nil => simp [HATableImpl.Scan_loop]
  | cons u ts ih =>
    have hu : u.Scan.1 = none := hall u (by simp)
    rw [HATableImpl.Scan_loop]
    simp only [hu, if_true]
    obtain ⟨h1, h2⟩ := ih (i + 1) u.Scan.2 (log ++ [Event.invoke i []])
      (fun v hv => hall v (by simp [hv]))
    exact ⟨h1, by rw [h2]; simp [List.range'_succ i]⟩

theorem invoked_map_invoke (l : List Nat) :
    invoked (l.map (fun k => Event.invoke k [])) = l := by
  induction l with
  | nil => rfl
  | cons a l ih => simp [invoked, ih]

/-- C25. `Scan` on any replica list: if replica `i` is the first whose `Scan` returns a
non-null stream, that stream is returned, the replicas invoked are exactly `0..i` and the error
is the one replica `i` left; the result is null exactly when every replica returned null (the
empty list included), and then every replica was invoked. -/
theorem Scan_first_stream (self : HATableImpl) (err : ErrorCode) :
    (∀ pre t post, self._tables = pre ++ t :: post → (∀ u ∈ pre, u.Scan.1 = none) →
      t.Scan.1 ≠ none →
      (self.Scan err).1 = t.Scan.1 ∧ (self.Scan err).2.1 = t.Scan.2 ∧
      invoked (self.Scan err).2.2 = List.range (pre.length + 1)) ∧
    ((self.Scan err).1 = none ↔ ∀ t ∈ self._tables, t.Scan.1 = none) ∧
    ((∀ t ∈ self._tables, t.Scan.1 = none) →
      invoked (self.Scan err).2.2 = List.range self._tables.length) := by
  have hsucc : ∀ pre t post, self._tables = pre ++ t :: post → (∀ u ∈ pre, u.Scan.1 = none) →
      t.Scan.1 ≠ none →
      (self.Scan err).1 = t.Scan.1 ∧ (self.Scan err).2.1 = t.Scan.2 ∧
      invoked (self.Scan err).2.2 = List.range (pre.length + 1) := by
    intro pre t post hsplit hpre ht
    unfold HATableImpl.Scan
    rw [hsplit, Scan_loop_first pre t post 0 err [] hpre ht]
    exact ⟨rfl, rfl, by simp [invoked_map_invoke, List.range_eq_range']⟩
  have hfail : (∀ t ∈ self._tables, t.Scan.1 = none) →
      (self.Scan err).1 = none ∧
      invoked (self.Scan err).2.2 = List.range self._tables.length := by
    intro hall
    obtain ⟨h1, h2⟩ := Scan_loop_none self._tables 0 err [] hall
    unfold HATableImpl.Scan
    exact ⟨h1, by rw [h2]; simp [invoked_map_invoke, List.range_eq_range']⟩
  refine ⟨hsucc, ⟨?_, fun hall => (hfail hall).1⟩, fun hall => (hfail hall).2⟩
  intro hnone
  by_contra hex
  push_neg at hex
  obtain ⟨t, ht, htn⟩ := hex
  obtain ⟨pre, t', post, hsplit, hpre, ht'⟩ := exists_first
    (fun t : TableImpl => t.Scan.1 ≠ none) self._tables ⟨t, ht, htn⟩
  rw [(hsucc pre t' post hsplit (fun u hu => by simpa using hpre u hu) ht').1] at hnone
  exact ht' hnone

/-- Witness of C25: three replicas, the first returns null, the second returns stream 7, the
third would return stream 0; stream 7 is returned and the third replica is not invoked. With
no replica the result is null. -/
theorem Scan_first_stream_witness :
    ((HATableImpl.mk [dead, streaming, healthy]).Scan down).1 = some 7 ∧
    invoked ((HATableImpl.mk [dead, streaming, healthy]).Scan down).2.2 = [0, 1] ∧
    ((HATableImpl.mk []).Scan down).1 = none := by
  have h := Scan_first_stream (HATableImpl.mk [dead, streaming, healthy]) down
  have h1 := h.1 [dead] streaming [healthy] rfl (by simp [dead]) (by simp [streaming])
  exact ⟨h1.1, h1.2.2, ((Scan_first_stream (HATableImpl.mk []) down).2.1).2 (by simp)⟩

/-! ## Equal timestamps from two replicas (C26) -/

/-- C26 at its failing input: replica 0 returns one cell with timestamp 100, replica 1 returns
cells with timestamps 100 and 50, the window is 5. Each input is newest-first. The first two
emitted cells have the same timestamp and come from different replicas: the first is held by
replica 0 only, the second by replica 1 only. The cursor of replica 1 is not advanced when the
cell of replica 0 is chosen, because the advancing loop ends at the chosen replica. -/
theorem MergeResult_tie_across_replicas :
    (∀ r ∈ [[cell 100 "zero"], [cell 100 "one", cell 50 "older"]],
      (r.map KeyValuePair.timestamp).Sorted (· ≥ ·)) ∧
    flags_default.tera_sdk_ha_timestamp_diff ≥ 1 ∧
    HATableImpl.MergeResult flags_default
      [[cell 100 "zero"], [cell 100 "one", cell 50 "older"]] [] 3
      = [cell 100 "zero", cell 100 "one", cell 50 "older"] ∧
    (cell 100 "zero").timestamp = (cell 100 "one").timestamp ∧
    cell 100 "zero" ∈ [cell 100 "zero"] ∧
    cell 100 "zero" ∉ [cell 100 "one", cell 50 "older"] ∧
    cell 100 "one" ∈ [cell 100 "one", cell 50 "older"] ∧
    cell 100 "one" ∉ [cell 100 "zero"] := by
  decide

/-! ## Asynchronous `LGet`: when and what it merges (C27) -/

theorem lget_complete_pending (FLAGS : Flags) (chk : LGetCallbackChecker) (w : RdWorld)
    (c : Completion) (hc : chk._has_call = false)
    (hlt : chk._cluster_index + 1 < chk._clusters.length) :
    LGetCallbackChecker.complete FLAGS (chk, w) c
      = (false,
         { chk with
           _cluster_index := chk._cluster_index + 1,
           _results := chk._results
             ++ (if c.code = ErrorCodeType.kOK then [c.result] else []) },
         ((w.completed chk._row_reader c).Reset chk._row_reader).dispatch
           (chk._cluster_index + 1) chk._row_reader) := by
  have hn : ¬ chk._clusters.length ≤ chk._cluster_index + 1 := by omega
  by_cases hcode : c.code = ErrorCodeType.kOK
  · simp [LGetCallbackChecker.complete, LGetCallbackChecker.NeedCall, hc, hcode, hn,
      RdWorld.completed]
  · simp [LGetCallbackChecker.complete, LGetCallbackChecker.NeedCall, hc, hcode, hn]

theorem lget_complete_final (FLAGS : Flags) (chk : LGetCallbackChecker) (w : RdWorld)
    (c : Completion) (hc : chk._has_call = false)
    (hge : chk._clusters.length ≤ chk._cluster_index + 1) :
    (LGetCallbackChecker.complete FLAGS (chk, w) c).1 = true ∧
    (LGetCallbackChecker.complete FLAGS (chk, w) c).2.2.log = w.log ∧
    (LGetCallbackChecker.complete FLAGS (chk, w) c).2.2.GetResult chk._row_reader
      = (if chk._results ++ (if c.code = ErrorCodeType.kOK then [c.result] else []) ≠ [] then
          HATableImpl.MergeResult FLAGS
            (chk._results ++ (if c.code = ErrorCodeType.kOK then [c.result] else [])) []
            (w.GetMaxVersions chk._row_reader)
         else c.result) := by
  by_cases hcode : c.code = ErrorCodeType.kOK
  · simp [LGetCallbackChecker.complete, LGetCallbackChecker.NeedCall, hc, hcode, hge,
      RdWorld.completed, RdWorld.SetResult]
  · by_cases hr : chk._results = []
    · simp [LGetCallbackChecker.complete, LGetCallbackChecker.NeedCall, hc, hcode, hge,
        RdWorld.completed, RdWorld.SetResult, hr]
    · have hpos : 0 < chk._results.length := List.length_pos.2 hr
      simp [LGetCallbackChecker.complete, LGetCallbackChecker.NeedCall, hc, hcode, hge,
        RdWorld.completed, RdWorld.SetResult, hr, hpos]

theorem lget_feed_pending (FLAGS : Flags) (cs : List Completion) (chk : LGetCallbackChecker)
    (w : RdWorld) (hc : chk._has_call = false)
    (hlt : chk._cluster_index + cs.length < chk._clusters.length) :
    (feed (LGetCallbackChecker.complete FLAGS) (chk, w) cs).1
      = List.replicate cs.length false ∧
    (feed (LGetCallbackChecker.complete FLAGS) (chk, w) cs).2.1
      = { chk with
          _cluster_index := chk._cluster_index + cs.length,
          _results := chk._results
            ++ (cs.filter (fun c => decide (c.code = ErrorCodeType.kOK))).map
                 Completion.result } ∧
    (feed (LGetCallbackChecker.complete FLAGS) (chk, w) cs).2.2.log
      = w.log ++ (List.range' (chk._cluster_index + 1) cs.length).flatMap
          (fun i => [Event.reset chk._row_reader, Event.dispatch i chk._row_reader]) ∧
    (feed (LGetCallbackChecker.complete FLAGS) (chk, w) cs).2.2.GetMaxVersions
      = w.GetMaxVersions := by
  induction cs generalizing chk w with
  | nil => simp [feed]
  | cons c cs ih =>
    simp only [List.length_cons] at hlt
    have hstep := lget_complete_pending FLAGS chk w c hc (by omega)
    obtain ⟨i1, i2, i3, i4⟩ := ih
      { chk with
        _cluster_index := chk._cluster_index + 1,
        _results := chk._results ++ (if c.code = ErrorCodeType.kOK then [c.result] else []) }
      (((w.completed chk._row_reader c).Reset chk._row_reader).dispatch
        (chk._cluster_index + 1) chk._row_reader) hc (by simp only; omega)
    simp only [feed, hstep, i1, i2, i3, i4, List.length_cons, List.replicate_succ, true_and,
      List.range'_succ, List.flatMap_cons]
    refine ⟨?_, ?_, ?_⟩
    · by_cases hcode : c.code = ErrorCodeType.kOK
      · simp [hcode, List.filter_cons]
        omega
      · simp [hcode, List.filter_cons]
        omega
    · simp [RdWorld.dispatch, RdWorld.Reset, RdWorld.completed]
    · simp [RdWorld.dispatch, RdWorld.Reset, RdWorld.completed]

theorem lget_feed_all (FLAGS : Flags) (clusters : List TableImpl) (w : RdWorld)
    (row_reader : Nat) (init : List Completion) (last : Completion)
    (hN : init.length + 1 = clusters.length) :
    (feed (LGetCallbackChecker.complete FLAGS)
      (LGetCallbackChecker.new clusters row_reader, w) (init ++ [last])).1
      = List.replicate init.length false ++ [true] ∧
    (feed (LGetCallbackChecker.complete FLAGS)
      (LGetCallbackChecker.new clusters row_reader, w) (init ++ [last])).2.2.log
      = w.log ++ (List.range' 1 init.length).flatMap
          (fun i => [Event.reset row_reader, Event.dispatch i row_reader]) ∧
    (feed (LGetCallbackChecker.complete FLAGS)
      (LGetCallbackChecker.new clusters row_reader, w) (init ++ [last])).2.2.GetResult row_reader
      = (if ((init ++ [last]).filter (fun c => decide (c.code = ErrorCodeType.kOK))).map
            Completion.result ≠ [] then
          HATableImpl.MergeResult FLAGS
            (((init ++ [last]).filter (fun c => decide (c.code = ErrorCodeType.kOK))).map
              Completion.result) [] (w.GetMaxVersions row_reader)
         else last.result) := by
  obtain ⟨i1, i2, i3, i4⟩ := lget_feed_pending FLAGS init
    (LGetCallbackChecker.new clusters row_reader) w rfl
    (by simp only [LGetCallbackChecker.new]; omega)
  rw [feed_append]
  rcases hS : feed (LGetCallbackChecker.complete FLAGS)
    (LGetCallbackChecker.new clusters row_reader, w) init with ⟨fl, ck, w0⟩
  rw [hS] at i1 i2 i3 i4
  simp only at i1 i2 i3 i4
  obtain ⟨f1, f2, f3⟩ := lget_complete_final FLAGS ck w0 last
    (by rw [i2]; rfl) (by rw [i2]; simp only [LGetCallbackChecker.new]; omega)
  have hrow : ck._row_reader = row_reader := by rw [i2]; rfl
  have hres : ck._results
      = (init.filter (fun c => decide (c.code = ErrorCodeType.kOK))).map Completion.result := by
    rw [i2]
    simp [LGetCallbackChecker.new]
  rw [hrow, hres, i4] at f3
  simp only [feed, List.append_nil, f1, f2, f3, i1, i3, LGetCallbackChecker.new, Nat.zero_add,
    true_and]
  by_cases hcode : last.code = ErrorCodeType.kOK
  · simp [hcode, List.filter_append]
  · simp [hcode, List.filter_append]

/-- C27. Asynchronous `LGet` over `N ≥ 1` replicas. `LGet` attaches a fresh
`LGetCallbackChecker` over `_tables` and dispatches to replica 0. Fed `N` completions with
arbitrary codes, `NeedCall` returns false on each of the first `N - 1` and true on the `N`-th;
each of the first `N - 1` resets the reader and dispatches to the next replica, and the last
one dispatches nothing; at that point the result of the reader is `MergeResult` of the results
captured at the OK completions, in replica order, capped at the reader's `max_versions`, if
there was an OK completion, and otherwise what the last completion left in the reader. -/
theorem async_LGet_merge_on_last (self : HATableImpl) (FLAGS : Flags) (w : RdWorld)
    (row_reader : Nat) (init : List Completion) (last : Completion)
    (hasync : w.IsAsync row_reader = true) (hN : init.length + 1 = self._tables.length) :
    (self.LGet FLAGS w row_reader).call_checker row_reader
      = some (CallChecker.lget (LGetCallbackChecker.new self._tables row_reader)) ∧
    (self.LGet FLAGS w row_reader).log = w.log ++ [Event.dispatch 0 row_reader] ∧
    (feed (LGetCallbackChecker.complete FLAGS)
      (LGetCallbackChecker.new self._tables row_reader, self.LGet FLAGS w row_reader)
      (init ++ [last])).1 = List.replicate init.length false ++ [true] ∧
    (feed (LGetCallbackChecker.complete FLAGS)
      (LGetCallbackChecker.new self._tables row_reader, self.LGet FLAGS w row_reader)
      (init ++ [last])).2.2.log
      = w.log ++ [Event.dispatch 0 row_reader] ++ (List.range' 1 init.length).flatMap
          (fun i => [Event.reset row_reader, Event.dispatch i row_reader]) ∧
    (feed (LGetCallbackChecker.complete FLAGS)
      (LGetCallbackChecker.new self._tables row_reader, self.LGet FLAGS w row_reader)
      (init ++ [last])).2.2.GetResult row_reader
      = (if ((init ++ [last]).filter (fun c => decide (c.code = ErrorCodeType.kOK))).map
            Completion.result ≠ [] then
          HATableImpl.MergeResult FLAGS
            (((init ++ [last]).filter (fun c => decide (c.code = ErrorCodeType.kOK))).map
              Completion.result) [] (w.GetMaxVersions row_reader)
         else last.result) := by
  have hpos : 0 < self._tables.length := by omega
  have hL : self.LGet FLAGS w row_reader
      = (w.SetCallChecker row_reader
          (CallChecker.lget (LGetCallbackChecker.new self._tables row_reader))).dispatch 0
            row_reader := by
    simp [HATableImpl.LGet, hasync, hpos]
  obtain ⟨h1, h2, h3⟩ := lget_feed_all FLAGS self._tables (self.LGet FLAGS w row_reader)
    row_reader init last hN
  refine ⟨?_, ?_, h1, ?_, ?_⟩
  · rw [hL]
    simp [RdWorld.dispatch, RdWorld.SetCallChecker]
  · rw [hL]
    simp [RdWorld.dispatch, RdWorld.SetCallChecker]
  · rw [h2, hL]
    simp [RdWorld.dispatch, RdWorld.SetCallChecker]
  · rw [h3, hL]
    simp [RdWorld.dispatch, RdWorld.SetCallChecker]

/-- Witness of C27, three replicas: the first completes OK with `result_A`, the second fails,
the third completes OK with `result_B`; the callback is released at the third completion and
the reader holds the merge of `result_A` and `result_B`. -/
theorem async_LGet_merge_on_last_witness :
    async_readers.IsAsync 11 = true ∧
    [Completion.of ErrorCode.ok result_A, Completion.of timeout []].length + 1
      = (HATableImpl.mk [healthy, dead, healthy])._tables.length ∧
    (feed (LGetCallbackChecker.complete flags_default)
      (LGetCallbackChecker.new [healthy, dead, healthy] 11,
        (HATableImpl.mk [healthy, dead, healthy]).LGet flags_default async_readers 11)
      ([Completion.of ErrorCode.ok result_A, Completion.of timeout []]
        ++ [Completion.of ErrorCode.ok result_B])).1 = [false, false, true] ∧
    (feed (LGetCallbackChecker.complete flags_default)
      (LGetCallbackChecker.new [healthy, dead, healthy] 11,
        (HATableImpl.mk [healthy, dead, healthy]).LGet flags_default async_readers 11)
      ([Completion.of ErrorCode.ok result_A, Completion.of timeout []]
        ++ [Completion.of ErrorCode.ok result_B])).2.2.GetResult 11
      = HATableImpl.MergeResult flags_default [result_A, result_B] [] 3 := by
  have h := async_LGet_merge_on_last (HATableImpl.mk [healthy, dead, healthy]) flags_default
    async_readers 11 [Completion.of ErrorCode.ok result_A, Completion.of timeout []]
    (Completion.of ErrorCode.ok result_B) rfl rfl
  exact ⟨rfl, rfl, h.2.2.1, by rw [h.2.2.2.2]; decide⟩

/-! ## `ShuffleArray` is a permutation (C28) -/

theorem ShuffleArray_indices_bound (random : Nat → Nat) (i k n : Nat) (hi : i < n)
    (hsize : n < 2 ^ 64) :
    ∀ p ∈ HATableImpl.ShuffleArray_indices random i k, p.1 ≤ p.2 ∧ p.2 < n := by
  induction i generalizing k with
  | zero => simp [HATableImpl.ShuffleArray_indices]
  | succ i ih =>
    intro p hp
    rw [HATableImpl.ShuffleArray_indices] at hp
    rcases List.mem_cons.1 hp with rfl | hp'
    · have hmod : (i + 1 + 1) % 2 ^ 64 = i + 1 + 1 := Nat.mod_eq_of_lt (by omega)
      have := Nat.mod_lt (random k % 2 ^ 31) (show 0 < i + 1 + 1 by omega)
      simp only [hmod]
      omega
    · exact ih (k + 1) (by omega) p hp'

theorem ShuffleArray_start {α : Type} (table_set : List α) (hne : table_set ≠ [])
    (hsize : table_set.length < 2 ^ 64) :
    (table_set.length + 2 ^ 64 - 1) % 2 ^ 64 = table_set.length - 1 := by
  have hpos : 0 < table_set.length := List.length_pos.2 hne
  have : table_set.length + 2 ^ 64 - 1 = (table_set.length - 1) + 2 ^ 64 := by omega
  rw [this, Nat.add_mod_right, Nat.mod_eq_of_lt (by omega)]

/-- C28. `ShuffleArray` on a non-empty list (of a size a `size_t` can hold), for every sequence
of values of `random()`: the call returns, that is no remainder is taken modulo zero and no
element outside the vector is touched; every pair of positions that is swapped lies within the
vector; the result is a permutation of the input, hence has its length and its elements with
their multiplicities; and a one-element list is returned as it is. -/
theorem ShuffleArray_permutation {α : Type} (random : Nat → Nat) (table_set : List α)
    (hne : table_set ≠ []) (hsize : table_set.length < 2 ^ 64) :
    ∃ l, HATableImpl.ShuffleArray random table_set = some l ∧
      l.Perm table_set ∧ l.length = table_set.length ∧
      (∀ p ∈ HATableImpl.ShuffleArray_indices random
          ((table_set.length + 2 ^ 64 - 1) % 2 ^ 64) 0,
        p.1 < table_set.length ∧ p.2 < table_set.length) ∧
      (table_set.length = 1 → l = table_set) := by
  obtain ⟨l, hl, hp⟩ := ShuffleArray_perm random table_set hne hsize
  have hpos : 0 < table_set.length := List.length_pos.2 hne
  have hstart := ShuffleArray_start table_set hne hsize
  refine ⟨l, hl, hp, hp.length_eq, ?_, ?_⟩
  · intro p hp'
    rw [hstart] at hp'
    have := ShuffleArray_indices_bound random (table_set.length - 1) 0 table_set.length
      (by omega) hsize p hp'
    omega
  · intro h1
    unfold HATableImpl.ShuffleArray at hl
    rw [hstart, h1] at hl
    simpa [HATableImpl.ShuffleArray_loop] using hl.symm

/-- Witness of C28: three replicas and a random source that always yields 1. -/
theorem ShuffleArray_permutation_witness :
    [healthy, dead, dead_too] ≠ [] ∧ [healthy, dead, dead_too].length < 2 ^ 64 ∧
    ∃ l, HATableImpl.ShuffleArray (fun _ => 1) [healthy, dead, dead_too] = some l ∧
      l.Perm [healthy, dead, dead_too] ∧ l.length = 3 :=
  ⟨List.cons_ne_nil _ _, by decide,
    (ShuffleArray_permutation (fun _ => 1) [healthy, dead, dead_too] (List.cons_ne_nil _ _)
      (by decide)).imp (fun _ h => ⟨h.1, h.2.1, h.2.2.1⟩)⟩

/-! ## `ShuffleArray` on the empty list (C29) -/

/-- C29 at its failing input, a table without replicas in random mode: `size() - 1` is
`2^64 - 1` in `size_t`, which is greater than 0, so the loop body is entered; there `i + 1`
wraps to 0 and `random() % (i + 1)` is a remainder modulo zero. No result is produced, for
`ShuffleArray` itself and for every `Get` variant that calls it. -/
theorem ShuffleArray_empty_underflow :
    ((([] : List TableImpl).length + 2 ^ 64 - 1) % 2 ^ 64 = 2 ^ 64 - 1) ∧
    (2 ^ 64 - 1 + 1) % 2 ^ 64 = 0 ∧
    (∀ random : Nat → Nat, HATableImpl.ShuffleArray random ([] : List TableImpl) = none) ∧
    (∀ random, (HATableImpl.mk []).Get flags_random random sync_readers 11 = none) ∧
    (∀ random, (HATableImpl.mk []).Get_list flags_random random sync_readers [11] = none) ∧
    (∀ random, (HATableImpl.mk []).Get_string flags_random random down = none) ∧
    (HATableImpl.mk []).Get flags_default (fun _ => 0) sync_readers 11 = some sync_readers := by
  have hs : ∀ random : Nat → Nat,
      HATableImpl.ShuffleArray random ([] : List TableImpl) = none := by
    intro random
    have h : (([] : List TableImpl).length + 2 ^ 64 - 1) % 2 ^ 64 = (2 ^ 64 - 2) + 1 := by
      norm_num
    unfold HATableImpl.ShuffleArray
    rw [h, HATableImpl.ShuffleArray_loop]
    norm_num
  have ht : ∀ random : Nat → Nat,
      (HATableImpl.mk []).table_set flags_random random = none := by
    intro random
    simp [HATableImpl.table_set, flags_random, hs]
  refine ⟨by norm_num, by norm_num, hs, ?_, ?_, ?_, rfl⟩
  · intro random
    simp [HATableImpl.Get, ht]
  · intro random
    simp [HATableImpl.Get_list, ht]
  · intro random
    simp [HATableImpl.Get_string, HATableImpl.Get_scalar, ht]

/-! ## Bounds of the failure counters of the batched `ApplyMutation` (C30) -/

theorem ApplyMutation_list_inspect_bounds (size i : Nat) (rows : List Nat) (l : List Nat)
    (w : MuWorld) :
    (i < l.length → ∃ s, HATableImpl.ApplyMutation_list_inspect size i rows l w = some s ∧
      s.1.length = l.length) ∧
    (l.length ≤ i → rows ≠ [] →
      HATableImpl.ApplyMutation_list_inspect size i rows l w = none) := by
  induction rows generalizing l w with
  | nil =>
    exact ⟨fun _ => ⟨(l, w), by simp [HATableImpl.ApplyMutation_list_inspect]⟩,
      fun _ h => absurd rfl h⟩
  | cons r rest ih =>
    constructor
    · intro hi
      rw [HATableImpl.ApplyMutation_list_inspect]
      split
      · simp only [incr_at, List.getElem?_eq_getElem hi, Option.map_some', Option.bind_eq_bind,
          Option.some_bind, List.getElem?_set_self hi]
        obtain ⟨s, hs, hl⟩ := (ih (l.set i (l[i] + 1)) _).1
          (by simpa only [List.length_set] using hi)
        exact ⟨s, hs, by rw [hl, List.length_set]⟩
      · simp only [List.getElem?_eq_getElem hi, Option.bind_eq_bind, Option.some_bind]
        exact (ih l _).1 hi
    · intro hi _
      have hnone : l[i]? = none := List.getElem?_eq_none hi
      rw [HATableImpl.ApplyMutation_list_inspect]
      split
      · simp [incr_at, hnone]
      · simp [hnone]

theorem ApplyMutation_list_loop_bounds (size : Nat) (sync_mu : List Nat) (hs : sync_mu ≠ [])
    (ts : List TableImpl) (i : Nat) (l : List Nat) (w : MuWorld) (hil : i ≤ l.length) :
    (i + ts.length ≤ l.length →
      ∃ s, HATableImpl.ApplyMutation_list_loop size sync_mu ts i l w = some s) ∧
    (l.length < i + ts.length →
      HATableImpl.ApplyMutation_list_loop size sync_mu ts i l w = none) := by
  induction ts generalizing i l w with
  | nil =>
    exact ⟨fun _ => ⟨(l, w), rfl⟩, fun h => by simp only [List.length_nil] at h; omega⟩
  | cons t ts ih =>
    simp only [List.length_cons]
    by_cases hi : i < l.length
    · obtain ⟨s, h1, h2⟩ := (ApplyMutation_list_inspect_bounds size i sync_mu l
        (w.call t i sync_mu)).1 hi
      rw [HATableImpl.ApplyMutation_list_loop]
      simp only [h1, Option.bind_eq_bind, Option.some_bind]
      obtain ⟨a, b⟩ := ih (i + 1) s.1 s.2 (by omega)
      rw [h2] at a b
      exact ⟨fun h => a (by omega), fun h => b (by omega)⟩
    · have h1 := (ApplyMutation_list_inspect_bounds size i sync_mu l
        (w.call t i sync_mu)).2 (by omega) hs
      rw [HATableImpl.ApplyMutation_list_loop]
      simp only [h1, Option.bind_eq_bind, Option.none_bind]
      exact ⟨fun h => by omega, fun _ => trivial⟩

/-- C30, as the code has it. The failure-counter list has one slot per row of the batch and is
indexed with the replica index `i`: for a batch with at least one synchronous mutation, an
index leaves the list (no result is produced) exactly when the table has more replicas than
the batch has rows. -/
theorem ApplyMutation_list_counter_out_of_range (self : HATableImpl) (w : MuWorld)
    (row_mu_list : List Nat) (hsync : ∃ r ∈ row_mu_list, w.IsAsync r = false) :
    self.ApplyMutation_list w row_mu_list = none ↔
      row_mu_list.length < self._tables.length := by
  obtain ⟨r, hr, hrs⟩ := hsync
  have hmem : r ∈ row_mu_list.filter (fun r => !w.IsAsync r) :=
    List.mem_filter.2 ⟨hr, by simp [hrs]⟩
  have hne : row_mu_list.filter (fun r => !w.IsAsync r) ≠ [] := List.ne_nil_of_mem hmem
  have hlen : ¬ (row_mu_list.filter (fun r => !w.IsAsync r)).length ≤ 0 := by
    have := List.length_pos.2 hne
    omega
  obtain ⟨a, b⟩ := ApplyMutation_list_loop_bounds self._tables.length
    (row_mu_list.filter (fun r => !w.IsAsync r)) hne self._tables 0
    (List.replicate row_mu_list.length 0)
    ((row_mu_list.filter (fun r => w.IsAsync r)).foldl (fun w r => self.ApplyMutation w r) w)
    (Nat.zero_le _)
  simp only [List.length_replicate, Nat.zero_add] at a b
  simp only [HATableImpl.ApplyMutation_list, if_neg hlen, Option.bind_eq_bind, Option.pure_def]
  constructor
  · intro hnone
    by_contra hge
    obtain ⟨s, hs⟩ := a (by omega)
    rw [hs] at hnone
    simp at hnone
  · intro hlt
    rw [b hlt]
    rfl

/-- C30 at its failing input: a batch of one synchronous mutation (10) on a table of two healthy
replicas. The counter list has one slot; after replica 1 has answered, the test
`failed_count_list[i] < _tables.size()` reads slot `i = 1`, which is outside the list. -/
theorem ApplyMutation_list_counter_out_of_range_witness :
    (∃ r ∈ [10], sync_mutations.IsAsync r = false) ∧
    (List.replicate [10].length 0)[1]? = none ∧
    (HATableImpl.mk [healthy, healthy]).ApplyMutation_list sync_mutations [10] = none :=
  ⟨⟨10, List.mem_singleton.2 rfl, rfl⟩, by decide,
    (ApplyMutation_list_counter_out_of_range (HATableImpl.mk [healthy, healthy]) sync_mutations
      [10] ⟨10, List.mem_singleton.2 rfl, rfl⟩).2 (by decide)⟩

/-! ## `MergeResult` emits input cells, in per-replica order (C31) -/

theorem MergeResult_advance_bound (results : List RowResult) (timestamp_diff : Int)
    (c : Nat) (timestamp : Int) (n j : Nat) (pos : List Nat)
    (hb : ∀ k, pos.getD k 0 ≤ (results.getD k []).length) :
    ∀ k, (HATableImpl.MergeResult_advance results timestamp_diff c timestamp n j pos).getD k 0
      ≤ (results.getD k []).length := by
  induction n generalizing j pos with
  | zero => simpa [HATableImpl.MergeResult_advance] using hb
  | succ n ih =>
    rw [HATableImpl.MergeResult_advance]
    split
    · apply ih
      intro k
      cases hcell : (results.getD j [])[pos.getD j 0]? with
      | none => exact hb k
      | some kv =>
        have hlt : pos.getD j 0 < (results.getD j []).length :=
          (List.getElem?_eq_some.1 hcell).1
        simp only
        split
        · rw [getD_set_nat]
          split
          · rename_i hk
            rw [hk.1]
            omega
          · exact hb k
        · exact hb k
    · exact hb

theorem sorted_lookup_sublist {α : Type} (r : List α) (ps : List Nat) (k : Nat)
    (hs : ps.Sorted (· < ·)) (hk : ∀ p ∈ ps, k ≤ p) :
    (ps.filterMap (fun p => r[p]?)).Sublist (r.drop k) := by
  induction ps generalizing k with
  | nil => simp
  | cons p ps ih =>
    have hs' : ps.Sorted (· < ·) := (List.sorted_cons.1 hs).2
    have hp : ∀ q ∈ ps, p + 1 ≤ q := fun q hq => (List.sorted_cons.1 hs).1 q hq
    have hkp : k ≤ p := hk p (by simp)
    cases hcell : r[p]? with
    | none =>
      rw [List.filterMap_cons, hcell]
      exact ih k hs' (fun q hq => le_trans hkp (le_trans (Nat.le_succ p) (hp q hq)))
    | some x =>
      have hlt : p < r.length := (List.getElem?_eq_some.1 hcell).1
      have hx : r[p] = x := (List.getElem?_eq_some.1 hcell).2
      rw [List.filterMap_cons, hcell]
      have hdrop : r.drop p = x :: r.drop (p + 1) := by
        rw [← hx]
        exact List.drop_eq_getElem_cons hlt
      have h1 : (x :: ps.filterMap (fun p => r[p]?)).Sublist (r.drop p) := by
        rw [hdrop]
        exact (ih (p + 1) hs' hp).cons₂ x
      have h2 : (r.drop p).Sublist (r.drop k) := by
        exact List.drop_sublist_drop_left r hkp
      exact h1.trans h2

theorem MergeResult_loop_trace (results : List RowResult) (timestamp_diff : Int) (n : Nat)
    (pos : List Nat) (res : RowResult) (hlen : pos.length = results.length) :
    ∃ trace : List (Nat × Nat),
      trace.length ≤ n ∧
      (HATableImpl.MergeResult_loop results timestamp_diff n pos res).1
        = res ++ trace.filterMap (fun cp => (results.getD cp.1 [])[cp.2]?) ∧
      (∀ cp ∈ trace, cp.2 < (results.getD cp.1 []).length ∧ pos.getD cp.1 0 ≤ cp.2 ∧
        cp.2 < (HATableImpl.MergeResult_loop results timestamp_diff n pos res).2.getD cp.1 0) ∧
      (∀ c, ((trace.filter (fun cp => decide (cp.1 = c))).map Prod.snd).Sorted (· < ·)) ∧
      (∀ k, pos.getD k 0
        ≤ (HATableImpl.MergeResult_loop results timestamp_diff n pos res).2.getD k 0) ∧
      ((∀ k, pos.getD k 0 ≤ (results.getD k []).length) →
        ∀ k, (HATableImpl.MergeResult_loop results timestamp_diff n pos res).2.getD k 0
          ≤ (results.getD k []).length) := by
  induction n generalizing pos res with
  | zero =>
    exact ⟨[], le_refl _, by simp [HATableImpl.MergeResult_loop], by simp, by simp,
      by simp [HATableImpl.MergeResult_loop], by simp [HATableImpl.MergeResult_loop]⟩
  | succ n ih =>
    rw [HATableImpl.MergeResult_loop]
    cases hscan : HATableImpl.MergeResult_scan pos results 0 none with
    | none => exact ⟨[], Nat.zero_le _, by simp, by simp, by simp, by simp, by simp⟩
    | some ct =>
      obtain ⟨c, T⟩ := ct
      obtain ⟨r, kv, hr, hkv, _, _, _⟩ := MergeResult_scan_top pos results c T hscan
      obtain ⟨a1, a2, a3⟩ := MergeResult_advance_spec results timestamp_diff c T
        results.length 0 pos
      have hc : (HATableImpl.MergeResult_advance results timestamp_diff c T results.length 0
          pos).getD c 0 = pos.getD c 0 := a3 (Nat.zero_le _) c (le_refl _)
      have hrc : results.getD c [] = r := getD_eq_of_getElem? results c r hr
      have hclt : c < results.length := (List.getElem?_eq_some.1 hr).1
      have hplt : pos.getD c 0 < r.length := (List.getElem?_eq_some.1 hkv).1
      simp only [hrc, hc, hkv]
      obtain ⟨trace, i1, i2, i3, i4, i5, i6⟩ := ih
        ((HATableImpl.MergeResult_advance results timestamp_diff c T results.length 0 pos).set c
          (pos.getD c 0 + 1)) (res ++ [kv]) (by rw [List.length_set, a1, hlen])
      have hpos2 : ∀ k, pos.getD k 0 ≤
          ((HATableImpl.MergeResult_advance results timestamp_diff c T results.length 0 pos).set c
            (pos.getD c 0 + 1)).getD k 0 := by
        intro k
        rw [getD_set_nat]
        split
        · rename_i hk
          rw [hk.1]
          omega
        · exact a2 k
      have hpos2c : ((HATableImpl.MergeResult_advance results timestamp_diff c T results.length
          0 pos).set c (pos.getD c 0 + 1)).getD c 0 = pos.getD c 0 + 1 := by
        rw [getD_set_nat, if_pos ⟨rfl, by rw [a1, hlen]; exact hclt⟩]
      refine ⟨(c, pos.getD c 0) :: trace, by simp only [List.length_cons]; omega, ?_, ?_, ?_,
        fun k => le_trans (hpos2 k) (i5 k), ?_⟩
      · rw [i2, List.filterMap_cons]
        simp only [hrc, hkv, List.append_assoc, List.singleton_append]
      · intro cp hcp
        rcases List.mem_cons.1 hcp with rfl | hcp'
        · refine ⟨by rw [hrc]; exact hplt, le_refl _, ?_⟩
          have := i5 c
          rw [hpos2c] at this
          exact this
        · obtain ⟨b1, b2, b3⟩ := i3 cp hcp'
          exact ⟨b1, le_trans (hpos2 cp.1) b2, b3⟩
      · intro c0
        by_cases hcc : c = c0
        · subst hcc
          simp only [List.filter_cons, decide_True, if_true, List.map_cons]
          refine List.sorted_cons.2 ⟨?_, i4 c⟩
          intro p hp
          obtain ⟨cp, hcp, rfl⟩ := List.mem_map.1 hp
          obtain ⟨hcp1, hcp2⟩ := List.mem_filter.1 hcp
          have hcpc : cp.1 = c := by simpa using hcp2
          have := (i3 cp hcp1).2.1
          rw [hcpc, hpos2c] at this
          omega
        · simp only [List.filter_cons, hcc, decide_False, Bool.false_eq_true, if_false]
          exact i4 c0
      · intro hb
        apply i6
        intro k
        rw [getD_set_nat]
        split
        · rename_i hk
          rw [hk.1, hrc]
          omega
        · exact MergeResult_advance_bound results timestamp_diff c T results.length 0 pos hb k

theorem MergeResult_loop_single (r : RowResult) (timestamp_diff : Int) (n p : Nat)
    (res : RowResult) :
    (HATableImpl.MergeResult_loop [r] timestamp_diff n [p] res).1
      = res ++ (r.drop p).take n := by
  induction n generalizing p res with
  | zero => simp [HATableImpl.MergeResult_loop]
  | succ n ih =>
    rw [HATableImpl.MergeResult_loop]
    cases hcell : r[p]? with
    | none =>
      have hle : r.length ≤ p := by
        by_contra hlt
        rw [List.getElem?_eq_getElem (by omega)] at hcell
        exact absurd hcell (by simp)
      simp [HATableImpl.MergeResult_scan, hcell, List.drop_eq_nil_of_le hle]
    | some kv =>
      have hlt : p < r.length := (List.getElem?_eq_some.1 hcell).1
      have hx : r[p] = kv := (List.getElem?_eq_some.1 hcell).2
      have hdrop : r.drop p = kv :: r.drop (p + 1) := by
        rw [← hx]
        exact List.drop_eq_getElem_cons hlt
      simp only [HATableImpl.MergeResult_scan, List.getD_cons_zero, hcell, if_true,
        List.length_singleton, HATableImpl.MergeResult_advance, ne_eq, not_true_eq_false,
        if_false, List.set_cons_zero]
      rw [ih (p + 1) (res ++ [kv]), hdrop]
      simp

/-- C31. `MergeResult`, for every input, every window and every `max_size`. There is a list
`trace` of pairs (replica, position), one per emitted cell, such that: the output is the list of
the input cells at these positions, so every emitted cell is an input cell; at most `max_size`
cells are emitted; every position lies inside its replica's result; for every replica the
positions emitted from it are strictly increasing along the output, so no position is emitted
twice and the cells emitted from one replica form a subsequence of its result. Every cursor ends
between 0 and the length of its result. For a single input the output is its first
`min(max_size, length)` cells. -/
theorem MergeResult_emits_input_cells (FLAGS : Flags) (results : List RowResult)
    (max_size : Nat) :
    (∃ trace : List (Nat × Nat),
      HATableImpl.MergeResult FLAGS results [] max_size
        = trace.filterMap (fun cp => (results.getD cp.1 [])[cp.2]?) ∧
      trace.length = (HATableImpl.MergeResult FLAGS results [] max_size).length ∧
      trace.length ≤ max_size ∧
      (∀ cp ∈ trace, cp.1 < results.length ∧ cp.2 < (results.getD cp.1 []).length) ∧
      (∀ c, ((trace.filter (fun cp => decide (cp.1 = c))).map Prod.snd).Sorted (· < ·)) ∧
      trace.Nodup ∧
      (∀ c, (((trace.filter (fun cp => decide (cp.1 = c))).map Prod.snd).filterMap
        (fun p => (results.getD c [])[p]?)).Sublist (results.getD c []))) ∧
    (∀ k, (HATableImpl.MergeResult_loop results FLAGS.tera_sdk_ha_timestamp_diff max_size
        (List.replicate results.length 0) []).2.getD k 0 ≤ (results.getD k []).length) ∧
    (∀ r : RowResult, HATableImpl.MergeResult FLAGS [r] [] max_size = r.take max_size ∧
      (HATableImpl.MergeResult FLAGS [r] [] max_size).length = min max_size r.length) := by
  obtain ⟨trace, t1, t2, t3, t4, _, t6⟩ := MergeResult_loop_trace results
    FLAGS.tera_sdk_ha_timestamp_diff max_size (List.replicate results.length 0) [] (by simp)
  have hrange : ∀ cp ∈ trace, cp.1 < results.length ∧ cp.2 < (results.getD cp.1 []).length := by
    intro cp hcp
    have h := (t3 cp hcp).1
    refine ⟨?_, h⟩
    by_contra hge
    rw [getD_nil_of_le results cp.1 (by omega)] at h
    simp at h
  refine ⟨⟨trace, by simpa [HATableImpl.MergeResult] using t2, ?_, t1, hrange, t4, ?_, ?_⟩,
    ?_, ?_⟩
  · have hout : HATableImpl.MergeResult FLAGS results [] max_size
        = trace.filterMap (fun cp => (results.getD cp.1 [])[cp.2]?) := by
      simpa [HATableImpl.MergeResult] using t2
    rw [hout]
    clear t1 t2 t3 t4 t6 hout
    induction trace with
    | nil => rfl
    | cons cp rest ih =>
      have h := (hrange cp (by simp)).2
      rw [List.filterMap_cons, List.getElem?_eq_getElem h]
      simp only [List.length_cons]
      rw [ih (fun q hq => hrange q (by simp [hq]))]
  · rw [List.Nodup, List.pairwise_iff_forall_sublist]
    intro a b hab heq
    subst heq
    have h1 : ([a, a].filter (fun cp => decide (cp.1 = a.1))).Sublist
        (trace.filter (fun cp => decide (cp.1 = a.1))) := hab.filter _
    have h2 := h1.map Prod.snd
    simp only [List.filter_cons, decide_True, if_true, List.filter_nil, List.map_cons,
      List.map_nil] at h2
    have h3 := (List.pairwise_iff_forall_sublist.1 (t4 a.1)) h2
    exact absurd h3 (lt_irrefl _)
  · intro c
    have h := sorted_lookup_sublist (results.getD c [])
      ((trace.filter (fun cp => decide (cp.1 = c))).map Prod.snd) 0 (t4 c)
      (fun _ _ => Nat.zero_le _)
    simpa using h
  · apply t6
    intro k
    by_cases hk : k < results.length
    · simp [List.getD_eq_getElem?_getD, List.getElem?_replicate, hk]
    · simp [List.getD_eq_getElem?_getD, List.getElem?_replicate, hk]
  · intro r
    have h := MergeResult_loop_single r FLAGS.tera_sdk_ha_timestamp_diff max_size 0 []
    have hout : HATableImpl.MergeResult FLAGS [r] [] max_size = r.take max_size := by
      simpa [HATableImpl.MergeResult] using h
    exact ⟨hout, by rw [hout, List.length_take]⟩

/-- Witness of C31: the single input `result_B` with `max_size = 1` gives its first cell; in
scenario S4 the three emitted cells are input cells and no cursor leaves its result. -/
theorem MergeResult_emits_input_cells_witness :
    HATableImpl.MergeResult flags_default [result_B] [] 1 = [cell 99 "old"] ∧
    (HATableImpl.MergeResult flags_default [result_B] [] 1).length = 1 ∧
    (∀ k, (HATableImpl.MergeResult_loop [result_A, result_B]
        flags_default.tera_sdk_ha_timestamp_diff 3
        (List.replicate [result_A, result_B].length 0) []).2.getD k 0
      ≤ ([result_A, result_B].getD k []).length) :=
  ⟨((MergeResult_emits_input_cells flags_default [result_B] 1).2.2 result_B).1,
    ((MergeResult_emits_input_cells flags_default [result_B] 1).2.2 result_B).2,
    (MergeResult_emits_input_cells flags_default [result_A, result_B] 3).2.1⟩

/-! ## DDL fan-out with fail-fast: all or nothing (C32) -/

theorem ddl_loop_all_ok (FLAGS : Flags) (op : ClientImpl → Bool × ErrorCode)
    (cs : List ClientImpl) (i : Nat) (s : DdlState) (hall : ∀ c ∈ cs, (op c).1 = true) :
    (HAClientImpl.ddl_loop FLAGS op cs i s).fail_fast = s.fail_fast ∧
    (HAClientImpl.ddl_loop FLAGS op cs i s).failed_count = s.failed_count ∧
    invoked (HAClientImpl.ddl_loop FLAGS op cs i s).log
      = invoked s.log ++ List.range' i cs.length := by
  induction cs generalizing i s with
  | nil => simp [HAClientImpl.ddl_loop]
  | cons u cs ih =>
    have hu : (op u).1 = true := hall u (by simp)
    rw [HAClientImpl.ddl_loop]
    simp only [hu, Bool.not_true, Bool.false_eq_true, if_false]
    obtain ⟨h1, h2, h3⟩ := ih (i + 1)
      { s with err := (op u).2, log := s.log ++ [Event.invoke i []] }
      (fun v hv => hall v (by simp [hv]))
    refine ⟨h1, h2, ?_⟩
    rw [h3, List.length_cons, List.range'_succ i]
    simp [invoked_append, invoked]

theorem ddl_all_or_nothing_spec (self : HAClientImpl) (FLAGS : Flags)
    (op : ClientImpl → Bool × ErrorCode) (err : ErrorCode)
    (hon : FLAGS.tera_sdk_ha_ddl_enable = true) :
    ((self.ddl FLAGS op err).ok = true ↔
      self._clients ≠ [] ∧ ∀ c ∈ self._clients, (op c).1 = true) ∧
    ((self.ddl FLAGS op err).ok = true →
      invoked (self.ddl FLAGS op err).log = List.range self._clients.length ∧
      (self.ddl FLAGS op err).err = ⟨ErrorCodeType.kOK, "success"⟩) := by
  have hall : (∀ c ∈ self._clients, (op c).1 = true) →
      ((self.ddl FLAGS op err).ok = true ↔ self._clients ≠ []) ∧
      invoked (self.ddl FLAGS op err).log = List.range self._clients.length ∧
      ((self.ddl FLAGS op err).ok = true →
        (self.ddl FLAGS op err).err = ⟨ErrorCodeType.kOK, "success"⟩) := by
    intro hall
    obtain ⟨h1, h2, h3⟩ := ddl_loop_all_ok FLAGS op self._clients 0 ⟨0, false, err, []⟩ hall
    simp only [HAClientImpl.ddl, h1, h2, Bool.false_eq_true, if_false, ge_iff_le]
    by_cases hne : self._clients = []
    · simp [hne, HAClientImpl.ddl_loop, invoked]
    · have hpos : 0 < self._clients.length := List.length_pos.2 hne
      rw [if_neg (by omega)]
      exact ⟨by simp [hne], by simpa [invoked, List.range_eq_range'] using h3,
        fun _ => rfl⟩
  have hsome : (self.ddl FLAGS op err).ok = true → ∀ c ∈ self._clients, (op c).1 = true := by
    intro hok
    by_contra hex
    push_neg at hex
    obtain ⟨c, hc, hcf⟩ := hex
    obtain ⟨pre, c', post, hsplit, hpre, hc'⟩ := exists_first
      (fun c : ClientImpl => (op c).1 = false) self._clients ⟨c, hc, by simpa using hcf⟩
    have := (ddl_fail_fast_spec self FLAGS op err hon pre c' post hsplit
      (fun u hu => by simpa using hpre u hu) hc').1
    rw [this] at hok
    exact absurd hok (by simp)
  refine ⟨⟨fun hok => ⟨((hall (hsome hok)).1).1 hok, hsome hok⟩,
    fun h => ((hall h.2).1).2 h.1⟩, fun hok => ?_⟩
  exact ⟨(hall (hsome hok)).2.1, (hall (hsome hok)).2.2 hok⟩

/-- C32. A mutating DDL operation (`CreateTable` and the thirteen operations with the same
body) with `tera_sdk_ha_ddl_enable` set, on any replica list: it returns true exactly when the
list is non-empty and every replica reported OK; and when it returns true every replica was
invoked exactly once, in order, and the error is `kOK` / "success". -/
theorem ddl_fail_fast_all_or_nothing (self : HAClientImpl) (FLAGS : Flags) (err : ErrorCode)
    (op : ClientImpl → Bool × ErrorCode) (run : HAClientImpl → Flags → ErrorCode → WriteResult)
    (hrun : (op, run) ∈ [(ClientImpl.CreateTable, HAClientImpl.CreateTable),
      (ClientImpl.CreateTable_delim, HAClientImpl.CreateTable_delim),
      (ClientImpl.UpdateTable, HAClientImpl.UpdateTable),
      (ClientImpl.DeleteTable, HAClientImpl.DeleteTable),
      (ClientImpl.DisableTable, HAClientImpl.DisableTable),
      (ClientImpl.EnableTable, HAClientImpl.EnableTable),
      (ClientImpl.CreateUser, HAClientImpl.CreateUser),
      (ClientImpl.DeleteUser, HAClientImpl.DeleteUser),
      (ClientImpl.ChangePwd, HAClientImpl.ChangePwd),
      (ClientImpl.AddUserToGroup, HAClientImpl.AddUserToGroup),
      (ClientImpl.DeleteUserFromGroup, HAClientImpl.DeleteUserFromGroup),
      (ClientImpl.DelSnapshot, HAClientImpl.DelSnapshot),
      (ClientImpl.Rollback, HAClientImpl.Rollback),
      (ClientImpl.Rename, HAClientImpl.Rename)])
    (hon : FLAGS.tera_sdk_ha_ddl_enable = true) :
    ((run self FLAGS err).ok = true ↔
      self._clients ≠ [] ∧ ∀ c ∈ self._clients, (op c).1 = true) ∧
    ((run self FLAGS err).ok = true →
      invoked (run self FLAGS err).log = List.range self._clients.length ∧
      (run self FLAGS err).err = ⟨ErrorCodeType.kOK, "success"⟩) := by
  simp only [List.mem_cons, Prod.mk.injEq, List.mem_singleton, List.not_mem_nil, or_false]
    at hrun
  casesm* _ ∨ _ <;>
    (rename_i hcase; obtain ⟨rfl, rfl⟩ := hcase
     exact ddl_all_or_nothing_spec self FLAGS _ err hon)

/-- Witness of C32: with fail-fast on, `Rename` on three willing replicas returns true after
invoking all three, and `CreateTable` with a refusing replica in the middle returns false. -/
theorem ddl_fail_fast_all_or_nothing_witness :
    flags_default.tera_sdk_ha_ddl_enable = true ∧
    ((HAClientImpl.mk [willing, willing, willing]).Rename flags_default down).ok = true ∧
    invoked ((HAClientImpl.mk [willing, willing, willing]).Rename flags_default down).log
      = [0, 1, 2] ∧
    ((HAClientImpl.mk [willing, willing, willing]).Rename flags_default down).err
      = ⟨ErrorCodeType.kOK, "success"⟩ ∧
    ((HAClientImpl.mk [willing, refusing, willing]).CreateTable flags_default down).ok
      ≠ true ∧
    ((HAClientImpl.mk []).CreateTable flags_default down).ok ≠ true := by
  have h := ddl_fail_fast_all_or_nothing (HAClientImpl.mk [willing, willing, willing])
    flags_default down ClientImpl.Rename HAClientImpl.Rename (by simp) rfl
  have hok := h.1.2 ⟨List.cons_ne_nil _ _, by simp [willing]⟩
  have h2 := ddl_fail_fast_all_or_nothing (HAClientImpl.mk [willing, refusing, willing])
    flags_default down ClientImpl.CreateTable HAClientImpl.CreateTable
    (List.mem_cons_self _ _) rfl
  have h3 := ddl_fail_fast_all_or_nothing (HAClientImpl.mk [])
    flags_default down ClientImpl.CreateTable HAClientImpl.CreateTable
    (List.mem_cons_self _ _) rfl
  refine ⟨rfl, hok, (h.2 hok).1, (h.2 hok).2, fun hc => ?_, fun hc => (h3.1.1 hc).1 rfl⟩
  have := (h2.1.1 hc).2 refusing (by simp)
  simp [refusing] at this

/-! ## The empty replica list (C33) -/

/-- C33, as the code has it. With no replica, the scalar writes, the mutating DDL operations,
the read and admin operations, `GetTableDescriptor`, `OpenTable` and `CmdCtrl` return false
(resp. null), invoke nothing and leave the caller's error (and the two results of `CmdCtrl`) as
it was, whatever the flags are. The scalar `Get` does so when random mode is off; in random
mode it calls `ShuffleArray` on the empty copy of `_tables` and produces no result. -/
theorem empty_replica_list (FLAGS : Flags) (random : Nat → Nat) (err : ErrorCode)
    (bool_result : Bool) (str_result : String) :
    (∀ run ∈ [HATableImpl.Put, HATableImpl.Add, HATableImpl.AddInt64, HATableImpl.PutIfAbsent,
        HATableImpl.Append], run (HATableImpl.mk []) err = ⟨false, err, []⟩) ∧
    (∀ run ∈ [HATableImpl.Get_string, HATableImpl.Get_int64],
      (FLAGS.tera_sdk_ha_get_random_mode = false →
        run (HATableImpl.mk []) FLAGS random err = some ⟨false, err, []⟩) ∧
      (FLAGS.tera_sdk_ha_get_random_mode = true →
        run (HATableImpl.mk []) FLAGS random err = none)) ∧
    (∀ run ∈ [HAClientImpl.CreateTable, HAClientImpl.CreateTable_delim,
        HAClientImpl.UpdateTable, HAClientImpl.DeleteTable, HAClientImpl.DisableTable,
        HAClientImpl.EnableTable, HAClientImpl.CreateUser, HAClientImpl.DeleteUser,
        HAClientImpl.ChangePwd, HAClientImpl.AddUserToGroup, HAClientImpl.DeleteUserFromGroup,
        HAClientImpl.DelSnapshot, HAClientImpl.Rollback, HAClientImpl.Rename],
      run (HAClientImpl.mk []) FLAGS err = ⟨false, err, []⟩) ∧
    (∀ run ∈ [HAClientImpl.ShowUser, HAClientImpl.GetTabletLocation, HAClientImpl.List_tables,
        HAClientImpl.List_table, HAClientImpl.IsTableExist, HAClientImpl.IsTableEnabled,
        HAClientImpl.IsTableEmpty, HAClientImpl.GetSnapshot],
      run (HAClientImpl.mk []) FLAGS err = ⟨false, err, []⟩) ∧
    (HAClientImpl.mk []).GetTableDescriptor FLAGS err = (none, err, []) ∧
    (HAClientImpl.mk []).OpenTable FLAGS err = (none, err, []) ∧
    (HAClientImpl.mk []).CmdCtrl FLAGS bool_result str_result err
      = ⟨false, bool_result, str_result, err, []⟩ := by
  refine ⟨?_, ?_, ?_, ?_, rfl, rfl, rfl⟩
  · intro run hrun
    simp only [List.mem_cons, List.mem_singleton, List.not_mem_nil, or_false] at hrun
    casesm* _ ∨ _ <;> (rename_i hcase; subst hcase; rfl)
  · intro run hrun
    have hs : HATableImpl.ShuffleArray random ([] : List TableImpl) = none := by
      have h : (([] : List TableImpl).length + 2 ^ 64 - 1) % 2 ^ 64 = (2 ^ 64 - 2) + 1 := by
        norm_num
      unfold HATableImpl.ShuffleArray
      rw [h, HATableImpl.ShuffleArray_loop]
      norm_num
    have hboth : ∀ op : TableImpl → Bool × ErrorCode,
        (FLAGS.tera_sdk_ha_get_random_mode = false →
          (HATableImpl.mk []).Get_scalar FLAGS random op err = some ⟨false, err, []⟩) ∧
        (FLAGS.tera_sdk_ha_get_random_mode = true →
          (HATableImpl.mk []).Get_scalar FLAGS random op err = none) := by
      intro op
      constructor
      · intro hoff
        simp [HATableImpl.Get_scalar, HATableImpl.table_set, hoff,
          HATableImpl.Get_scalar_loop]
      · intro hon
        simp [HATableImpl.Get_scalar, HATableImpl.table_set, hon, hs]
    simp only [List.mem_cons, List.mem_singleton, List.not_mem_nil, or_false] at hrun
    rcases hrun with rfl | rfl
    · exact hboth TableImpl.Get_string
    · exact hboth TableImpl.Get_int64
  · intro run hrun
    simp only [List.mem_cons, List.mem_singleton, List.not_mem_nil, or_false] at hrun
    casesm* _ ∨ _ <;> (rename_i hcase; subst hcase; rfl)
  · intro run hrun
    simp only [List.mem_cons, List.mem_singleton, List.not_mem_nil, or_false] at hrun
    casesm* _ ∨ _ <;> (rename_i hcase; subst hcase; rfl)

/-- C33 at its failing input: the scalar `Get` on a table without replicas in random mode
produces no result (the remainder modulo zero of `ShuffleArray`), where the same call with
random mode off returns false and leaves the error as it was. -/
theorem Get_scalar_empty_random_mode :
    flags_random.tera_sdk_ha_get_random_mode = true ∧
    ((HATableImpl.mk []).Get_string flags_random (fun _ => 0) down).isNone = true ∧
    ((HATableImpl.mk []).Get_int64 flags_random (fun _ => 0) down).isNone = true ∧
    ((HATableImpl.mk []).Get_string flags_default (fun _ => 0) down).map
      (fun r => (r.ok, r.err, r.log)) = some (false, down, []) :=
  ⟨rfl,
    by rw [((empty_replica_list flags_random (fun _ => 0) down true "").2.1
      HATableImpl.Get_string (List.mem_cons_self _ _)).2 rfl]; rfl,
    by rw [((empty_replica_list flags_random (fun _ => 0) down true "").2.1
      HATableImpl.Get_int64 (by simp)).2 rfl]; rfl,
    by rw [((empty_replica_list flags_default (fun _ => 0) down true "").2.1
      HATableImpl.Get_string (List.mem_cons_self _ _)).1 rfl]; rfl⟩

end tera
